import Mathlib

/-! # go-dune/ini : a verification development

Shallow embedding of `config.go`, `errors.go` and `parser.go`.

Modelling conventions.

* A Go `string` is modelled as the list of its runes (`Str = List Char`); the
  regular expressions and `strings.TrimSpace` of the source work rune by rune.
* A Go `map[string]V` is modelled as an association list with unique keys
  (`mapGet` is `m[k]`, `mapSet` is `m[k] = v`).  Iteration order of a Go map is
  unspecified; the list order is one admissible order.
* The four compiled regular expressions of `parser.go` are expanded into explicit
  leftmost-first searches (`reCommentReplaceAll`, `reSectionFind`, `reAppendFind`,
  `reAssignFind`); each carries the pattern it embeds.
* The operating system (`os.Open`, `filepath.Abs`, `filepath.Dir`,
  `filepath.Join`) is a parameter `Env`.
* An `io.Reader` is a `Reader`: the text it delivers and how its reads end, with
  `io.EOF` or with another error (the reads of a directory).  A string stands
  for the reader that delivers it and then reports `io.EOF`.
* Methods that mutate the receiver return the new `Parser` next to their
  `Outcome`; a Go run-time panic (index out of range) is the outcome `panic`.
* `uint` is 64 bits wide: the line counter is a `Nat` incremented modulo `2^64`.
-/

namespace Ini

/-- A Go string, as the sequence of its runes. -/
abbrev Str := List Char

/-! ## The Go standard library functions used by the source -/

/-- The predicate `unicode.IsSpace`: the white space of `strings.TrimSpace`. -/
def isSpace (c : Char) : Bool :=
  c.toNat == 0x09 || c.toNat == 0x0A || c.toNat == 0x0B || c.toNat == 0x0C ||
  c.toNat == 0x0D || c.toNat == 0x20 || c.toNat == 0x85 || c.toNat == 0xA0 ||
  c.toNat == 0x1680 || (0x2000 ≤ c.toNat && c.toNat ≤ 0x200A) ||
  c.toNat == 0x2028 || c.toNat == 0x2029 || c.toNat == 0x202F ||
  c.toNat == 0x205F || c.toNat == 0x3000

/-- The function `strings.TrimSpace`: leading and trailing white space removed. -/
def trimSpace (s : Str) : Str :=
  ((s.dropWhile isSpace).reverse.dropWhile isSpace).reverse

/-- The function `strings.HasPrefix`. -/
def hasPrefixStr : Str → Str → Bool
  | _, [] => true
  | [], _ :: _ => false
  | c :: s, d :: pre => c == d && hasPrefixStr s pre

/-- The function `strings.TrimPrefix`: `s` without the leading `pre`, or `s` itself. -/
def trimPrefixStr (s pre : Str) : Str :=
  if hasPrefixStr s pre then s.drop pre.length else s

/-! ## config.go -/

/-- Lookup `m[k]` of a Go map together with its `exists` flag. -/
def mapGet {V : Type} : List (Str × V) → Str → Option V
  | [], _ => none
  | (k', v) :: rest, k => if k' = k then some v else mapGet rest k

/-- Assignment `m[k] = v` of a Go map: replaces the entry of `k` or adds one. -/
def mapSet {V : Type} : List (Str × V) → Str → V → List (Str × V)
  | [], k, v => [(k, v)]
  | (k', v') :: rest, k, v =>
    if k' = k then (k, v) :: rest else (k', v') :: mapSet rest k v

/-- The keys of a Go map (`for key := range m`). -/
def mapKeys {V : Type} (m : List (Str × V)) : List Str := m.map Prod.fst

/-- The type `map[string]map[string]string` held by a `Config`. -/
abbrev Table := List (Str × List (Str × Str))

/-- The struct `Config` (its lock is not modelled: one caller at a time). -/
structure Config where
  cfg : Table
  deriving DecidableEq, Repr

/-- The constructor `NewConfig`. -/
def NewConfig : Config := { cfg := [] }

/-- The expression `c.cfg[s][l]`: a missing section or label reads as `""`. -/
def Config.Value (c : Config) (s l : Str) : Str :=
  match mapGet c.cfg s with
  | none => []
  | some m =>
    match mapGet m l with
    | none => []
    | some v => v

/-- The method `setValueNoLock` (`sect` is the source's parameter `section`). -/
def Config.setValueNoLock (c : Config) (sect label value : Str) : Config :=
  let cfg1 : Table :=
    match mapGet c.cfg sect with
    | some _ => c.cfg
    | none => mapSet c.cfg sect []
  let m : List (Str × Str) :=
    match mapGet cfg1 sect with
    | some m => m
    | none => []
  { cfg := mapSet cfg1 sect (mapSet m label value) }

/-- The method `SetValue`. -/
def Config.SetValue (c : Config) (s l value : Str) : Config :=
  c.setValueNoLock s l value

/-- The method `AppendValue`. -/
def Config.AppendValue (c : Config) (s l value sep : Str) : Config :=
  let curValue := c.Value s l
  if curValue = [] then
    c.setValueNoLock s l value
  else
    c.setValueNoLock s l (curValue ++ sep ++ value)

/-- The method `Sections`. -/
def Config.Sections (c : Config) : List Str := mapKeys c.cfg

/-- The method `Labels`: ranging over a missing section yields nothing. -/
def Config.Labels (c : Config) (s : Str) : List Str :=
  match mapGet c.cfg s with
  | none => []
  | some m => mapKeys m

/-- The method `SetSection` (the map `m` is copied, so it is a value here). -/
def Config.SetSection (c : Config) (s : Str) (m : List (Str × Str)) : Config :=
  { cfg := mapSet c.cfg s m }

/-- Label `l` is a key of section `s` of the store and holds `v`. -/
def Config.HasLabel (c : Config) (s l v : Str) : Prop :=
  ∃ m, mapGet c.cfg s = some m ∧ mapGet m l = some v

/-! ## errors.go -/

/-- The struct `SyntaxError`. -/
structure SyntaxError where
  path : Str
  lineNr : Nat
  msg : Str
  deriving DecidableEq, Repr

/-- A Go `error` value returned by the parser: a `*SyntaxError`, or the
`*os.PathError` of a failed `os.Open`. -/
inductive GoError where
  | syntaxError (e : SyntaxError)
  | openError (path : Str)
  deriving DecidableEq, Repr

/-- How a call ends: `return nil`, `return err`, a run-time panic, or the model
running out of fuel.  Fuel bounds the depth of the recursion through nested
files and the number of turns of the loop of `parseReader` on reads that fail;
a call that runs out of fuel whatever the fuel never returns. -/
inductive Outcome where
  | ok
  | err (e : GoError)
  | panic
  | outOfFuel
  deriving DecidableEq, Repr

/-! ## parser.go : the compiled regular expressions -/

/-- The character class `[;|#]` of `reComment`: it holds `;`, `|` and `#`. -/
def isCommentChar (c : Char) : Bool := c == ';' || c == '|' || c == '#'

/-- The call `reComment.ReplaceAllString(line, "")` for the pattern
`[;|#]+(.*)$`.  A match starts at a class character; `.` does not match a
newline and `$` (no `m` flag) matches at the end of the text only, so the
leftmost match starts at the first class character with no newline after it
and runs to the end of the text; what precedes it is kept. -/
def reCommentReplaceAll : Str → Str
  | [] => []
  | c :: cs =>
    if isCommentChar c && cs.all (fun d => d != '\n') then []
    else c :: reCommentReplaceAll cs

/-- An attempt to match `\[([^]]+)]` at the very start of `s`: the result is
group 1.  The greedy run `[^]]+` stops before the first `]` (or at the end); a
shorter run is followed by a character other than `]`, so only the full run can
be followed by the closing `]`. -/
def reSectionAt : Str → Option Str
  | [] => none
  | c :: r =>
    if c == '[' && !(r.takeWhile (fun d => d != ']')).isEmpty
        && (r.dropWhile (fun d => d != ']')).head? == some ']' then
      some (r.takeWhile (fun d => d != ']'))
    else none

/-- The call `reSection.FindStringSubmatch(line)` for `\[([^]]+)]`: group 1 of
the leftmost match, `none` when the result is `nil`. -/
def reSectionFind : Str → Option Str
  | [] => none
  | c :: cs =>
    match reSectionAt (c :: cs) with
    | some g => some g
    | none => reSectionFind cs

/-- An attempt to match `([^x]+)op(.*)` at the very start of `s`, where `x` is the
first character of the operator `op` (`+=` for `reAppend`, `=` for `reAssign`):
groups 1 and 2.  The greedy run `[^x]+` stops before the first `x`; a shorter run
is followed by a character other than `x`.  Group 2 runs to the next newline. -/
def reLabelValueAt (x : Char) (op : Str) (s : Str) : Option (Str × Str) :=
  let g1 := s.takeWhile (fun d => d != x)
  let rest := s.dropWhile (fun d => d != x)
  if !g1.isEmpty && hasPrefixStr rest op then
    some (g1, (rest.drop op.length).takeWhile (fun d => d != '\n'))
  else none

/-- The leftmost match of `([^x]+)op(.*)` in `s` (`FindStringSubmatch`). -/
def reLabelValueFind (x : Char) (op : Str) : Str → Option (Str × Str)
  | [] => none
  | c :: cs =>
    match reLabelValueAt x op (c :: cs) with
    | some g => some g
    | none => reLabelValueFind x op cs

/-- The call `reAppend.FindStringSubmatch(line)` for `([^+]+)\+=(.*)`. -/
def reAppendFind (line : Str) : Option (Str × Str) :=
  reLabelValueFind '+' ['+', '='] line

/-- The call `reAssign.FindStringSubmatch(line)` for `([^=]+)=(.*)`. -/
def reAssignFind (line : Str) : Option (Str × Str) :=
  reLabelValueFind '=' ['='] line

/-! ## parser.go : the line classifier -/

/-- The function `removeComments`. -/
def removeComments (line : Str) : Str :=
  trimSpace (reCommentReplaceAll line)

/-- The function `readSectionName`. -/
def readSectionName (line : Str) : Bool × Str :=
  match reSectionFind line with
  | some g => (true, trimSpace g)
  | none => (false, [])

/-- The function `readLabelValue`, applied to the result of `FindStringSubmatch`. -/
def readLabelValue (submatch : Option (Str × Str)) : Bool × Str × Str :=
  match submatch with
  | some (g1, g2) => (true, trimSpace g1, trimSpace g2)
  | none => (false, [], [])

/-- The function `readAppend`. -/
def readAppend (line : Str) : Bool × Str × Str :=
  readLabelValue (reAppendFind line)

/-- The function `readAssign`. -/
def readAssign (line : Str) : Bool × Str × Str :=
  readLabelValue (reAssignFind line)

/-! ## parser.go : the parser -/

/-- An opened `io.Reader`, as `bio.ReadString(10)` shows it to `parseReader`:
the text it delivers, and how its reads end.  With `fails = false` the text is
followed by `io.EOF`.  With `fails = true` it is followed by an error other than
`io.EOF` that every further read repeats: `os.Open` opens a directory, and
every read of it fails (then the text is empty). -/
structure Reader where
  content : Str
  fails : Bool
  deriving DecidableEq, Repr

/-- A string stands for the reader that delivers it and then reports `io.EOF`. -/
instance : Coe Str Reader := ⟨fun s => { content := s, fails := false }⟩

/-- The operating system as the parser sees it.  `files` gives the reader that
`os.Open` returns for the file at an absolute path, when there is one that can
be opened; `abs`, `dir` and `join` are `filepath.Abs`, `filepath.Dir` and
`filepath.Join`. -/
structure Env where
  files : Str → Option Reader
  abs : Str → Str
  dir : Str → Str
  join : Str → Str → Str

/-- The call `os.Open(path)` followed by reading the file: a relative path is
opened relative to the working directory, which is the file `filepath.Abs`
names. -/
def Env.openFile (env : Env) (path : Str) : Option Reader :=
  env.files (env.abs path)

/-- The struct `Parser`.  The stacks grow at the end, as Go slices do; the set
`visitedFiles` is the list of its keys. -/
structure Parser where
  Config : Config
  curSection : Str
  curLabel : Str
  fileStack : List Str
  lineNrStack : List Nat
  visitedFiles : List Str
  deriving DecidableEq, Repr

/-- The constructor `NewParser`; `none` is the `nil` configuration. -/
def NewParser (c : Option Config) : Parser :=
  { Config := match c with
      | none => NewConfig
      | some c => c,
    curSection := [], curLabel := [], fileStack := [], lineNrStack := [],
    visitedFiles := [] }

/-- The method `curFile`: `none` is the index-out-of-range panic. -/
def Parser.curFile (p : Parser) : Option Str := p.fileStack.getLast?

/-- The method `curLineNr`: `none` is the index-out-of-range panic. -/
def Parser.curLineNr (p : Parser) : Option Nat := p.lineNrStack.getLast?

/-- The method `incLineNr`: `none` is the index-out-of-range panic. -/
def Parser.incLineNr (p : Parser) : Option Parser :=
  match p.lineNrStack.getLast? with
  | none => none
  | some n =>
    some { p with lineNrStack := p.lineNrStack.dropLast ++ [(n + 1) % 2 ^ 64] }

/-- The composite literal `&SyntaxError{p.curFile(), p.curLineNr(), msg}`. -/
def Parser.syntaxError (p : Parser) (msg : Str) : Outcome :=
  match p.curFile, p.curLineNr with
  | some f, some n => .err (.syntaxError { path := f, lineNr := n, msg := msg })
  | _, _ => .panic

/-- The method `pushFile`. -/
def Parser.pushFile (env : Env) (p : Parser) (path : Str) : Outcome × Parser :=
  let absPath := env.abs path
  if absPath ∈ p.visitedFiles then
    (p.syntaxError "include loop".toList, p)
  else
    (.ok, { p with visitedFiles := p.visitedFiles ++ [absPath],
                   fileStack := p.fileStack ++ [path],
                   lineNrStack := p.lineNrStack ++ [0] })

/-- The method `popFile`.  Both slices are cut to `len(p.fileStack) - 1`; the
two stacks are equally long in every state the parser builds, so the cut of
`lineNrStack` is within its length. -/
def Parser.popFile (p : Parser) : Parser :=
  let stackLen := p.fileStack.length
  if stackLen > 0 then
    { p with fileStack := p.fileStack.take (stackLen - 1),
             lineNrStack := p.lineNrStack.take (stackLen - 1) }
  else p

/-- The method `insertValue` (`sect` is the parameter `section`, `app` is `append`). -/
def Parser.insertValue (p : Parser) (sect label value : Str) (app : Bool) :
    Outcome × Parser :=
  if sect = [] then
    (p.syntaxError "empty section name".toList, p)
  else if label = [] then
    (p.syntaxError "empty label".toList, p)
  else if app then
    (.ok, { p with Config := p.Config.AppendValue sect label value [' '] })
  else
    (.ok, { p with Config := p.Config.SetValue sect label value })

/-- The method `resolveIncludeFile`: `none` is the panic of `curFile`. -/
def Parser.resolveIncludeFile (env : Env) (p : Parser) (path : Str) : Option Str :=
  match p.curFile with
  | none => none
  | some f => some (env.join (env.dir f) (trimSpace path))

/-- The method `ParseFile`, over the parse `nested` of an opened reader. -/
def Parser.ParseFileWith (env : Env) (nested : Parser → Reader → Str → Outcome × Parser)
    (p : Parser) (path : Str) : Outcome × Parser :=
  match env.openFile path with
  | none => (.err (.openError path), p)
  | some reader => nested p reader path

/-- The method `handleInclude`, over the parse `nested` of an opened reader. -/
def Parser.handleInclude (env : Env) (nested : Parser → Reader → Str → Outcome × Parser)
    (p : Parser) (line : Str) : Outcome × Parser :=
  match p.resolveIncludeFile env (trimPrefixStr line "Include ".toList) with
  | none => (.panic, p)
  | some incPath =>
    match env.openFile incPath with
    | none => (.ok, p)
    | some reader => nested p reader incPath

/-- The method `handleRequire`, over the parse `nested` of an opened reader. -/
def Parser.handleRequire (env : Env) (nested : Parser → Reader → Str → Outcome × Parser)
    (p : Parser) (line : Str) : Outcome × Parser :=
  match p.resolveIncludeFile env (trimPrefixStr line "Require ".toList) with
  | none => (.panic, p)
  | some incPath => Parser.ParseFileWith env nested p incPath

/-- The method `setCurSection` (`sect` is the parameter `section`). -/
def Parser.setCurSection (p : Parser) (sect : Str) : Outcome × Parser :=
  if sect = [] then
    (p.syntaxError "empty section name".toList, p)
  else
    (.ok, { p with curSection := sect })

/-- The method `handleLine`, over the parse `nested` of an opened reader (the
method `parseReader`, which the directives call back). -/
def Parser.handleLine (env : Env) (nested : Parser → Reader → Str → Outcome × Parser)
    (p0 : Parser) (line : Str) : Outcome × Parser :=
  match p0.incLineNr with
  | none => (.panic, p0)
  | some p =>
    let cleanLine := removeComments (trimSpace line)
    if cleanLine = [] then (.ok, p)
    else
      let sec := readSectionName cleanLine
      if sec.1 then
        if hasPrefixStr sec.2 "Require ".toList then
          Parser.handleRequire env nested p sec.2
        else if hasPrefixStr sec.2 "Include ".toList then
          Parser.handleInclude env nested p sec.2
        else
          p.setCurSection sec.2
      else
        let ap := readAppend cleanLine
        if ap.1 then
          Parser.insertValue { p with curLabel := ap.2.1 } p.curSection ap.2.1 ap.2.2 true
        else
          let as := readAssign cleanLine
          if as.1 then
            Parser.insertValue { p with curLabel := as.2.1 } p.curSection as.2.1 as.2.2 false
          else
            Parser.insertValue p p.curSection p.curLabel as.2.2 true

/-- The successive results of `bio.ReadString(10)` up to and including the one
that reports `io.EOF`: the pieces of the content that end in a newline, then
the (possibly empty) rest. -/
def readLines : Str → List Str
  | [] => [[]]
  | c :: cs =>
    if c = '\n' then [c] :: readLines cs
    else
      match readLines cs with
      | [] => [[c]]
      | l :: ls => (c :: l) :: ls

/-- The loop of `parseReader`: lines are handled in turn until one fails. -/
def handleLines (h : Parser → Str → Outcome × Parser) : Parser → List Str → Outcome × Parser
  | p, [] => (.ok, p)
  | p, l :: ls =>
    match h p l with
    | (.ok, p1) => handleLines h p1 ls
    | (r, p1) => (r, p1)

/-- The loop of `parseReader` from the first read that fails with an error
other than `io.EOF`: `eof` stays false, `ReadString` has returned the empty
string, `handleLine` is called on it, and the loop reads again, with the same
result.  Only an error of `handleLine` ends it; the fuel counts its turns. -/
def readErrorLoop (h : Parser → Str → Outcome × Parser) : Nat → Parser → Outcome × Parser
  | 0, p => (.outOfFuel, p)
  | fuel + 1, p =>
    match h p [] with
    | (.ok, p1) => readErrorLoop h fuel p1
    | (r, p1) => (r, p1)

/-- The loop of `parseReader` on a reader: the lines of its text are handled in
turn; the last of them comes with `io.EOF`, which ends the loop, or with another
error, after which the loop goes on over reads that fail. -/
def readLoop (h : Parser → Str → Outcome × Parser) (fuel : Nat) (p : Parser)
    (reader : Reader) : Outcome × Parser :=
  match handleLines h p (readLines reader.content) with
  | (.ok, p1) => if reader.fails then readErrorLoop h fuel p1 else (.ok, p1)
  | (r, p1) => (r, p1)

/-- The method `parseReader`.  The fuel bounds the depth of nested files and the
turns of the loop over reads that fail; `popFile` is deferred, so it runs on
every return that follows a successful `pushFile`. -/
def Parser.parseReader : Nat → Env → Parser → Reader → Str → Outcome × Parser
  | 0, _, p, _, _ => (.outOfFuel, p)
  | fuel + 1, env, p, reader, path =>
    match Parser.pushFile env p path with
    | (.ok, p1) =>
      let r := readLoop
        (Parser.handleLine env (fun q c f => Parser.parseReader fuel env q c f))
        fuel p1 reader
      (r.1, r.2.popFile)
    | (r, p1) => (r, p1)

/-- The method `Parse`. -/
def Parser.Parse (fuel : Nat) (env : Env) (p : Parser) (reader : Reader) :
    Outcome × Parser :=
  Parser.parseReader fuel env p reader []

/-- The method `ParseFile`. -/
def Parser.ParseFile (fuel : Nat) (env : Env) (p : Parser) (path : Str) : Outcome × Parser :=
  Parser.ParseFileWith env (fun q c f => Parser.parseReader fuel env q c f) p path

/-- A file system with a single directory in which every path names itself:
`files` lists the files that exist. -/
def flatEnv (files : List (Str × Str)) : Env :=
  { files := fun a => (mapGet files a).map (fun c => { content := c, fails := false }),
    abs := fun a => a, dir := fun _ => ['.'], join := fun _ a => a }

/-- The parser is inside a parse frame: `pushFile` has pushed a file and its
line counter, and the two stacks are equally long. -/
def Parser.InFrame (p : Parser) : Prop :=
  0 < p.fileStack.length ∧ p.lineNrStack.length = p.fileStack.length

instance (p : Parser) : Decidable p.InFrame := by
  unfold Parser.InFrame
  infer_instance

/-- The line `[Include <path>]`. -/
def includeLine (path : Str) : Str := "[Include ".toList ++ path ++ "]".toList

/-- The line `[Require <path>]`. -/
def requireLine (path : Str) : Str := "[Require ".toList ++ path ++ "]".toList

/-- The parser while it reads the file `a.ini`, before its first line. -/
def stateAtFileStart : Parser :=
  { Config := NewConfig, curSection := [], curLabel := [],
    fileStack := ["a.ini".toList], lineNrStack := [0],
    visitedFiles := ["a.ini".toList] }

/-- The parser of a stream after its lines `[S]` and `L = A`. -/
def stateAfterAssignment : Parser :=
  { Config := { cfg := [("S".toList, [("L".toList, "A".toList)])] },
    curSection := "S".toList, curLabel := "L".toList,
    fileStack := [[]], lineNrStack := [2], visitedFiles := [[]] }

/-- The directive a line carries, as `handleLine` classifies it: `(true, arg)`
for a section header whose name starts with `Require `, `(false, arg)` for one
whose name starts with `Include `; `arg` is what `strings.TrimPrefix` leaves. -/
def directiveOf (line : Str) : Option (Bool × Str) :=
  let cleanLine := removeComments (trimSpace line)
  if cleanLine = [] then none
  else
    let sec := readSectionName cleanLine
    if sec.1 then
      if hasPrefixStr sec.2 "Require ".toList then
        some (true, trimPrefixStr sec.2 "Require ".toList)
      else if hasPrefixStr sec.2 "Include ".toList then
        some (false, trimPrefixStr sec.2 "Include ".toList)
      else none
    else none

/-- State `q` has the stacks of state `p` and has visited at least its files. -/
def SameStacks (q p : Parser) : Prop :=
  q.fileStack = p.fileStack ∧ q.lineNrStack = p.lineNrStack ∧
  p.visitedFiles ⊆ q.visitedFiles

/-- State `q` is in the frame of state `p`: the stacks agree below the line
counter of the top frame, and `q` has visited at least the files of `p`. -/
def FrameStep (q p : Parser) : Prop :=
  q.fileStack = p.fileStack ∧ q.lineNrStack.dropLast = p.lineNrStack.dropLast ∧
  q.lineNrStack.length = p.lineNrStack.length ∧ p.visitedFiles ⊆ q.visitedFiles

/-- The nested parse `nested` keeps the stack discipline: whatever its outcome,
it returns with the stacks it was called with. -/
def NestedOk (nested : Parser → Reader → Str → Outcome × Parser) : Prop :=
  ∀ q c f, q.lineNrStack.length = q.fileStack.length → SameStacks (nested q c f).2 q

/-- The nested parse `nested2` returns what `nested1` returns wherever `nested1`
does not run out of fuel. -/
def Extends (nested2 nested1 : Parser → Reader → Str → Outcome × Parser) : Prop :=
  ∀ q c f, (nested1 q c f).1 ≠ Outcome.outOfFuel → nested2 q c f = nested1 q c f

/-- Processing reaches a directive that closes an inclusion loop.
`ReachesLoop env file k p ls e` reads: the parser is in state `p` while it reads
`file`, of which `k` lines have been handled and the lines `ls` remain; handling
`ls` reaches, with no earlier error and through any chain of `Include` and
`Require` directives, a directive whose resolved absolute path is that of a file
on the file stack; `e` is the "include loop" error stamped with the file that
holds this directive and with its line number (a `uint`, so modulo `2^64`).

* `here`: the next line is such a directive;
* `later`: the next line is handled without error (nested files included) and
  the loop is reached from one of the lines after it;
* `inside`: the next line is a directive that opens and enters a file not yet
  visited, and the loop is reached from within that file. -/
inductive ReachesLoop (env : Env) : Str → Nat → Parser → List Str → SyntaxError → Prop where
  | here (file : Str) (k : Nat) (p : Parser) (line : Str) (rest : List Str)
      (req : Bool) (arg incPath : Str)
      (hdir : directiveOf line = some (req, arg))
      (hres : p.resolveIncludeFile env arg = some incPath)
      (hloop : env.abs incPath ∈ p.fileStack.map env.abs) :
      ReachesLoop env file k p (line :: rest)
        { path := file, lineNr := (k + 1) % 2 ^ 64, msg := "include loop".toList }
  | later (file : Str) (k : Nat) (p p1 : Parser) (line : Str) (rest : List Str)
      (e : SyntaxError)
      (hok : ∃ fuel, Parser.handleLine env
        (fun q c f => Parser.parseReader fuel env q c f) p line = (Outcome.ok, p1))
      (hrest : ReachesLoop env file (k + 1) p1 rest e) :
      ReachesLoop env file k p (line :: rest) e
  | inside (file : Str) (k : Nat) (p p1 p2 : Parser) (line : Str) (rest : List Str)
      (req : Bool) (arg incPath content : Str) (e : SyntaxError)
      (hdir : directiveOf line = some (req, arg))
      (hres : p.resolveIncludeFile env arg = some incPath)
      (hopen : env.openFile incPath = some content)
      (hinc : p.incLineNr = some p1)
      (hpush : Parser.pushFile env p1 incPath = (Outcome.ok, p2))
      (hin : ReachesLoop env incPath 0 p2 (readLines content) e) :
      ReachesLoop env file k p (line :: rest) e

/-- The parser is in state `p` while it reads `file`, of which `k` lines have
been handled, in a parse that a fresh parser has started with `ParseFile`:
the stacks are equally long, the top frame is `(file, k)`, and every file on
the file stack has been opened and is in the visited set. -/
def LoopInv (env : Env) (file : Str) (k : Nat) (p : Parser) : Prop :=
  p.lineNrStack.length = p.fileStack.length ∧ p.curFile = some file ∧
  p.curLineNr = some (k % 2 ^ 64) ∧
  ∀ g ∈ p.fileStack, env.abs g ∈ p.visitedFiles ∧ (env.openFile g).isSome = true

/-- Two files that include each other: `a.ini` includes `b.ini`, which
requires `a.ini`. -/
def loopFiles : Env :=
  flatEnv [("a.ini".toList, "[S]\n[Include b.ini]\nx = 1".toList),
           ("b.ini".toList, "y = 2\n[Require a.ini]".toList)]

/-! ## The line classifier as the specification words it -/

/-- Comment stripping in the words of the specification: the text that precedes
the first `;` or `#`, with surrounding white space trimmed. -/
def stripCommentSpec (line : Str) : Str :=
  trimSpace (line.takeWhile (fun c => c != ';' && c != '#'))

/-- The text before and the text after the first occurrence of the operator `op`
in `line`; `none` when `op` does not occur. -/
def splitAtFirst (op : Str) : Str → Option (Str × Str)
  | [] => none
  | c :: cs =>
    if hasPrefixStr (c :: cs) op then some ([], (c :: cs).drop op.length)
    else
      match splitAtFirst op cs with
      | some (a, b) => some (c :: a, b)
      | none => none

/-- A label/value matcher in the words of the specification: the line is split
at the first occurrence of the operator and both sides are trimmed. -/
def matchOperatorSpec (op : Str) (line : Str) : Bool × Str × Str :=
  match splitAtFirst op line with
  | some (a, b) => (true, trimSpace a, trimSpace b)
  | none => (false, [], [])

/-- A character of a plain name or value: a space, or any character that is
neither white space nor one of `;`, `|`, `#`, `=`, `+`, `[`, `]`.  Every letter
and every digit is such a character. -/
def isPlainChar (c : Char) : Bool :=
  c == ' ' ||
  !(isSpace c || isCommentChar c || c == '=' || c == '+' || c == '[' || c == ']')

/-- A plain name or value: plain characters only, with spaces in the interior
only (it neither starts nor ends with a space). -/
def PlainText (s : Str) : Prop :=
  (∀ c ∈ s, isPlainChar c = true) ∧ s.head? ≠ some ' ' ∧ s.getLast? ≠ some ' '

instance (s : Str) : Decidable (PlainText s) := by
  unfold PlainText
  infer_instance

/-- The pieces that `bio.ReadString(10)` cuts a text into when the text is the
given newline-free segments joined by newlines: every segment but the last
keeps its newline. -/
def markLines : List Str → List Str
  | [] => []
  | [s] => [s]
  | s :: t :: r => (s ++ ['\n']) :: markLines (t :: r)

/-- The flat input of the round trip: the line `[S]` followed by one line
`<label> = <value>` per pair, joined by newlines. -/
def flatText (S : Str) (pairs : List (Str × Str)) : Str :=
  List.intercalate ['\n']
    (('[' :: (S ++ [']'])) :: pairs.map (fun lv => lv.1 ++ " = ".toList ++ lv.2))

/-- The text `"[S]\nL += A\nL += B"`. -/
def doubleAppendText (S L A B : Str) : Str :=
  List.intercalate ['\n']
    [ '[' :: (S ++ [']']), L ++ " += ".toList ++ A, L ++ " += ".toList ++ B ]

/-- The store `{S: m}`, or the empty store when `m` has no label: a section
comes into being with its first label. -/
def storeOf (S : Str) (m : List (Str × Str)) : Table :=
  if m = [] then [] else [(S, m)]

/-- The verb `%d` of `fmt.Sprintf` on a `uint`: the decimal digits. -/
def decimal (n : Nat) : Str := Nat.toDigits 10 n

/-- The method `Error` of `SyntaxError`. -/
def SyntaxError.Error (e : SyntaxError) : Str :=
  if e.path = [] then
    decimal e.lineNr ++ ": ".toList ++ e.msg
  else
    e.path ++ ":".toList ++ decimal e.lineNr ++ ": ".toList ++ e.msg

/-- The state that `pushFile` returns when it accepts `path`. -/
def Parser.entered (env : Env) (p : Parser) (path : Str) : Parser :=
  { p with visitedFiles := p.visitedFiles ++ [env.abs path],
           fileStack := p.fileStack ++ [path],
           lineNrStack := p.lineNrStack ++ [0] }

/-- The parser is in state `p` while it reads `file`, of which `k` lines have been
handled: the stacks are equally long and the top frame is `(file, k)` (the line
counter is a `uint`, so it holds `k` modulo `2^64`). -/
def FrameAt (file : Str) (k : Nat) (p : Parser) : Prop :=
  p.lineNrStack.length = p.fileStack.length ∧ p.curFile = some file ∧
  p.curLineNr = some (k % 2 ^ 64)

/-- A syntax error is raised while line `K` of file `F` is handled.
`RaisesAt env file k p ls F K msg` reads: the parser is in state `p` while it reads
`file`, of which `k` lines have been handled and the lines `ls` remain; handling
`ls` reaches, with no earlier error, line number `K` (counted from 1, within its
own file) of the file `F`, and handling that line raises a syntax error with the
message `msg`.

* `plain`: the next line is no directive and `handleLine` returns a syntax error;
* `loop`: the next line is a directive whose file can be opened and has been
  visited, so `pushFile` raises "include loop";
* `later`: the next line is handled without error (nested files included) and
  the error is raised by one of the lines after it;
* `inside`: the next line is a directive that opens and enters a file, and the
  error is raised within that file. -/
inductive RaisesAt (env : Env) : Str → Nat → Parser → List Str → Str → Nat → Str → Prop where
  | plain (file : Str) (k : Nat) (p q : Parser) (line : Str) (rest : List Str)
      (nested : Parser → Reader → Str → Outcome × Parser) (e : SyntaxError)
      (hdir : directiveOf line = none)
      (herr : Parser.handleLine env nested p line
        = (Outcome.err (GoError.syntaxError e), q)) :
      RaisesAt env file k p (line :: rest) file (k + 1) e.msg
  | loop (file : Str) (k : Nat) (p : Parser) (line : Str) (rest : List Str)
      (req : Bool) (arg incPath content : Str)
      (hdir : directiveOf line = some (req, arg))
      (hres : p.resolveIncludeFile env arg = some incPath)
      (hopen : env.openFile incPath = some content)
      (hvis : env.abs incPath ∈ p.visitedFiles) :
      RaisesAt env file k p (line :: rest) file (k + 1) "include loop".toList
  | later (file : Str) (k : Nat) (p p1 : Parser) (line : Str) (rest : List Str)
      (F : Str) (K : Nat) (msg : Str)
      (hok : ∃ fuel, Parser.handleLine env
        (fun q c f => Parser.parseReader fuel env q c f) p line = (Outcome.ok, p1))
      (hrest : RaisesAt env file (k + 1) p1 rest F K msg) :
      RaisesAt env file k p (line :: rest) F K msg
  | inside (file : Str) (k : Nat) (p p1 : Parser) (line : Str) (rest : List Str)
      (req : Bool) (arg incPath content : Str) (F : Str) (K : Nat) (msg : Str)
      (hdir : directiveOf line = some (req, arg))
      (hres : p.resolveIncludeFile env arg = some incPath)
      (hopen : env.openFile incPath = some content)
      (hinc : p.incLineNr = some p1)
      (hnew : env.abs incPath ∉ p1.visitedFiles)
      (hin : RaisesAt env incPath 0 (p1.entered env incPath) (readLines content) F K msg) :
      RaisesAt env file k p (line :: rest) F K msg

/-- A directory that holds a file like `testdata/invalid_label.ini`: its second
line has no label. -/
def labelFiles : Env :=
  flatEnv [("invalid_label.ini".toList, "[Section]\n= value".toList)]

/-- The layered expansion of the inclusion graph, without the visited set.
`Expands env p ls es q` reads: handling the lines `ls` from state `p` ends in
state `q` with no error, where every line that is no directive is handled
without a syntax error, every `Include` of a file that cannot be opened is
skipped, and every other directive enters its file, handles its lines in the
same way and pops the frame; `es` lists the absolute paths of the files that are
entered, in order.  No constructor asks whether a file has been visited.

* `done`: no line is left;
* `plain`: the next line is no directive and `handleLine` returns `nil`;
* `skip`: the next line is an `Include` whose file cannot be opened;
* `enter`: the next line is a directive whose file is opened and expanded. -/
inductive Expands (env : Env) : Parser → List Str → List Str → Parser → Prop where
  | done (p : Parser) : Expands env p [] [] p
  | plain (p p1 p2 : Parser) (line : Str) (rest : List Str) (es : List Str)
      (nested : Parser → Reader → Str → Outcome × Parser)
      (hdir : directiveOf line = none)
      (hok : Parser.handleLine env nested p line = (Outcome.ok, p1))
      (hrest : Expands env p1 rest es p2) :
      Expands env p (line :: rest) es p2
  | skip (p p1 p2 : Parser) (line : Str) (rest : List Str) (es : List Str)
      (arg incPath : Str)
      (hdir : directiveOf line = some (false, arg))
      (hres : p.resolveIncludeFile env arg = some incPath)
      (hopen : env.openFile incPath = none)
      (hinc : p.incLineNr = some p1)
      (hrest : Expands env p1 rest es p2) :
      Expands env p (line :: rest) es p2
  | enter (p p1 q p2 : Parser) (line : Str) (rest : List Str) (req : Bool)
      (arg incPath content : Str) (es1 es2 : List Str)
      (hdir : directiveOf line = some (req, arg))
      (hres : p.resolveIncludeFile env arg = some incPath)
      (hopen : env.openFile incPath = some content)
      (hinc : p.incLineNr = some p1)
      (hin : Expands env (p1.entered env incPath) (readLines content) es1 q)
      (hrest : Expands env q.popFile rest es2 p2) :
      Expands env p (line :: rest) (env.abs incPath :: (es1 ++ es2)) p2

/-- A file `a.ini` that includes the same file twice: no cycle, every file
exists; `once.ini` is `a.ini` without the second include. -/
def twiceFiles : Env :=
  flatEnv [("a.ini".toList, "[S]\n[Include b.ini]\n[Include b.ini]".toList),
           ("b.ini".toList, "[T]\nx = 1".toList),
           ("once.ini".toList, "[S]\n[Include b.ini]".toList)]

/-- A file that includes one file and requires another, each once. -/
def treeFiles : Env :=
  flatEnv [("a.ini".toList, "[S]\n[Include b.ini]\n[Require c.ini]\nx = 1".toList),
           ("b.ini".toList, "y = 2".toList),
           ("c.ini".toList, "z = 3".toList)]

/-- The parser at the end of the lines of `a.ini` in `treeFiles`. -/
def treeFinal : Parser :=
  { Config := { cfg := [("S".toList,
      [("y".toList, "2".toList), ("z".toList, "3".toList), ("x".toList, "1".toList)])] },
    curSection := "S".toList, curLabel := "x".toList,
    fileStack := ["a.ini".toList], lineNrStack := [4],
    visitedFiles := ["a.ini".toList, "b.ini".toList, "c.ini".toList] }

/-- The store holds no section whose name is empty and no label whose name is
empty: every key of `cfg` and every key of every inner map is a non-empty
string. -/
def Config.NoEmptyNames (c : Config) : Prop :=
  ∀ sm ∈ c.cfg, sm.1 ≠ [] ∧ ∀ lv ∈ sm.2, lv.1 ≠ []

instance (c : Config) : Decidable c.NoEmptyNames := by
  unfold Config.NoEmptyNames
  infer_instance

/-- The nested parse `nested` stores no empty name. -/
def NestedKeepsNames (nested : Parser → Reader → Str → Outcome × Parser) : Prop :=
  ∀ q c f, q.Config.NoEmptyNames → (nested q c f).2.Config.NoEmptyNames

/-- A store with one section and one label. -/
def sampleStore : Config := { cfg := [("S".toList, [("L".toList, "A".toList)])] }

/-- The states a call of `parseReader` passes through, taken where a method is
called or returns.  `Passes env p reader path s` reads: the call
`parseReader(reader, path)` made in state `p` passes through state `s`.

* `called`: the state in which `parseReader` is called;
* `pushed`: the state in which `pushFile` returns, the path accepted or not;
* `counted`: the state after `incLineNr`, for a line that the loop reaches;
* `handled`: the state in which `handleLine` returns, for a line that the loop
  reaches;
* `nested`: a state that the nested `parseReader` of a directive passes through
  (so the states of every depth are covered);
* `reread`: the state after any number of turns of the loop over reads that
  fail, when the reader is one whose reads fail;
* `popped`: the state in which `parseReader` returns, after the deferred
  `popFile`. -/
inductive Passes (env : Env) : Parser → Reader → Str → Parser → Prop where
  | called (p : Parser) (reader : Reader) (path : Str) : Passes env p reader path p
  | pushed (p : Parser) (reader : Reader) (path : Str) :
      Passes env p reader path (Parser.pushFile env p path).2
  | counted (p : Parser) (reader : Reader) (path : Str) (fuel : Nat) (pre : List Str)
      (line : Str) (post : List Str) (q q1 : Parser)
      (hnew : env.abs path ∉ p.visitedFiles)
      (hlines : readLines reader.content = pre ++ line :: post)
      (hpre : handleLines (Parser.handleLine env
        (fun r c f => Parser.parseReader fuel env r c f)) (p.entered env path) pre
          = (Outcome.ok, q))
      (hinc : q.incLineNr = some q1) :
      Passes env p reader path q1
  | handled (p : Parser) (reader : Reader) (path : Str) (fuel : Nat) (pre : List Str)
      (line : Str) (post : List Str) (q : Parser)
      (hnew : env.abs path ∉ p.visitedFiles)
      (hlines : readLines reader.content = pre ++ line :: post)
      (hpre : handleLines (Parser.handleLine env
        (fun r c f => Parser.parseReader fuel env r c f)) (p.entered env path) pre
          = (Outcome.ok, q))
      (hret : (Parser.handleLine env
        (fun r c f => Parser.parseReader fuel env r c f) q line).1 ≠ Outcome.outOfFuel) :
      Passes env p reader path (Parser.handleLine env
        (fun r c f => Parser.parseReader fuel env r c f) q line).2
  | nested (p : Parser) (reader : Reader) (path : Str) (fuel : Nat) (pre : List Str)
      (line : Str) (post : List Str) (q q1 : Parser) (req : Bool) (arg incPath : Str)
      (reader2 : Reader) (s : Parser)
      (hnew : env.abs path ∉ p.visitedFiles)
      (hlines : readLines reader.content = pre ++ line :: post)
      (hpre : handleLines (Parser.handleLine env
        (fun r c f => Parser.parseReader fuel env r c f)) (p.entered env path) pre
          = (Outcome.ok, q))
      (hinc : q.incLineNr = some q1)
      (hdir : directiveOf line = some (req, arg))
      (hres : q1.resolveIncludeFile env arg = some incPath)
      (hopen : env.openFile incPath = some reader2)
      (hin : Passes env q1 reader2 incPath s) :
      Passes env p reader path s
  | reread (p : Parser) (reader : Reader) (path : Str) (fuel turns : Nat) (q : Parser)
      (hnew : env.abs path ∉ p.visitedFiles)
      (hfails : reader.fails = true)
      (hall : handleLines (Parser.handleLine env
        (fun r c f => Parser.parseReader fuel env r c f)) (p.entered env path)
          (readLines reader.content) = (Outcome.ok, q)) :
      Passes env p reader path (readErrorLoop (Parser.handleLine env
        (fun r c f => Parser.parseReader fuel env r c f)) turns q).2
  | popped (p : Parser) (reader : Reader) (path : Str) (fuel : Nat)
      (hret : (Parser.parseReader fuel env p reader path).1 ≠ Outcome.outOfFuel) :
      Passes env p reader path (Parser.parseReader fuel env p reader path).2

/-- The parser while line 2 of `b.ini` is handled, inside line 2 of `a.ini`. -/
def stateInNested : Parser :=
  { Config := { cfg := [("S".toList, [("y".toList, "2".toList)])] },
    curSection := "S".toList, curLabel := "y".toList,
    fileStack := ["a.ini".toList, "b.ini".toList], lineNrStack := [2, 2],
    visitedFiles := ["a.ini".toList, "b.ini".toList] }

/-- The number of paths of `paths` that the parser has not visited. -/
def unvisited (paths : List Str) (p : Parser) : Nat :=
  (paths.toFinset \ p.visitedFiles.toFinset).card

/-- Every file that can be opened is read to its end: no read fails with an
error other than `io.EOF` (no directory can be opened). -/
def Env.Readable (env : Env) : Prop :=
  ∀ a reader, env.files a = some reader → reader.fails = false

/-- The nested parse `nested` returns, on the reader of every file that can be
opened, in every state with equally long stacks and fewer than `n` unvisited
paths. -/
def NestedReturns (env : Env) (paths : List Str) (n : Nat)
    (nested : Parser → Reader → Str → Outcome × Parser) : Prop :=
  ∀ q c f, env.openFile f = some c → unvisited paths q + 1 ≤ n →
    q.lineNrStack.length = q.fileStack.length → (nested q c f).1 ≠ Outcome.outOfFuel

/-- A directory that holds the file `a.ini`, whose line 2 includes the directory
itself: `os.Open` opens the path `.`, and every read of it fails with an error
other than `io.EOF`. -/
def dirFiles : Env :=
  { files := fun a =>
      if a = ".".toList then some { content := [], fails := true }
      else if a = "a.ini".toList then
        some { content := "[S]\n[Include .]\nx = 1".toList, fails := false }
      else none,
    abs := fun a => a, dir := fun _ => ['.'], join := fun _ a => a }

/-- A line as `ReadString` returns it before the end of the input: it ends with
its newline and holds no other. -/
def IsFullLine (l : Str) : Prop := ∃ a, '\n' ∉ a ∧ l = a ++ ['\n']

/-- The text of the first `k` lines of `content`, their newlines included. -/
def firstLines (k : Nat) (content : Str) : Str :=
  ((readLines content).take k).flatten

/-- The newline that ends a line, when it has one: the last piece of a text
has none. -/
def lineEnd (line : Str) : Str :=
  if line.getLast? = some '\n' then ['\n'] else []

/-- The text of `content` with its line `k + 1` replaced by the text `repl`:
the lines before it, then `repl`, then the newline of the replaced line, then the
lines after it. -/
def replaceLine (content : Str) (k : Nat) (repl : Str) : Str :=
  ((readLines content).take k).flatten ++ repl ++ lineEnd ((readLines content).getD k [])
    ++ ((readLines content).drop (k + 1)).flatten

/-- Two parser states hold the same store, the same current section and the
same current label. -/
def Agree (p q : Parser) : Prop :=
  p.Config = q.Config ∧ p.curSection = q.curSection ∧ p.curLabel = q.curLabel

/-- Two results agree: both are `nil` or neither is, and the states agree. -/
def Simulates (r1 r2 : Outcome × Parser) : Prop :=
  (r1.1 = Outcome.ok ↔ r2.1 = Outcome.ok) ∧ Agree r1.2 r2.2

/-- State `q` is in the frame of state `p`, with the same visited set. -/
def SameFrame (q p : Parser) : Prop :=
  q.fileStack = p.fileStack ∧ q.lineNrStack.length = p.lineNrStack.length ∧
  q.visitedFiles = p.visitedFiles

/-- A file `a.ini` that includes `b.ini` on line 2 and again on line 3;
`inl.ini` is `a.ini` with line 2 replaced by the content of `b.ini`. -/
def inlineFiles : Env :=
  flatEnv [("a.ini".toList, "[S]\n[Include b.ini]\n[Include b.ini]".toList),
           ("b.ini".toList, "[T]\nx = 1".toList),
           ("inl.ini".toList, "[S]\n[T]\nx = 1\n[Include b.ini]".toList)]

/-- A file `a.ini` that sets `x`, includes `b.ini` on line 3 and then sets `y`;
`b.ini` sets `x` and `y`. -/
def overrideFiles : Env :=
  flatEnv [("a.ini".toList, "[S]\nx = 1\n[Include b.ini]\ny = 5".toList),
           ("b.ini".toList, "x = 2\ny = 4\n".toList)]

/-! ## The store: lookup after update -/

theorem mapGet_mapSet_self {V : Type} (m : List (Str × V)) (k : Str) (v : V) :
    mapGet (mapSet m k v) k = some v := by
  induction m with
  | nil => simp [mapSet, mapGet]
  | cons hd tl ih =>
    obtain ⟨k', v'⟩ := hd
    by_cases h : k' = k
    · simp [mapSet, mapGet, h]
    · simp [mapSet, mapGet, h, ih]

theorem mapGet_mapSet_ne {V : Type} (m : List (Str × V)) (k k' : Str) (v : V)
    (hne : k' ≠ k) : mapGet (mapSet m k v) k' = mapGet m k' := by
  induction m with
  | nil => simp [mapSet, mapGet, Ne.symm hne]
  | cons hd tl ih =>
    obtain ⟨k0, v0⟩ := hd
    by_cases h : k0 = k
    · subst h
      simp [mapSet, mapGet, Ne.symm hne]
    · by_cases h2 : k0 = k'
      · subst h2
        simp [mapSet, mapGet, hne]
      · simp [mapSet, mapGet, h, h2, ih]

theorem Value_setValueNoLock_self (c : Config) (s l v : Str) :
    (c.setValueNoLock s l v).Value s l = v := by
  simp [Config.setValueNoLock, Config.Value, mapGet_mapSet_self]

theorem Value_of_HasLabel (c : Config) (s l v : Str) (h : c.HasLabel s l v) :
    c.Value s l = v := by
  obtain ⟨m, hm, hl⟩ := h
  simp [Config.Value, hm, hl]

/-! ## C2, C3 : AppendValue -/

/-- C2 (counterexample): in the store that holds the empty value under label `L`
of section `S`, `AppendValue(S, L, "B", " ")` leaves `"B"`, not `"" + " " + "B"`. -/
theorem AppendValue_empty_value_counterexample :
    Config.HasLabel { cfg := [("S".toList, [("L".toList, [])])] } "S".toList "L".toList [] ∧
    (Config.AppendValue { cfg := [("S".toList, [("L".toList, [])])] }
        "S".toList "L".toList "B".toList " ".toList).Value "S".toList "L".toList
      = "B".toList ∧
    (Config.AppendValue { cfg := [("S".toList, [("L".toList, [])])] }
        "S".toList "L".toList "B".toList " ".toList).Value "S".toList "L".toList
      ≠ ([] : Str) ++ " ".toList ++ "B".toList := by
  refine ⟨⟨[("L".toList, [])], by decide, by decide⟩, by decide, by decide⟩

/-- C2 (amended): if label `l` exists in section `s` with value `v`, then after
`AppendValue(s, l, x, sep)` the value of `(s, l)` is `v + sep + x` when `v` is
non-empty and `x` alone when `v` is the empty string. -/
theorem AppendValue_existing (c : Config) (s l x sep v : Str)
    (h : c.HasLabel s l v) :
    (c.AppendValue s l x sep).Value s l = if v = [] then x else v ++ sep ++ x := by
  have hv := Value_of_HasLabel c s l v h
  unfold Config.AppendValue
  simp only [hv]
  by_cases hv0 : v = []
  · simp [hv0, Value_setValueNoLock_self]
  · simp [hv0, Value_setValueNoLock_self]

/-- Witness of `AppendValue_existing`: the second call of `TestAppendValue`. -/
theorem AppendValue_existing_witness :
    Config.HasLabel { cfg := [("S0".toList, [("L0".toList, "A".toList)])] }
        "S0".toList "L0".toList "A".toList ∧
    (Config.AppendValue { cfg := [("S0".toList, [("L0".toList, "A".toList)])] }
        "S0".toList "L0".toList "B".toList []).Value "S0".toList "L0".toList
      = if "A".toList = [] then "B".toList else "A".toList ++ [] ++ "B".toList :=
  ⟨⟨[("L0".toList, "A".toList)], by decide, by decide⟩,
   AppendValue_existing { cfg := [("S0".toList, [("L0".toList, "A".toList)])] }
    "S0".toList "L0".toList "B".toList [] "A".toList
    ⟨[("L0".toList, "A".toList)], by decide, by decide⟩⟩

/-- C3: when section `s` does not exist or has no label `l`, the store after
`AppendValue(s, l, x, sep)` is the store after `SetValue(s, l, x)`. -/
theorem AppendValue_absent_eq_SetValue (c : Config) (s l x sep : Str)
    (h : mapGet c.cfg s = none ∨ ∃ m, mapGet c.cfg s = some m ∧ mapGet m l = none) :
    c.AppendValue s l x sep = c.SetValue s l x := by
  have hv : c.Value s l = [] := by
    rcases h with h | ⟨m, hm, hl⟩
    · simp [Config.Value, h]
    · simp [Config.Value, hm, hl]
  simp [Config.AppendValue, Config.SetValue, hv]

/-- Witness of `AppendValue_absent_eq_SetValue`: the first call of
`TestAppendValue`, on the empty store. -/
theorem AppendValue_absent_eq_SetValue_witness :
    mapGet NewConfig.cfg "S0".toList = none ∧
    Config.AppendValue NewConfig "S0".toList "L0".toList "A".toList []
      = Config.SetValue NewConfig "S0".toList "L0".toList "A".toList :=
  ⟨by decide,
   AppendValue_absent_eq_SetValue NewConfig "S0".toList "L0".toList "A".toList []
    (Or.inl (by decide))⟩

/-! ## Facts about the regular expressions -/

theorem hasPrefixStr_append (op t : Str) : hasPrefixStr (op ++ t) op = true := by
  induction op with
  | nil => cases t <;> rfl
  | cons a op ih => simp [hasPrefixStr, ih]

theorem hasPrefixStr_iff (s op : Str) :
    hasPrefixStr s op = true ↔ ∃ t, s = op ++ t := by
  induction op generalizing s with
  | nil => cases s <;> simp [hasPrefixStr]
  | cons a op ih =>
    cases s with
    | nil => simp [hasPrefixStr]
    | cons c s =>
      simp only [hasPrefixStr, Bool.and_eq_true, beq_iff_eq, ih, List.cons_append,
        List.cons.injEq]
      constructor
      · rintro ⟨rfl, t, rfl⟩
        exact ⟨t, rfl, rfl⟩
      · rintro ⟨t, rfl, rfl⟩
        exact ⟨rfl, t, rfl⟩

theorem takeWhile_ne_append (x : Char) (pre rest : Str) (h : x ∉ pre) :
    (pre ++ x :: rest).takeWhile (fun d => d != x) = pre := by
  induction pre with
  | nil => simp [List.takeWhile]
  | cons a pre ih =>
    have ha : a ≠ x := fun e => h (by simp [e])
    have hp : x ∉ pre := fun e => h (by simp [e])
    have hb : (a != x) = true := by simp [ha]
    rw [List.cons_append, List.takeWhile_cons, hb]
    simp [ih hp]

theorem dropWhile_ne_append (x : Char) (pre rest : Str) (h : x ∉ pre) :
    (pre ++ x :: rest).dropWhile (fun d => d != x) = x :: rest := by
  induction pre with
  | nil => simp [List.dropWhile]
  | cons a pre ih =>
    have ha : a ≠ x := fun e => h (by simp [e])
    have hp : x ∉ pre := fun e => h (by simp [e])
    have hb : (a != x) = true := by simp [ha]
    rw [List.cons_append, List.dropWhile_cons, hb]
    simp [ih hp]

theorem takeWhile_ne_of_not_mem (x : Char) (s : Str) (h : x ∉ s) :
    s.takeWhile (fun d => d != x) = s := by
  induction s with
  | nil => rfl
  | cons a s ih =>
    have ha : a ≠ x := fun e => h (by simp [e])
    have hp : x ∉ s := fun e => h (by simp [e])
    have hb : (a != x) = true := by simp [ha]
    rw [List.takeWhile_cons, hb]
    simp [ih hp]

/-- The match of `([^x]+)op(.*)` on a line whose first `x` starts the operator. -/
theorem reLabelValueFind_split (x : Char) (op' pre post : Str)
    (hpre : pre ≠ []) (hx : x ∉ pre) (hnl : '\n' ∉ post) :
    reLabelValueFind x (x :: op') (pre ++ (x :: op') ++ post) = some (pre, post) := by
  obtain ⟨a, pre', rfl⟩ := List.exists_cons_of_ne_nil hpre
  have hat : reLabelValueAt x (x :: op') ((a :: pre') ++ (x :: op') ++ post)
      = some (a :: pre', post) := by
    unfold reLabelValueAt
    have e : (a :: pre') ++ (x :: op') ++ post = (a :: pre') ++ x :: (op' ++ post) := by
      simp
    rw [e, takeWhile_ne_append x _ _ hx, dropWhile_ne_append x _ _ hx]
    have hp : hasPrefixStr (x :: (op' ++ post)) (x :: op') = true :=
      hasPrefixStr_append (x :: op') post
    have hd : (x :: (op' ++ post)).drop (x :: op').length = post := by simp
    simp only [hp, hd, takeWhile_ne_of_not_mem _ _ hnl]
    simp
  have e2 : (a :: pre') ++ (x :: op') ++ post = a :: (pre' ++ (x :: op') ++ post) := by
    simp
  rw [e2] at hat ⊢
  simp only [reLabelValueFind, hat]

/-- The operator occurs nowhere in `line`: no suffix of the line starts with it. -/
theorem reLabelValueFind_none (x : Char) (op line : Str)
    (h : ∀ t, t <:+ line → hasPrefixStr t op = false) :
    reLabelValueFind x op line = none := by
  induction line with
  | nil => rfl
  | cons c cs ih =>
    have hat : reLabelValueAt x op (c :: cs) = none := by
      unfold reLabelValueAt
      have := h _ (List.dropWhile_suffix (fun d => d != x) (l := c :: cs))
      simp [this]
    simp only [reLabelValueFind, hat]
    exact ih (fun t ht => h t (ht.trans (List.suffix_cons c cs)))

theorem splitAtFirst_some (op line pre post : Str)
    (h : splitAtFirst op line = some (pre, post)) : line = pre ++ op ++ post := by
  induction line generalizing pre with
  | nil => simp [splitAtFirst] at h
  | cons c cs ih =>
    unfold splitAtFirst at h
    by_cases hp : hasPrefixStr (c :: cs) op = true
    · simp only [hp, if_true, Option.some.injEq, Prod.mk.injEq] at h
      obtain ⟨t, ht⟩ := (hasPrefixStr_iff _ _).1 hp
      obtain ⟨rfl, rfl⟩ := h
      rw [ht]
      simp
    · simp only [hp] at h
      cases hs : splitAtFirst op cs with
      | none => simp [hs] at h
      | some ab =>
        obtain ⟨a, b⟩ := ab
        simp only [hs, Option.some.injEq, Prod.mk.injEq] at h
        obtain ⟨rfl, rfl⟩ := h
        rw [ih a hs]
        simp

theorem splitAtFirst_none (op line : Str) (h : splitAtFirst op line = none)
    (hop : op ≠ []) : ∀ t, t <:+ line → hasPrefixStr t op = false := by
  induction line with
  | nil =>
    intro t ht
    have : t = [] := List.eq_nil_of_suffix_nil ht
    subst this
    cases op with
    | nil => exact absurd rfl hop
    | cons a op => rfl
  | cons c cs ih =>
    unfold splitAtFirst at h
    by_cases hp : hasPrefixStr (c :: cs) op = true
    · simp [hp] at h
    · simp only [hp] at h
      have hs : splitAtFirst op cs = none := by
        cases hs : splitAtFirst op cs with
        | none => rfl
        | some ab => simp [hs] at h
      intro t ht
      rcases List.suffix_cons_iff.1 ht with rfl | ht'
      · simpa using hp
      · exact ih hs t ht'

/-- The split is at the first occurrence: the text before a one-character
operator does not hold that character. -/
theorem splitAtFirst_first (x : Char) (line pre post : Str)
    (h : splitAtFirst [x] line = some (pre, post)) : x ∉ pre := by
  induction line generalizing pre with
  | nil => simp [splitAtFirst] at h
  | cons c cs ih =>
    unfold splitAtFirst at h
    by_cases hp : hasPrefixStr (c :: cs) [x] = true
    · simp only [hp, if_true, Option.some.injEq, Prod.mk.injEq] at h
      obtain ⟨rfl, -⟩ := h
      simp
    · simp only [hp] at h
      cases hs : splitAtFirst [x] cs with
      | none => simp [hs] at h
      | some ab =>
        obtain ⟨a, b⟩ := ab
        simp only [hs, Option.some.injEq, Prod.mk.injEq] at h
        obtain ⟨rfl, rfl⟩ := h
        have hc : c ≠ x := by
          intro e
          apply hp
          subst e
          cases cs <;> simp [hasPrefixStr]
        simp only [List.mem_cons, not_or]
        exact ⟨fun e => hc e.symm, ih a hs⟩

/-! ## C1 : continuation lines -/

/-- C1 (the code at the failing input): parsing `"[S]\nL = A\nB"` with a fresh
parser succeeds and leaves `"A "` under `(S, L)`: the continuation line `B`
appends the empty string, not its own text, so the value is not `"A B"`. -/
theorem continuation_line_text_is_dropped (env : Env) :
    (Parser.Parse 1 env (NewParser none) "[S]\nL = A\nB".toList).1 = Outcome.ok ∧
    (Parser.Parse 1 env (NewParser none) "[S]\nL = A\nB".toList).2.Config.cfg
      = [("S".toList, [("L".toList, "A ".toList)])] ∧
    (Parser.Parse 1 env (NewParser none) "[S]\nL = A\nB".toList).2.Config.Value
        "S".toList "L".toList ≠ "A B".toList := by
  refine ⟨rfl, rfl, ?_⟩
  have h : (Parser.Parse 1 env (NewParser none) "[S]\nL = A\nB".toList).2.Config.Value
      "S".toList "L".toList = "A ".toList := rfl
  rw [h]
  decide

/-! ## C4 : comment stripping -/

/-- C4 (the code at the failing input): on `"a|b"`, which holds neither `;` nor
`#`, `removeComments` returns `"a"`, while the text before the first `;` or `#`
is the whole line `"a|b"`: the class `[;|#]` also holds the bar. -/
theorem removeComments_cuts_at_bar :
    removeComments "a|b".toList = "a".toList ∧
    stripCommentSpec "a|b".toList = "a|b".toList ∧
    removeComments "Label = a|b".toList = "Label = a".toList := by
  decide

/-! ## C5, C6 : the append and assignment matchers -/

/-- C5 (counterexample): the first `+=` of `"a+b+=c"` stands between `"a+b"` and
`"c"`, yet `readAppend` returns the label `"b"`; and on `"+=x"`, which contains
the operator, it reports no match. -/
theorem readAppend_counterexample :
    splitAtFirst ['+', '='] "a+b+=c".toList = some ("a+b".toList, "c".toList) ∧
    readAppend "a+b+=c".toList = (true, "b".toList, "c".toList) ∧
    readAppend "a+b+=c".toList ≠ matchOperatorSpec ['+', '='] "a+b+=c".toList ∧
    splitAtFirst ['+', '='] "+=x".toList = some ([], "x".toList) ∧
    readAppend "+=x".toList = (false, [], []) := by
  decide

/-- C5 (amended): for every line without a newline that contains `+=` and whose
text before the first `+=` is non-empty and holds no `+`, `readAppend` returns
`(true, trim(text before the first "+="), trim(text after it))`; for every line
that does not contain `+=` it returns `(false, "", "")`. -/
theorem readAppend_split (line : Str) :
    (∀ pre post, splitAtFirst ['+', '='] line = some (pre, post) → '\n' ∉ line →
      pre ≠ [] → '+' ∉ pre →
      readAppend line = (true, trimSpace pre, trimSpace post)) ∧
    (splitAtFirst ['+', '='] line = none → readAppend line = (false, [], [])) := by
  constructor
  · intro pre post hs hnl hpre hplus
    have hl := splitAtFirst_some _ _ _ _ hs
    have hpost : '\n' ∉ post := fun h => hnl (by rw [hl]; simp [h])
    have hf := reLabelValueFind_split '+' ['='] pre post hpre hplus hpost
    rw [← hl] at hf
    simp [readAppend, reAppendFind, readLabelValue, hf]
  · intro hs
    have hn := reLabelValueFind_none '+' ['+', '='] line
      (splitAtFirst_none _ _ hs (by simp))
    simp [readAppend, reAppendFind, readLabelValue, hn]

/-- Witness of `readAppend_split`: the inputs of `TestReadAppend`. -/
theorem readAppend_split_witness :
    (splitAtFirst ['+', '='] "Label 1 += More Text".toList
        = some ("Label 1 ".toList, " More Text".toList) ∧
      '\n' ∉ "Label 1 += More Text".toList ∧ "Label 1 ".toList ≠ [] ∧
      '+' ∉ "Label 1 ".toList ∧
      readAppend "Label 1 += More Text".toList
        = (true, trimSpace "Label 1 ".toList, trimSpace " More Text".toList)) ∧
    (splitAtFirst ['+', '='] "Label 1 = More Text".toList = none ∧
      readAppend "Label 1 = More Text".toList = (false, [], [])) :=
  ⟨⟨by decide, by decide, by decide, by decide,
    (readAppend_split "Label 1 += More Text".toList).1 _ _
      (by decide) (by decide) (by decide) (by decide)⟩,
   ⟨by decide, (readAppend_split "Label 1 = More Text".toList).2 (by decide)⟩⟩

/-- C6 (counterexample): `"= v"` contains `=`, and the text before its first `=`
is empty, yet `readAssign` reports no match instead of `(true, "", "v")`. -/
theorem readAssign_counterexample :
    '\n' ∉ "= v".toList ∧
    splitAtFirst ['='] "= v".toList = some ([], " v".toList) ∧
    matchOperatorSpec ['='] "= v".toList = (true, [], "v".toList) ∧
    readAssign "= v".toList = (false, [], []) := by
  decide

/-- C6 (amended): for every line without a newline that contains `=` but does
not begin with it, `readAssign` returns `(true, trim(text before the first "="),
trim(text after it))` (so `"Label 1 += More Text"` yields the label `"Label 1 +"`
and `"Label 1     = "` an empty value); for every line that contains no `=` it
returns `(false, "", "")`. -/
theorem readAssign_split (line : Str) :
    (∀ pre post, splitAtFirst ['='] line = some (pre, post) → '\n' ∉ line →
      pre ≠ [] →
      readAssign line = (true, trimSpace pre, trimSpace post)) ∧
    (splitAtFirst ['='] line = none → readAssign line = (false, [], [])) ∧
    readAssign "Label 1 += More Text".toList
      = (true, "Label 1 +".toList, "More Text".toList) ∧
    readAssign "Label 1     = ".toList = (true, "Label 1".toList, []) := by
  refine ⟨?_, ?_, by decide, by decide⟩
  · intro pre post hs hnl hpre
    have hl := splitAtFirst_some _ _ _ _ hs
    have hpost : '\n' ∉ post := fun h => hnl (by rw [hl]; simp [h])
    have heq : '=' ∉ pre := splitAtFirst_first _ _ _ _ hs
    have hf := reLabelValueFind_split '=' [] pre post hpre heq hpost
    rw [← hl] at hf
    simp [readAssign, reAssignFind, readLabelValue, hf]
  · intro hs
    have hn := reLabelValueFind_none '=' ['='] line
      (splitAtFirst_none _ _ hs (by simp))
    simp [readAssign, reAssignFind, readLabelValue, hn]

/-- Witness of `readAssign_split`: the inputs of `TestReadAssign`. -/
theorem readAssign_split_witness :
    (splitAtFirst ['='] "Label 1 = More Text".toList
        = some ("Label 1 ".toList, " More Text".toList) ∧
      '\n' ∉ "Label 1 = More Text".toList ∧ "Label 1 ".toList ≠ [] ∧
      readAssign "Label 1 = More Text".toList
        = (true, trimSpace "Label 1 ".toList, trimSpace " More Text".toList)) ∧
    (splitAtFirst ['='] "Label 1".toList = none ∧
      readAssign "Label 1".toList = (false, [], [])) :=
  ⟨⟨by decide, by decide, by decide,
    (readAssign_split "Label 1 = More Text".toList).1 _ _
      (by decide) (by decide) (by decide)⟩,
   ⟨by decide, (readAssign_split "Label 1".toList).2.1 (by decide)⟩⟩

/-! ## C7, C8 : empty section names and empty labels -/

/-- C7 (the code at the failing input): with current section `S` and current
label `L`, the line `[]` is not recognised as a section header; `handleLine`
returns no error and appends to `(S, L)`.  Parsing `"[S]\nL = A\n[]"` succeeds. -/
theorem empty_brackets_line_is_accepted (env : Env)
    (nested : Parser → Reader → Str → Outcome × Parser) :
    readSectionName "[]".toList = (false, []) ∧
    Parser.handleLine env nested
        { Config := { cfg := [("S".toList, [("L".toList, "A".toList)])] },
          curSection := "S".toList, curLabel := "L".toList,
          fileStack := [[]], lineNrStack := [2], visitedFiles := [[]] }
        "[]".toList
      = (Outcome.ok,
        { Config := { cfg := [("S".toList, [("L".toList, "A ".toList)])] },
          curSection := "S".toList, curLabel := "L".toList,
          fileStack := [[]], lineNrStack := [3], visitedFiles := [[]] }) ∧
    (Parser.Parse 1 env (NewParser none) "[S]\nL = A\n[]".toList).1 = Outcome.ok ∧
    (Parser.Parse 1 env (NewParser none) "[S]\nL = A\n[]".toList).2.Config.cfg
      = [("S".toList, [("L".toList, "A ".toList)])] := by
  refine ⟨by decide, rfl, rfl, rfl⟩

/-- C8 (the code at the failing inputs): with current section `S` and current
label `L`, the line `= v` returns no error and appends to `(S, L)`; the line
`+= v` returns no error in any section and stores `v` under the label `+`. -/
theorem empty_label_line_is_accepted (env : Env)
    (nested : Parser → Reader → Str → Outcome × Parser) :
    Parser.handleLine env nested
        { Config := { cfg := [("S".toList, [("L".toList, "A".toList)])] },
          curSection := "S".toList, curLabel := "L".toList,
          fileStack := [[]], lineNrStack := [2], visitedFiles := [[]] }
        "= v".toList
      = (Outcome.ok,
        { Config := { cfg := [("S".toList, [("L".toList, "A ".toList)])] },
          curSection := "S".toList, curLabel := "L".toList,
          fileStack := [[]], lineNrStack := [3], visitedFiles := [[]] }) ∧
    Parser.handleLine env nested
        { Config := { cfg := [("S".toList, [("L".toList, "A".toList)])] },
          curSection := "S".toList, curLabel := "L".toList,
          fileStack := [[]], lineNrStack := [2], visitedFiles := [[]] }
        "+= v".toList
      = (Outcome.ok,
        { Config := { cfg := [("S".toList,
            [("L".toList, "A".toList), ("+".toList, "v".toList)])] },
          curSection := "S".toList, curLabel := "+".toList,
          fileStack := [[]], lineNrStack := [3], visitedFiles := [[]] }) ∧
    (Parser.Parse 1 env (NewParser none) "[S]\nL = A\n= v".toList).1 = Outcome.ok ∧
    (Parser.Parse 1 env (NewParser none) "[S]\n+= v".toList).1 = Outcome.ok ∧
    (Parser.Parse 1 env (NewParser none) "[S]\n+= v".toList).2.Config.cfg
      = [("S".toList, [("+".toList, "v".toList)])] := by
  refine ⟨rfl, rfl, rfl, rfl, rfl⟩

/-! ## Facts about `strings.TrimSpace` and the comment pattern -/

theorem trimSpace_eq (s : Str) :
    trimSpace s = (s.dropWhile isSpace).rdropWhile isSpace := rfl

theorem rdropWhile_append_of_exists (p : Char → Bool) (a b : Str)
    (h : ∃ x ∈ b, p x = false) :
    (a ++ b).rdropWhile p = a ++ b.rdropWhile p := by
  have hne : ¬ (List.dropWhile p b.reverse).isEmpty = true := by
    rw [List.isEmpty_iff, List.dropWhile_eq_nil_iff]
    intro hall
    obtain ⟨x, hx, hpx⟩ := h
    have := hall x (List.mem_reverse.2 hx)
    simp [hpx] at this
  simp only [List.rdropWhile, List.reverse_append, List.dropWhile_append, hne]
  simp

theorem rdropWhile_cons_of_all (p : Char → Bool) (c : Char) (t : Str)
    (h : ∀ x ∈ t, p x = true) :
    (c :: t).rdropWhile p = if p c then [] else [c] := by
  have h2 : ∀ x ∈ t.reverse, p x = true := fun x hx => h x (List.mem_reverse.1 hx)
  simp only [List.rdropWhile, List.reverse_cons, List.dropWhile_append_of_pos h2]
  by_cases hc : p c = true
  · simp [hc]
  · simp [hc]

theorem dropWhile_rdropWhile_comm (p : Char → Bool) (s : Str) :
    (s.rdropWhile p).dropWhile p = (s.dropWhile p).rdropWhile p := by
  induction s with
  | nil => simp
  | cons c t ih =>
    by_cases hall : ∀ x ∈ t, p x = true
    · rw [rdropWhile_cons_of_all p c t hall]
      by_cases hc : p c = true
      · have hd : List.dropWhile p t = [] := List.dropWhile_eq_nil_iff.2 hall
        simp [hc, List.dropWhile_cons, hd]
      · simp only [hc, List.dropWhile_cons]
        simp [rdropWhile_cons_of_all p c t hall, hc]
    · have hex : ∃ x ∈ t, p x = false := by
        push_neg at hall
        obtain ⟨x, hx, hpx⟩ := hall
        exact ⟨x, hx, by simpa using hpx⟩
      have hr : (c :: t).rdropWhile p = c :: t.rdropWhile p :=
        rdropWhile_append_of_exists p [c] t hex
      rw [hr]
      by_cases hc : p c = true
      · simp [hc, List.dropWhile_cons, ih]
      · simp [hc, List.dropWhile_cons, hr]

theorem trimSpace_rdropWhile (s : Str) :
    trimSpace (s.rdropWhile isSpace) = trimSpace s := by
  rw [trimSpace_eq, trimSpace_eq, dropWhile_rdropWhile_comm, List.rdropWhile_idempotent]

theorem exists_not_space_of_trimSpace_ne_nil (s : Str) (h : trimSpace s ≠ []) :
    ∃ x ∈ s, isSpace x = false := by
  rw [trimSpace_eq] at h
  have h2 : ¬ ∀ x ∈ s.dropWhile isSpace, isSpace x = true := fun hall =>
    h (List.rdropWhile_eq_nil_iff.2 hall)
  push_neg at h2
  obtain ⟨x, hx, hpx⟩ := h2
  exact ⟨x, (List.dropWhile_suffix isSpace).subset hx, by simpa using hpx⟩

/-- Trimming leaves a text alone that neither starts nor ends with white space. -/
theorem trimSpace_of_ends (a b : Char) (mid : Str) (ha : isSpace a = false)
    (hb : isSpace b = false) : trimSpace (a :: (mid ++ [b])) = a :: (mid ++ [b]) := by
  rw [trimSpace_eq, List.dropWhile_cons]
  simp only [ha]
  have e : a :: (mid ++ [b]) = (a :: mid) ++ [b] := by simp
  simp only [Bool.false_eq_true, if_false]
  rw [e, List.rdropWhile_concat_neg]
  simp [hb]

/-- Trimming a text that starts with a keyword: only its right end can change. -/
theorem trimSpace_keyword_append (k : Char) (kw path : Str) (hk : isSpace k = false)
    (h : ∃ x ∈ path, isSpace x = false) :
    trimSpace ((k :: kw) ++ path) = (k :: kw) ++ path.rdropWhile isSpace := by
  rw [trimSpace_eq, List.cons_append, List.dropWhile_cons]
  simp only [hk, Bool.false_eq_true, if_false]
  exact rdropWhile_append_of_exists isSpace (k :: kw) path h

theorem reCommentReplaceAll_of_no_comment (s : Str)
    (h : ∀ c ∈ s, isCommentChar c = false) : reCommentReplaceAll s = s := by
  induction s with
  | nil => rfl
  | cons c cs ih =>
    have hc : isCommentChar c = false := h c (by simp)
    have hcs : ∀ d ∈ cs, isCommentChar d = false := fun d hd => h d (by simp [hd])
    simp [reCommentReplaceAll, hc, ih hcs]

/-- The section pattern on a line that is one bracketed text without `]` inside. -/
theorem reSectionFind_bracketed (inner : Str) (hne : inner ≠ [])
    (h : ']' ∉ inner) : reSectionFind ('[' :: (inner ++ [']'])) = some inner := by
  have ht := takeWhile_ne_append ']' inner [] h
  have hd := dropWhile_ne_append ']' inner [] h
  have hi : inner.isEmpty = false := by
    cases inner with
    | nil => exact absurd rfl hne
    | cons a t => rfl
  simp [reSectionFind, reSectionAt, ht, hd, hi]

/-! ## C9 : missing include targets -/

theorem incLineNr_of_InFrame (p : Parser) (h : p.InFrame) :
    ∃ n, p.lineNrStack.getLast? = some n ∧
      p.incLineNr = some { p with lineNrStack := p.lineNrStack.dropLast ++ [(n + 1) % 2 ^ 64] } := by
  obtain ⟨h1, h2⟩ := h
  have hne : p.lineNrStack ≠ [] := by
    intro e
    rw [e] at h2
    simp at h2
    omega
  refine ⟨p.lineNrStack.getLast hne, List.getLast?_eq_getLast _ hne, ?_⟩
  simp [Parser.incLineNr, List.getLast?_eq_getLast _ hne]

/-- Cleaning and classifying a line `[<keyword><path>]` whose path is not blank
and holds no comment character and no closing bracket. -/
theorem directive_line_classified (k : Char) (kw path : Str) (hk : isSpace k = false)
    (hkw : ∀ c ∈ k :: kw, isCommentChar c = false ∧ c ≠ ']')
    (hchars : ∀ c ∈ path, c ≠ ';' ∧ c ≠ '|' ∧ c ≠ '#' ∧ c ≠ ']')
    (hblank : trimSpace path ≠ []) :
    removeComments (trimSpace ('[' :: ((k :: kw) ++ path ++ [']'])))
      = '[' :: ((k :: kw) ++ path ++ [']']) ∧
    readSectionName ('[' :: ((k :: kw) ++ path ++ [']']))
      = (true, (k :: kw) ++ path.rdropWhile isSpace) := by
  have hpc : ∀ c ∈ path, isCommentChar c = false ∧ c ≠ ']' := by
    intro c hc
    obtain ⟨h1, h2, h3, h4⟩ := hchars c hc
    exact ⟨by simp [isCommentChar, h1, h2, h3], h4⟩
  have hinner : ∀ c ∈ (k :: kw) ++ path, isCommentChar c = false ∧ c ≠ ']' := by
    intro c hc
    rcases List.mem_append.1 hc with h | h
    · exact hkw c h
    · exact hpc c h
  have htrim : trimSpace ('[' :: ((k :: kw) ++ path ++ [']']))
      = '[' :: ((k :: kw) ++ path ++ [']']) :=
    trimSpace_of_ends '[' ']' _ (by decide) (by decide)
  have hnc : ∀ c ∈ '[' :: ((k :: kw) ++ path ++ [']']), isCommentChar c = false := by
    intro c hc
    rcases List.mem_cons.1 hc with rfl | hc
    · decide
    · rcases List.mem_append.1 hc with h | h
      · exact (hinner c h).1
      · rw [List.mem_singleton.1 h]
        decide
  have hsec : reSectionFind ('[' :: ((k :: kw) ++ path ++ [']']))
      = some ((k :: kw) ++ path) :=
    reSectionFind_bracketed _ (by simp) (fun h => (hinner _ h).2 rfl)
  refine ⟨?_, ?_⟩
  · rw [htrim]
    unfold removeComments
    rw [reCommentReplaceAll_of_no_comment _ hnc, htrim]
  · unfold readSectionName
    rw [hsec]
    simp only []
    rw [trimSpace_keyword_append k kw path hk
      (exists_not_space_of_trimSpace_ne_nil path hblank)]

/-- C9 (counterexample): no file can be opened, and the path is `x;y`.  The line
`[Include x;y]` changes the store and the line `[Require x;y]` returns no error:
what follows the `;` is a comment, so neither line is a directive. -/
theorem missing_target_counterexample :
    Parser.InFrame
      stateAfterAssignment ∧
    Parser.resolveIncludeFile (flatEnv [])
      stateAfterAssignment "x;y".toList
      = some "x;y".toList ∧
    (flatEnv []).openFile "x;y".toList = none ∧
    (Parser.handleLine (flatEnv []) (Parser.parseReader 1 (flatEnv []))
      stateAfterAssignment
      (includeLine "x;y".toList)).2.Config
      = { cfg := [("S".toList, [("L".toList, "A ".toList)])] } ∧
    (Parser.handleLine (flatEnv []) (Parser.parseReader 1 (flatEnv []))
      stateAfterAssignment
      (requireLine "x;y".toList)).1 = Outcome.ok := by
  refine ⟨by decide, by decide, by decide, by decide, by decide⟩

theorem resolveIncludeFile_rdropWhile (env : Env) (p q : Parser) (path incPath : Str)
    (hq : q.fileStack = p.fileStack)
    (hres : p.resolveIncludeFile env path = some incPath) :
    q.resolveIncludeFile env (path.rdropWhile isSpace) = some incPath := by
  unfold Parser.resolveIncludeFile Parser.curFile at hres ⊢
  rw [hq, trimSpace_rdropWhile]
  exact hres

/-- A line `[Include <path>]` with a well-formed path reaches `handleInclude`. -/
theorem handleLine_includeLine (env : Env)
    (nested : Parser → Reader → Str → Outcome × Parser) (p : Parser) (path : Str)
    (hframe : p.InFrame)
    (hchars : ∀ c ∈ path, c ≠ ';' ∧ c ≠ '|' ∧ c ≠ '#' ∧ c ≠ ']')
    (hblank : trimSpace path ≠ []) :
    ∃ n, p.lineNrStack.getLast? = some n ∧
      Parser.handleLine env nested p (includeLine path)
        = Parser.handleInclude env nested
            { p with lineNrStack := p.lineNrStack.dropLast ++ [(n + 1) % 2 ^ 64] }
            ("Include ".toList ++ path.rdropWhile isSpace) := by
  obtain ⟨n, hn, hinc⟩ := incLineNr_of_InFrame p hframe
  refine ⟨n, hn, ?_⟩
  have hcl := directive_line_classified 'I' "nclude ".toList path (by decide)
    (by decide) hchars hblank
  have hline : includeLine path
      = '[' :: (('I' :: "nclude ".toList) ++ path ++ [']']) := rfl
  have hne : ('[' :: (('I' :: "nclude ".toList) ++ path ++ [']'])) ≠ [] := by simp
  have hreq : hasPrefixStr (('I' :: "nclude ".toList) ++ path.rdropWhile isSpace)
      "Require ".toList = false := rfl
  have hinc2 : hasPrefixStr (('I' :: "nclude ".toList) ++ path.rdropWhile isSpace)
      "Include ".toList = true := hasPrefixStr_append "Include ".toList _
  unfold Parser.handleLine
  rw [hinc, hline]
  simp only [hcl.1, hcl.2, hne, if_false, hreq, hinc2, if_true, Bool.false_eq_true]
  rfl

/-- A line `[Require <path>]` with a well-formed path reaches `handleRequire`. -/
theorem handleLine_requireLine (env : Env)
    (nested : Parser → Reader → Str → Outcome × Parser) (p : Parser) (path : Str)
    (hframe : p.InFrame)
    (hchars : ∀ c ∈ path, c ≠ ';' ∧ c ≠ '|' ∧ c ≠ '#' ∧ c ≠ ']')
    (hblank : trimSpace path ≠ []) :
    ∃ n, p.lineNrStack.getLast? = some n ∧
      Parser.handleLine env nested p (requireLine path)
        = Parser.handleRequire env nested
            { p with lineNrStack := p.lineNrStack.dropLast ++ [(n + 1) % 2 ^ 64] }
            ("Require ".toList ++ path.rdropWhile isSpace) := by
  obtain ⟨n, hn, hinc⟩ := incLineNr_of_InFrame p hframe
  refine ⟨n, hn, ?_⟩
  have hcl := directive_line_classified 'R' "equire ".toList path (by decide)
    (by decide) hchars hblank
  have hline : requireLine path
      = '[' :: (('R' :: "equire ".toList) ++ path ++ [']']) := rfl
  have hne : ('[' :: (('R' :: "equire ".toList) ++ path ++ [']'])) ≠ [] := by simp
  have hreq : hasPrefixStr (('R' :: "equire ".toList) ++ path.rdropWhile isSpace)
      "Require ".toList = true := hasPrefixStr_append "Require ".toList _
  unfold Parser.handleLine
  rw [hinc, hline]
  simp only [hcl.1, hcl.2, hne, if_false, hreq, if_true]
  rfl

theorem trimPrefixStr_append (kw r : Str) : trimPrefixStr (kw ++ r) kw = r := by
  simp [trimPrefixStr, hasPrefixStr_append]

/-- C9 (amended): inside a parse frame, for every path that is not blank, holds
none of `;`, `|`, `#`, `]`, and whose resolved file cannot be opened, `handleLine`
on `[Include <path>]` returns no error and leaves the store, the current section,
the current label, the file stack and the visited set unchanged, whereas
`handleLine` on `[Require <path>]` returns the open error, which also ends the
loop over the lines of the enclosing parse. -/
theorem missing_include_target (env : Env)
    (nested : Parser → Reader → Str → Outcome × Parser) (p : Parser)
    (path incPath : Str) (hframe : p.InFrame)
    (hchars : ∀ c ∈ path, c ≠ ';' ∧ c ≠ '|' ∧ c ≠ '#' ∧ c ≠ ']')
    (hblank : trimSpace path ≠ [])
    (hres : p.resolveIncludeFile env path = some incPath)
    (hmiss : env.openFile incPath = none) :
    ((Parser.handleLine env nested p (includeLine path)).1 = Outcome.ok ∧
      (Parser.handleLine env nested p (includeLine path)).2.Config = p.Config ∧
      (Parser.handleLine env nested p (includeLine path)).2.curSection = p.curSection ∧
      (Parser.handleLine env nested p (includeLine path)).2.curLabel = p.curLabel ∧
      (Parser.handleLine env nested p (includeLine path)).2.fileStack = p.fileStack ∧
      (Parser.handleLine env nested p (includeLine path)).2.visitedFiles
        = p.visitedFiles) ∧
    (Parser.handleLine env nested p (requireLine path)).1
      = Outcome.err (GoError.openError incPath) ∧
    ∀ rest, (handleLines (Parser.handleLine env nested) p (requireLine path :: rest)).1
      = Outcome.err (GoError.openError incPath) := by
  obtain ⟨n, -, hI⟩ := handleLine_includeLine env nested p path hframe hchars hblank
  obtain ⟨m, -, hR⟩ := handleLine_requireLine env nested p path hframe hchars hblank
  have hresI := resolveIncludeFile_rdropWhile env p
    { p with lineNrStack := p.lineNrStack.dropLast ++ [(n + 1) % 2 ^ 64] }
    path incPath rfl hres
  have hresR := resolveIncludeFile_rdropWhile env p
    { p with lineNrStack := p.lineNrStack.dropLast ++ [(m + 1) % 2 ^ 64] }
    path incPath rfl hres
  have hI2 : Parser.handleLine env nested p (includeLine path)
      = (Outcome.ok,
          { p with lineNrStack := p.lineNrStack.dropLast ++ [(n + 1) % 2 ^ 64] }) := by
    rw [hI]
    unfold Parser.handleInclude
    rw [trimPrefixStr_append, hresI]
    simp only [hmiss]
  have hR2 : Parser.handleLine env nested p (requireLine path)
      = (Outcome.err (GoError.openError incPath),
          { p with lineNrStack := p.lineNrStack.dropLast ++ [(m + 1) % 2 ^ 64] }) := by
    rw [hR]
    unfold Parser.handleRequire
    rw [trimPrefixStr_append, hresR]
    simp only [Parser.ParseFileWith, hmiss]
  refine ⟨?_, ?_, ?_⟩
  · rw [hI2]
    exact ⟨rfl, rfl, rfl, rfl, rfl, rfl⟩
  · rw [hR2]
  · intro rest
    simp only [handleLines, hR2]

/-- Witness of `missing_include_target`: the include of `TestParseFileIncludeIgnore`
in a directory that holds no such file. -/
theorem missing_include_target_witness :
    (Parser.InFrame stateAtFileStart ∧
      (∀ c ∈ "no_such_file".toList, c ≠ ';' ∧ c ≠ '|' ∧ c ≠ '#' ∧ c ≠ ']') ∧
      trimSpace "no_such_file".toList ≠ [] ∧
      stateAtFileStart.resolveIncludeFile (flatEnv []) "no_such_file".toList
        = some "no_such_file".toList ∧
      (flatEnv []).openFile "no_such_file".toList = none) ∧
    (Parser.handleLine (flatEnv []) (Parser.parseReader 1 (flatEnv []))
        stateAtFileStart
        (includeLine "no_such_file".toList)).1 = Outcome.ok ∧
    (Parser.handleLine (flatEnv []) (Parser.parseReader 1 (flatEnv []))
        stateAtFileStart
        (requireLine "no_such_file".toList)).1
      = Outcome.err (GoError.openError "no_such_file".toList) :=
  have h := missing_include_target (flatEnv []) (Parser.parseReader 1 (flatEnv []))
    stateAtFileStart
    "no_such_file".toList "no_such_file".toList
    (by decide) (by decide) (by decide) (by decide) (by decide)
  ⟨⟨by decide, by decide, by decide, by decide, by decide⟩, h.1.1, h.2.1⟩

/-! ## Stack discipline -/

theorem sameStacks_refl (p : Parser) : SameStacks p p :=
  ⟨rfl, rfl, fun _ h => h⟩

theorem frameStep_refl (p : Parser) : FrameStep p p :=
  ⟨rfl, rfl, rfl, fun _ h => h⟩

theorem frameStep_trans {r q p : Parser} (h1 : FrameStep r q) (h2 : FrameStep q p) :
    FrameStep r p :=
  ⟨h1.1.trans h2.1, h1.2.1.trans h2.2.1, h1.2.2.1.trans h2.2.2.1,
    fun _ h => h1.2.2.2 (h2.2.2.2 h)⟩

theorem sameStacks_frameStep {q p : Parser} (h : SameStacks q p) : FrameStep q p :=
  ⟨h.1, by rw [h.2.1], by rw [h.2.1], h.2.2⟩

theorem insertValue_sameStacks (p : Parser) (sect label value : Str) (app : Bool) :
    SameStacks (p.insertValue sect label value app).2 p := by
  unfold Parser.insertValue
  split_ifs <;> exact sameStacks_refl p

theorem setCurSection_sameStacks (p : Parser) (sect : Str) :
    SameStacks (p.setCurSection sect).2 p := by
  unfold Parser.setCurSection
  split_ifs <;> exact sameStacks_refl p

theorem ParseFileWith_sameStacks (env : Env)
    (nested : Parser → Reader → Str → Outcome × Parser) (hn : NestedOk nested)
    (p : Parser) (path : Str) (hlen : p.lineNrStack.length = p.fileStack.length) :
    SameStacks (Parser.ParseFileWith env nested p path).2 p := by
  unfold Parser.ParseFileWith
  cases env.openFile path with
  | none => exact sameStacks_refl p
  | some content => exact hn p content path hlen

theorem handleInclude_sameStacks (env : Env)
    (nested : Parser → Reader → Str → Outcome × Parser) (hn : NestedOk nested)
    (p : Parser) (line : Str) (hlen : p.lineNrStack.length = p.fileStack.length) :
    SameStacks (Parser.handleInclude env nested p line).2 p := by
  unfold Parser.handleInclude
  cases p.resolveIncludeFile env (trimPrefixStr line "Include ".toList) with
  | none => exact sameStacks_refl p
  | some incPath =>
    cases h : env.openFile incPath with
    | none => simp only [h]; exact sameStacks_refl p
    | some content => simp only [h]; exact hn p content incPath hlen

theorem handleRequire_sameStacks (env : Env)
    (nested : Parser → Reader → Str → Outcome × Parser) (hn : NestedOk nested)
    (p : Parser) (line : Str) (hlen : p.lineNrStack.length = p.fileStack.length) :
    SameStacks (Parser.handleRequire env nested p line).2 p := by
  unfold Parser.handleRequire
  cases p.resolveIncludeFile env (trimPrefixStr line "Require ".toList) with
  | none => exact sameStacks_refl p
  | some incPath => exact ParseFileWith_sameStacks env nested hn p incPath hlen

/-- After `incLineNr`, `handleLine` returns with the stacks unchanged. -/
theorem handleLine_sameStacks (env : Env)
    (nested : Parser → Reader → Str → Outcome × Parser) (hn : NestedOk nested)
    (p p1 : Parser) (line : Str) (hlen : p.lineNrStack.length = p.fileStack.length)
    (hinc : p.incLineNr = some p1) :
    SameStacks (Parser.handleLine env nested p line).2 p1 := by
  have hlen1 : p1.lineNrStack.length = p1.fileStack.length := by
    unfold Parser.incLineNr at hinc
    cases hl : p.lineNrStack.getLast? with
    | none => simp [hl] at hinc
    | some n =>
      simp only [hl, Option.some.injEq] at hinc
      subst hinc
      have hne : p.lineNrStack ≠ [] := by
        intro e
        simp [e] at hl
      simp only [List.length_append, List.length_dropLast, List.length_singleton]
      have := List.length_pos.2 hne
      omega
  unfold Parser.handleLine
  rw [hinc]
  simp only []
  split_ifs
  · exact sameStacks_refl p1
  · exact handleRequire_sameStacks env nested hn p1 _ hlen1
  · exact handleInclude_sameStacks env nested hn p1 _ hlen1
  · exact setCurSection_sameStacks p1 _
  · exact insertValue_sameStacks _ _ _ _ _
  · exact insertValue_sameStacks _ _ _ _ _
  · exact insertValue_sameStacks _ _ _ _ _

theorem incLineNr_frameStep (p p1 : Parser) (hinc : p.incLineNr = some p1) :
    FrameStep p1 p := by
  unfold Parser.incLineNr at hinc
  cases hl : p.lineNrStack.getLast? with
  | none => simp [hl] at hinc
  | some n =>
    simp only [hl, Option.some.injEq] at hinc
    subst hinc
    have hne : p.lineNrStack ≠ [] := by
      intro e
      simp [e] at hl
    refine ⟨rfl, by simp, ?_, fun _ h => h⟩
    simp only [List.length_append, List.length_dropLast, List.length_singleton]
    have := List.length_pos.2 hne
    omega

/-- One call of `handleLine` stays in the frame it was called in. -/
theorem handleLine_frameStep (env : Env)
    (nested : Parser → Reader → Str → Outcome × Parser) (hn : NestedOk nested)
    (p : Parser) (line : Str) (hlen : p.lineNrStack.length = p.fileStack.length) :
    FrameStep (Parser.handleLine env nested p line).2 p := by
  cases hinc : p.incLineNr with
  | none =>
    unfold Parser.handleLine
    rw [hinc]
    exact frameStep_refl p
  | some p1 =>
    exact frameStep_trans
      (sameStacks_frameStep (handleLine_sameStacks env nested hn p p1 line hlen hinc))
      (incLineNr_frameStep p p1 hinc)

/-- The loop over the lines of a file stays in the frame it was started in. -/
theorem handleLines_frameStep (env : Env)
    (nested : Parser → Reader → Str → Outcome × Parser) (hn : NestedOk nested)
    (p : Parser) (ls : List Str) (hlen : p.lineNrStack.length = p.fileStack.length) :
    FrameStep (handleLines (Parser.handleLine env nested) p ls).2 p := by
  induction ls generalizing p with
  | nil => exact frameStep_refl p
  | cons l ls ih =>
    have h1 := handleLine_frameStep env nested hn p l hlen
    unfold handleLines
    cases hr : Parser.handleLine env nested p l with
    | mk r p1 =>
      rw [hr] at h1
      cases r with
      | ok =>
        have hlen1 : p1.lineNrStack.length = p1.fileStack.length := by
          rw [h1.1, h1.2.2.1, hlen]
        exact frameStep_trans (ih p1 hlen1) h1
      | err e => exact h1
      | panic => exact h1
      | outOfFuel => exact h1

theorem syntaxError_ne_ok (p : Parser) (msg : Str) : p.syntaxError msg ≠ Outcome.ok := by
  unfold Parser.syntaxError
  cases p.curFile <;> cases p.curLineNr <;> simp

theorem syntaxError_ne_outOfFuel (p : Parser) (msg : Str) :
    p.syntaxError msg ≠ Outcome.outOfFuel := by
  unfold Parser.syntaxError
  cases p.curFile <;> cases p.curLineNr <;> simp

/-- The two ways `pushFile` ends. -/
theorem pushFile_cases (env : Env) (p : Parser) (path : Str) :
    (env.abs path ∈ p.visitedFiles ∧
      Parser.pushFile env p path = (p.syntaxError "include loop".toList, p)) ∨
    (env.abs path ∉ p.visitedFiles ∧
      Parser.pushFile env p path
        = (Outcome.ok, { p with visitedFiles := p.visitedFiles ++ [env.abs path],
                                fileStack := p.fileStack ++ [path],
                                lineNrStack := p.lineNrStack ++ [0] })) := by
  unfold Parser.pushFile
  by_cases h : env.abs path ∈ p.visitedFiles
  · left
    simp [h]
  · right
    simp [h]

/-- On a reader that ends with `io.EOF`, the loop of `parseReader` is the loop
over the lines of its text. -/
theorem readLoop_text (h : Parser → Str → Outcome × Parser) (fuel : Nat) (p : Parser)
    (content : Str) :
    readLoop h fuel p { content := content, fails := false }
      = handleLines h p (readLines content) := by
  unfold readLoop
  cases hr : handleLines h p (readLines content) with
  | mk r q =>
    cases r with
    | ok => simp
    | err e => rfl
    | panic => rfl
    | outOfFuel => rfl

/-- The loop over reads that fail stays in the frame it was started in. -/
theorem readErrorLoop_frameStep (env : Env)
    (nested : Parser → Reader → Str → Outcome × Parser) (hn : NestedOk nested)
    (fuel : Nat) (p : Parser) (hlen : p.lineNrStack.length = p.fileStack.length) :
    FrameStep (readErrorLoop (Parser.handleLine env nested) fuel p).2 p := by
  induction fuel generalizing p with
  | zero => exact frameStep_refl p
  | succ fuel ih =>
    have h1 := handleLine_frameStep env nested hn p [] hlen
    unfold readErrorLoop
    cases hr : Parser.handleLine env nested p [] with
    | mk r p1 =>
      rw [hr] at h1
      cases r with
      | ok =>
        have hlen1 : p1.lineNrStack.length = p1.fileStack.length := by
          rw [h1.1, h1.2.2.1, hlen]
        exact frameStep_trans (ih p1 hlen1) h1
      | err e => exact h1
      | panic => exact h1
      | outOfFuel => exact h1

/-- The loop of `parseReader` stays in the frame it was started in. -/
theorem readLoop_frameStep (env : Env)
    (nested : Parser → Reader → Str → Outcome × Parser) (hn : NestedOk nested)
    (fuel : Nat) (p : Parser) (reader : Reader)
    (hlen : p.lineNrStack.length = p.fileStack.length) :
    FrameStep (readLoop (Parser.handleLine env nested) fuel p reader).2 p := by
  have h1 := handleLines_frameStep env nested hn p (readLines reader.content) hlen
  unfold readLoop
  cases hr : handleLines (Parser.handleLine env nested) p (readLines reader.content) with
  | mk r p1 =>
    rw [hr] at h1
    cases r with
    | ok =>
      simp only []
      split_ifs
      · have hlen1 : p1.lineNrStack.length = p1.fileStack.length := by
          rw [h1.1, h1.2.2.1, hlen]
        exact frameStep_trans (readErrorLoop_frameStep env nested hn fuel p1 hlen1) h1
      · exact h1
    | err e => exact h1
    | panic => exact h1
    | outOfFuel => exact h1

/-- Unfolding of `parseReader` when `pushFile` rejects the path. -/
theorem parseReader_succ_of_visited (fuel : Nat) (env : Env) (p : Parser)
    (content : Reader) (path : Str) (h : env.abs path ∈ p.visitedFiles) :
    Parser.parseReader (fuel + 1) env p content path
      = (p.syntaxError "include loop".toList, p) := by
  have hp : Parser.pushFile env p path = (p.syntaxError "include loop".toList, p) := by
    rcases pushFile_cases env p path with ⟨_, h2⟩ | ⟨h1, _⟩
    · exact h2
    · exact absurd h h1
  unfold Parser.parseReader
  rw [hp]
  have hne := syntaxError_ne_ok p "include loop".toList
  cases hs : p.syntaxError "include loop".toList with
  | ok => exact absurd hs hne
  | err e => rfl
  | panic => rfl
  | outOfFuel => rfl

/-- Unfolding of `parseReader` on any reader when `pushFile` accepts the path. -/
theorem parseReader_succ_reader (fuel : Nat) (env : Env) (p : Parser)
    (reader : Reader) (path : Str) (h : env.abs path ∉ p.visitedFiles) :
    Parser.parseReader (fuel + 1) env p reader path
      = ((readLoop (Parser.handleLine env (fun q c f => Parser.parseReader fuel env q c f))
            fuel { p with visitedFiles := p.visitedFiles ++ [env.abs path],
                          fileStack := p.fileStack ++ [path],
                          lineNrStack := p.lineNrStack ++ [0] } reader).1,
         (readLoop (Parser.handleLine env (fun q c f => Parser.parseReader fuel env q c f))
            fuel { p with visitedFiles := p.visitedFiles ++ [env.abs path],
                          fileStack := p.fileStack ++ [path],
                          lineNrStack := p.lineNrStack ++ [0] } reader).2.popFile) := by
  have hp : Parser.pushFile env p path
      = (Outcome.ok, { p with visitedFiles := p.visitedFiles ++ [env.abs path],
                              fileStack := p.fileStack ++ [path],
                              lineNrStack := p.lineNrStack ++ [0] }) := by
    rcases pushFile_cases env p path with ⟨h1, _⟩ | ⟨_, h2⟩
    · exact absurd h1 h
    · exact h2
  conv_lhs => unfold Parser.parseReader
  rw [hp]

/-- Unfolding of `parseReader` when `pushFile` accepts the path. -/
theorem parseReader_succ_of_not_visited (fuel : Nat) (env : Env) (p : Parser)
    (content path : Str) (h : env.abs path ∉ p.visitedFiles) :
    Parser.parseReader (fuel + 1) env p content path
      = ((handleLines (Parser.handleLine env (fun q c f => Parser.parseReader fuel env q c f))
            { p with visitedFiles := p.visitedFiles ++ [env.abs path],
                     fileStack := p.fileStack ++ [path],
                     lineNrStack := p.lineNrStack ++ [0] } (readLines content)).1,
         (handleLines (Parser.handleLine env (fun q c f => Parser.parseReader fuel env q c f))
            { p with visitedFiles := p.visitedFiles ++ [env.abs path],
                     fileStack := p.fileStack ++ [path],
                     lineNrStack := p.lineNrStack ++ [0] } (readLines content)).2.popFile) := by
  have hp : Parser.pushFile env p path
      = (Outcome.ok, { p with visitedFiles := p.visitedFiles ++ [env.abs path],
                              fileStack := p.fileStack ++ [path],
                              lineNrStack := p.lineNrStack ++ [0] }) := by
    rcases pushFile_cases env p path with ⟨h1, _⟩ | ⟨_, h2⟩
    · exact absurd h1 h
    · exact h2
  conv_lhs => unfold Parser.parseReader
  rw [hp]
  simp only [readLoop_text]

/-- The deferred `popFile` removes the frame that `pushFile` has pushed. -/
theorem popFile_sameStacks (r q : Parser) (f : Str)
    (hlen : q.lineNrStack.length = q.fileStack.length)
    (h1 : r.fileStack = q.fileStack ++ [f])
    (h2 : r.lineNrStack.dropLast = q.lineNrStack)
    (h3 : r.lineNrStack.length = q.lineNrStack.length + 1)
    (h4 : q.visitedFiles ⊆ r.visitedFiles) : SameStacks r.popFile q := by
  have hpos : r.fileStack.length > 0 := by simp [h1]
  have hl : r.fileStack.length - 1 = q.fileStack.length := by simp [h1]
  unfold Parser.popFile
  simp only [hpos, if_true, hl]
  refine ⟨by simp [h1], ?_, h4⟩
  show List.take q.fileStack.length r.lineNrStack = q.lineNrStack
  have hd : r.lineNrStack.dropLast = List.take (r.lineNrStack.length - 1) r.lineNrStack :=
    List.dropLast_eq_take r.lineNrStack
  rw [h3, Nat.add_sub_cancel, hlen] at hd
  rw [← hd, h2]

/-- Stack discipline of `parseReader`: whatever the outcome, it returns with the
file stack and the line number stack it was called with. -/
theorem parseReader_nestedOk (env : Env) (fuel : Nat) :
    NestedOk (fun q c f => Parser.parseReader fuel env q c f) := by
  induction fuel with
  | zero =>
    intro q c f _
    exact sameStacks_refl q
  | succ fuel ih =>
    intro q c f hlen
    by_cases hv : env.abs f ∈ q.visitedFiles
    · simp only [parseReader_succ_of_visited fuel env q c f hv]
      exact sameStacks_refl q
    · simp only [parseReader_succ_reader fuel env q c f hv]
      have hfs := readLoop_frameStep env _ ih fuel
        { q with visitedFiles := q.visitedFiles ++ [env.abs f],
                 fileStack := q.fileStack ++ [f],
                 lineNrStack := q.lineNrStack ++ [0] } c
        (by simp [hlen])
      obtain ⟨h1, h2, h3, h4⟩ := hfs
      simp only [List.dropLast_concat, List.length_append, List.length_singleton] at h1 h2 h3
      exact popFile_sameStacks _ q f hlen h1 h2 h3
        (fun x hx => h4 (List.mem_append_left _ hx))

/-! ## More fuel does not change a result -/

theorem ParseFileWith_extends (env : Env)
    (n2 n1 : Parser → Reader → Str → Outcome × Parser) (hx : Extends n2 n1)
    (p : Parser) (path : Str)
    (h : (Parser.ParseFileWith env n1 p path).1 ≠ Outcome.outOfFuel) :
    Parser.ParseFileWith env n2 p path = Parser.ParseFileWith env n1 p path := by
  unfold Parser.ParseFileWith at h ⊢
  cases ho : env.openFile path with
  | none => rfl
  | some content =>
    simp only [ho] at h ⊢
    exact hx p content path h

theorem handleInclude_extends (env : Env)
    (n2 n1 : Parser → Reader → Str → Outcome × Parser) (hx : Extends n2 n1)
    (p : Parser) (line : Str)
    (h : (Parser.handleInclude env n1 p line).1 ≠ Outcome.outOfFuel) :
    Parser.handleInclude env n2 p line = Parser.handleInclude env n1 p line := by
  unfold Parser.handleInclude at h ⊢
  cases hr : p.resolveIncludeFile env (trimPrefixStr line "Include ".toList) with
  | none => rfl
  | some incPath =>
    simp only [hr] at h ⊢
    cases ho : env.openFile incPath with
    | none => rfl
    | some content =>
      simp only [ho] at h ⊢
      exact hx p content incPath h

theorem handleRequire_extends (env : Env)
    (n2 n1 : Parser → Reader → Str → Outcome × Parser) (hx : Extends n2 n1)
    (p : Parser) (line : Str)
    (h : (Parser.handleRequire env n1 p line).1 ≠ Outcome.outOfFuel) :
    Parser.handleRequire env n2 p line = Parser.handleRequire env n1 p line := by
  unfold Parser.handleRequire at h ⊢
  cases hr : p.resolveIncludeFile env (trimPrefixStr line "Require ".toList) with
  | none => rfl
  | some incPath =>
    simp only [hr] at h ⊢
    exact ParseFileWith_extends env n2 n1 hx p incPath h

theorem handleLine_extends (env : Env)
    (n2 n1 : Parser → Reader → Str → Outcome × Parser) (hx : Extends n2 n1)
    (p : Parser) (line : Str)
    (h : (Parser.handleLine env n1 p line).1 ≠ Outcome.outOfFuel) :
    Parser.handleLine env n2 p line = Parser.handleLine env n1 p line := by
  unfold Parser.handleLine at h ⊢
  cases hinc : p.incLineNr with
  | none => rfl
  | some p1 =>
    simp only [hinc] at h ⊢
    split_ifs at h ⊢
    · rfl
    · exact handleRequire_extends env n2 n1 hx p1 _ h
    · exact handleInclude_extends env n2 n1 hx p1 _ h
    · rfl
    · rfl
    · rfl
    · rfl

theorem handleLines_extends (env : Env)
    (n2 n1 : Parser → Reader → Str → Outcome × Parser) (hx : Extends n2 n1)
    (p : Parser) (ls : List Str)
    (h : (handleLines (Parser.handleLine env n1) p ls).1 ≠ Outcome.outOfFuel) :
    handleLines (Parser.handleLine env n2) p ls
      = handleLines (Parser.handleLine env n1) p ls := by
  induction ls generalizing p with
  | nil => rfl
  | cons l ls ih =>
    unfold handleLines at h ⊢
    cases hr : Parser.handleLine env n1 p l with
    | mk r p1 =>
      have hne : (Parser.handleLine env n1 p l).1 ≠ Outcome.outOfFuel := by
        intro e
        rw [hr] at h e
        simp only at e
        subst e
        exact h rfl
      rw [handleLine_extends env n2 n1 hx p l hne, hr]
      rw [hr] at h
      cases r with
      | ok => exact ih p1 h
      | err e => rfl
      | panic => rfl
      | outOfFuel => rfl

theorem readErrorLoop_extends (env : Env)
    (n2 n1 : Parser → Reader → Str → Outcome × Parser) (hx : Extends n2 n1)
    (fuel : Nat) (p : Parser)
    (h : (readErrorLoop (Parser.handleLine env n1) fuel p).1 ≠ Outcome.outOfFuel) :
    readErrorLoop (Parser.handleLine env n2) (fuel + 1) p
      = readErrorLoop (Parser.handleLine env n1) fuel p := by
  induction fuel generalizing p with
  | zero => exact absurd rfl h
  | succ fuel ih =>
    conv_lhs => unfold readErrorLoop
    conv_rhs => unfold readErrorLoop
    unfold readErrorLoop at h
    cases hr : Parser.handleLine env n1 p [] with
    | mk r p1 =>
      have hne : (Parser.handleLine env n1 p []).1 ≠ Outcome.outOfFuel := by
        intro e
        rw [hr] at h e
        simp only at e
        subst e
        exact h rfl
      rw [handleLine_extends env n2 n1 hx p [] hne, hr]
      rw [hr] at h
      cases r with
      | ok => exact ih p1 h
      | err e => rfl
      | panic => rfl
      | outOfFuel => rfl

theorem readLoop_extends (env : Env)
    (n2 n1 : Parser → Reader → Str → Outcome × Parser) (hx : Extends n2 n1)
    (fuel : Nat) (p : Parser) (reader : Reader)
    (h : (readLoop (Parser.handleLine env n1) fuel p reader).1 ≠ Outcome.outOfFuel) :
    readLoop (Parser.handleLine env n2) (fuel + 1) p reader
      = readLoop (Parser.handleLine env n1) fuel p reader := by
  unfold readLoop at h ⊢
  cases hr : handleLines (Parser.handleLine env n1) p (readLines reader.content) with
  | mk r p1 =>
    have hne : (handleLines (Parser.handleLine env n1) p (readLines reader.content)).1
        ≠ Outcome.outOfFuel := by
      intro e
      rw [hr] at h e
      simp only at e
      subst e
      exact h rfl
    rw [handleLines_extends env n2 n1 hx p _ hne, hr]
    rw [hr] at h
    cases r with
    | ok =>
      simp only [] at h ⊢
      by_cases hf : reader.fails = true
      · have e1 : ∀ a b : Outcome × Parser, (if reader.fails = true then a else b) = a :=
          fun a b => if_pos hf
        rw [e1] at h
        rw [e1, e1]
        exact readErrorLoop_extends env n2 n1 hx fuel p1 h
      · have e2 : ∀ a b : Outcome × Parser, (if reader.fails = true then a else b) = b :=
          fun a b => if_neg hf
        rw [e2, e2]
    | err e => rfl
    | panic => rfl
    | outOfFuel => rfl

/-- One more unit of fuel leaves a result that did not run out of fuel. -/
theorem parseReader_succ_extends (env : Env) (fuel : Nat) :
    Extends (fun q c f => Parser.parseReader (fuel + 1) env q c f)
      (fun q c f => Parser.parseReader fuel env q c f) := by
  induction fuel with
  | zero =>
    intro q c f h
    exact absurd rfl h
  | succ fuel ih =>
    intro q c f h
    by_cases hv : env.abs f ∈ q.visitedFiles
    · simp only [parseReader_succ_of_visited _ env q c f hv]
    · simp only [parseReader_succ_reader _ env q c f hv] at h ⊢
      rw [readLoop_extends env _ _ ih _ _ _ h]

/-- Any larger amount of fuel leaves a result that did not run out of fuel. -/
theorem parseReader_mono (env : Env) (n m : Nat) (hnm : n ≤ m) :
    Extends (fun q c f => Parser.parseReader m env q c f)
      (fun q c f => Parser.parseReader n env q c f) := by
  induction m with
  | zero =>
    have : n = 0 := by omega
    subst this
    intro q c f _
    rfl
  | succ m ih =>
    by_cases hle : n ≤ m
    · intro q c f h
      have h1 := ih hle q c f h
      have h2 := parseReader_succ_extends env m q c f (by simp only [] at h1 ⊢; rw [h1]; exact h)
      simp only [] at h1 h2 ⊢
      rw [h2, h1]
    · have : n = m + 1 := by omega
      subst this
      intro q c f _
      rfl

/-! ## C10 : inclusion loops -/

/-- What `handleLine` does on a line that carries a directive. -/
theorem handleLine_directive (env : Env)
    (nested : Parser → Reader → Str → Outcome × Parser) (p p1 : Parser) (line : Str)
    (req : Bool) (arg : Str) (hinc : p.incLineNr = some p1)
    (hdir : directiveOf line = some (req, arg)) :
    Parser.handleLine env nested p line =
      match p1.resolveIncludeFile env arg with
      | none => (Outcome.panic, p1)
      | some incPath =>
        if req then Parser.ParseFileWith env nested p1 incPath
        else
          match env.openFile incPath with
          | none => (Outcome.ok, p1)
          | some content => nested p1 content incPath := by
  unfold directiveOf at hdir
  simp only [] at hdir
  unfold Parser.handleLine
  rw [hinc]
  simp only []
  by_cases h1 : removeComments (trimSpace line) = []
  · simp [h1] at hdir
  · by_cases h2 : (readSectionName (removeComments (trimSpace line))).1 = true
    · by_cases h3 : hasPrefixStr (readSectionName (removeComments (trimSpace line))).2
          "Require ".toList = true
      · simp only [h1, h2, h3, if_true, if_false, Option.some.injEq, Prod.mk.injEq] at hdir
        obtain ⟨rfl, rfl⟩ := hdir
        simp only [h1, h2, h3, if_true, if_false]
        unfold Parser.handleRequire
        rfl
      · by_cases h4 : hasPrefixStr (readSectionName (removeComments (trimSpace line))).2
            "Include ".toList = true
        · simp only [h1, h2, h3, h4, if_true, if_false, Option.some.injEq,
            Prod.mk.injEq] at hdir
          obtain ⟨rfl, rfl⟩ := hdir
          simp only [h1, h2, h3, h4, if_true, if_false]
          unfold Parser.handleInclude
          simp
        · rw [if_neg h1, if_pos h2, if_neg h3, if_neg h4] at hdir
          exact Option.noConfusion hdir
    · rw [if_neg h1, if_neg h2] at hdir
      exact Option.noConfusion hdir

/-- The state after `incLineNr` in a frame `(file, k)`. -/
theorem incLineNr_of_loopInv (env : Env) (file : Str) (k : Nat) (p : Parser)
    (hinv : LoopInv env file k p) :
    ∃ p1, p.incLineNr = some p1 ∧ p1.fileStack = p.fileStack ∧
      p1.visitedFiles = p.visitedFiles ∧
      p1.lineNrStack.length = p1.fileStack.length ∧
      p1.curLineNr = some ((k + 1) % 2 ^ 64) := by
  obtain ⟨hlen, -, hline, -⟩ := hinv
  unfold Parser.curLineNr at hline
  have hne : p.lineNrStack ≠ [] := by
    intro e
    simp [e] at hline
  refine ⟨{ p with lineNrStack := p.lineNrStack.dropLast ++ [(k % 2 ^ 64 + 1) % 2 ^ 64] },
    ?_, rfl, rfl, ?_, ?_⟩
  · simp [Parser.incLineNr, hline]
  · simp only [List.length_append, List.length_dropLast, List.length_singleton]
    have := List.length_pos.2 hne
    omega
  · simp [Parser.curLineNr, Nat.mod_add_mod]

theorem curFile_congr (q p : Parser) (h : q.fileStack = p.fileStack) :
    q.curFile = p.curFile := by
  unfold Parser.curFile
  rw [h]

theorem resolveIncludeFile_congr (env : Env) (q p : Parser) (path : Str)
    (h : q.fileStack = p.fileStack) :
    q.resolveIncludeFile env path = p.resolveIncludeFile env path := by
  unfold Parser.resolveIncludeFile
  rw [curFile_congr q p h]

/-- A line handled without error leads from frame `(file, k)` to `(file, k + 1)`. -/
theorem loopInv_step (env : Env) (fuel : Nat) (file : Str) (k : Nat) (p p1 : Parser)
    (line : Str) (hinv : LoopInv env file k p)
    (hok : Parser.handleLine env (fun q c f => Parser.parseReader fuel env q c f) p line
      = (Outcome.ok, p1)) :
    LoopInv env file (k + 1) p1 := by
  obtain ⟨q, hinc, hfs, hvis, hlenq, hlineq⟩ := incLineNr_of_loopInv env file k p hinv
  have hss := handleLine_sameStacks env _ (parseReader_nestedOk env fuel) p q line hinv.1 hinc
  rw [hok] at hss
  obtain ⟨h1, h2, h3⟩ := hss
  simp only at h1 h2 h3
  refine ⟨by rw [h1, h2, hlenq], ?_, ?_, ?_⟩
  · rw [curFile_congr p1 p (h1.trans hfs)]
    exact hinv.2.1
  · unfold Parser.curLineNr at hlineq ⊢
    rw [h2]
    exact hlineq
  · intro g hg
    rw [h1, hfs] at hg
    obtain ⟨hv, ho⟩ := hinv.2.2.2 g hg
    exact ⟨h3 (by rw [hvis]; exact hv), ho⟩

theorem handleLines_cons_err (h : Parser → Str → Outcome × Parser) (p : Parser)
    (l : Str) (ls : List Str) (x : GoError) (hx : (h p l).1 = Outcome.err x) :
    (handleLines h p (l :: ls)).1 = Outcome.err x := by
  unfold handleLines
  cases hr : h p l with
  | mk r p1 =>
    rw [hr] at hx
    simp only at hx
    subst hx
    rfl

theorem handleLines_cons_ok (h : Parser → Str → Outcome × Parser) (p p1 : Parser)
    (l : Str) (ls : List Str) (hok : h p l = (Outcome.ok, p1)) :
    handleLines h p (l :: ls) = handleLines h p1 ls := by
  conv_lhs => unfold handleLines
  rw [hok]

/-- The state that `pushFile` returns with `nil` is in the frame `(path, 0)`. -/
theorem loopInv_push (env : Env) (file : Str) (k : Nat) (p p1 p2 : Parser)
    (incPath content : Str) (hinv : LoopInv env file k p)
    (hinc : p.incLineNr = some p1) (hopen : env.openFile incPath = some content)
    (hpush : Parser.pushFile env p1 incPath = (Outcome.ok, p2)) :
    env.abs incPath ∉ p1.visitedFiles ∧
    p2 = { p1 with visitedFiles := p1.visitedFiles ++ [env.abs incPath],
                   fileStack := p1.fileStack ++ [incPath],
                   lineNrStack := p1.lineNrStack ++ [0] } ∧
    LoopInv env incPath 0 p2 := by
  obtain ⟨q, hq, hfs, hvis, hlen1, -⟩ := incLineNr_of_loopInv env file k p hinv
  have hqp : q = p1 := Option.some.inj (hq.symm.trans hinc)
  subst hqp
  rcases pushFile_cases env q incPath with ⟨_, h2⟩ | ⟨h1, h2⟩
  · rw [h2] at hpush
    exact absurd (congrArg Prod.fst hpush) (syntaxError_ne_ok q _)
  · rw [h2] at hpush
    have hp2 := (congrArg Prod.snd hpush).symm
    simp only at hp2
    refine ⟨h1, hp2, ?_⟩
    subst hp2
    refine ⟨by simp [hlen1], by simp [Parser.curFile], by simp [Parser.curLineNr], ?_⟩
    intro g hg
    simp only [List.mem_append, List.mem_singleton] at hg ⊢
    rcases hg with hg | rfl
    · rw [hfs] at hg
      obtain ⟨hv, ho⟩ := hinv.2.2.2 g hg
      exact ⟨Or.inl (by rw [hvis]; exact hv), ho⟩
    · exact ⟨Or.inr rfl, by simp [hopen]⟩

/-- Once processing reaches a directive that closes a loop, the loop over the
lines returns the include-loop error, whatever amount of fuel beyond a bound. -/
theorem handleLines_of_reachesLoop (env : Env) (file : Str) (k : Nat) (p : Parser)
    (ls : List Str) (e : SyntaxError) (h : ReachesLoop env file k p ls e)
    (hinv : LoopInv env file k p) :
    ∃ n, ∀ fuel, n ≤ fuel →
      (handleLines (Parser.handleLine env (fun q c f => Parser.parseReader fuel env q c f))
        p ls).1 = Outcome.err (GoError.syntaxError e) := by
  induction h with
  | here file k p line rest req arg incPath hdir hres hloop =>
    obtain ⟨p1, hinc, hfs, hvis, hlen1, hline1⟩ := incLineNr_of_loopInv env file k p hinv
    refine ⟨1, fun fuel hfuel => ?_⟩
    obtain ⟨m, rfl⟩ : ∃ m, fuel = m + 1 := ⟨fuel - 1, by omega⟩
    have hres1 : p1.resolveIncludeFile env arg = some incPath := by
      rw [resolveIncludeFile_congr env p1 p arg hfs]
      exact hres
    obtain ⟨g, hg, hgabs⟩ := List.mem_map.1 hloop
    obtain ⟨hgv, hgo⟩ := hinv.2.2.2 g hg
    have hopen : ∃ content, env.openFile incPath = some content := by
      unfold Env.openFile at hgo ⊢
      rw [← hgabs]
      exact Option.isSome_iff_exists.1 hgo
    obtain ⟨content, hopen⟩ := hopen
    have hvisited : env.abs incPath ∈ p1.visitedFiles := by
      rw [hvis, ← hgabs]
      exact hgv
    have hse : p1.syntaxError "include loop".toList
        = Outcome.err (GoError.syntaxError
            { path := file, lineNr := (k + 1) % 2 ^ 64, msg := "include loop".toList }) := by
      unfold Parser.syntaxError
      rw [curFile_congr p1 p hfs, hinv.2.1, hline1]
    apply handleLines_cons_err
    rw [handleLine_directive env _ p p1 line req arg hinc hdir, hres1]
    cases req
    · simp only [hopen, Bool.false_eq_true, if_false]
      rw [parseReader_succ_of_visited m env p1 content incPath hvisited, hse]
    · simp only [Parser.ParseFileWith, hopen, if_true]
      rw [parseReader_succ_of_visited m env p1 content incPath hvisited, hse]
  | later file k p p1 line rest e hok _ ih =>
    obtain ⟨f0, hok⟩ := hok
    obtain ⟨n1, hn1⟩ := ih (loopInv_step env f0 file k p p1 line hinv hok)
    refine ⟨max f0 n1, fun fuel hfuel => ?_⟩
    have hl : Parser.handleLine env (fun q c f => Parser.parseReader fuel env q c f) p line
        = (Outcome.ok, p1) := by
      have hx := handleLine_extends env _ _
        (parseReader_mono env f0 fuel (le_trans (le_max_left f0 n1) hfuel)) p line
        (by rw [hok]; simp)
      rw [hx, hok]
    rw [handleLines_cons_ok _ p p1 line rest hl]
    exact hn1 fuel (le_trans (le_max_right f0 n1) hfuel)
  | inside file k p p1 p2 line rest req arg incPath content e hdir hres hopen hinc hpush _ ih =>
    replace hopen : env.openFile incPath = some { content := content, fails := false } :=
      hopen
    obtain ⟨hnv, hp2, hinv2⟩ := loopInv_push env file k p p1 p2 incPath content hinv hinc
      hopen hpush
    obtain ⟨n1, hn1⟩ := ih hinv2
    refine ⟨n1 + 1, fun fuel hfuel => ?_⟩
    obtain ⟨m, rfl⟩ : ∃ m, fuel = m + 1 := ⟨fuel - 1, by omega⟩
    have hfs : p1.fileStack = p.fileStack := (incLineNr_frameStep p p1 hinc).1
    have hres1 : p1.resolveIncludeFile env arg = some incPath := by
      rw [resolveIncludeFile_congr env p1 p arg hfs]
      exact hres
    have hm := hn1 m (by omega)
    rw [hp2] at hm
    apply handleLines_cons_err
    rw [handleLine_directive env _ p p1 line req arg hinc hdir, hres1]
    cases req
    · simp only [hopen, Bool.false_eq_true, if_false]
      rw [parseReader_succ_of_not_visited m env p1 content incPath hnv]
      exact hm
    · simp only [Parser.ParseFileWith, hopen, if_true]
      rw [parseReader_succ_of_not_visited m env p1 content incPath hnv]
      exact hm

theorem reachesLoop_msg (env : Env) (file : Str) (k : Nat) (p : Parser)
    (ls : List Str) (e : SyntaxError) (h : ReachesLoop env file k p ls e) :
    e.msg = "include loop".toList := by
  induction h with
  | here => rfl
  | later _ _ _ _ _ _ _ _ _ ih => exact ih
  | inside _ _ _ _ _ _ _ _ _ _ _ _ _ _ _ _ _ _ ih => exact ih

/-- C10: for every file system and every top-level file `f` that a fresh parser
parses with `ParseFile`, if processing reaches, through any chain of `Include`
and `Require` directives and with no earlier error, a directive whose resolved
absolute path is that of `f` or of any file on the file stack, then `ParseFile`
returns the "include loop" error stamped with the including file and the line of
that directive (`ReachesLoop` fixes the stamp), given enough fuel for the depth
of the nested files. -/
theorem include_loop_rejected (env : Env) (c : Option Config) (f content : Str)
    (e : SyntaxError) (hopen : env.openFile f = some content)
    (hreach : ReachesLoop env f 0 (Parser.pushFile env (NewParser c) f).2
      (readLines content) e) :
    e.msg = "include loop".toList ∧
    ∃ n, ∀ fuel, n ≤ fuel →
      (Parser.ParseFile fuel env (NewParser c) f).1 = Outcome.err (GoError.syntaxError e) := by
  replace hopen : env.openFile f = some { content := content, fails := false } := hopen
  refine ⟨reachesLoop_msg env _ _ _ _ e hreach, ?_⟩
  have hnv : env.abs f ∉ (NewParser c).visitedFiles := by simp [NewParser]
  have hpush : Parser.pushFile env (NewParser c) f
      = (Outcome.ok, { (NewParser c) with
          visitedFiles := (NewParser c).visitedFiles ++ [env.abs f],
          fileStack := (NewParser c).fileStack ++ [f],
          lineNrStack := (NewParser c).lineNrStack ++ [0] }) := by
    rcases pushFile_cases env (NewParser c) f with ⟨h1, _⟩ | ⟨_, h2⟩
    · exact absurd h1 hnv
    · exact h2
  rw [hpush] at hreach
  have hinv : LoopInv env f 0 { (NewParser c) with
      visitedFiles := (NewParser c).visitedFiles ++ [env.abs f],
      fileStack := (NewParser c).fileStack ++ [f],
      lineNrStack := (NewParser c).lineNrStack ++ [0] } := by
    refine ⟨by simp [NewParser], by simp [Parser.curFile, NewParser],
      by simp [Parser.curLineNr, NewParser], ?_⟩
    intro g hg
    have hgf : g = f := by simpa [NewParser] using hg
    subst hgf
    exact ⟨by simp, by simp [hopen]⟩
  obtain ⟨n, hn⟩ := handleLines_of_reachesLoop env f 0 _ _ e hreach hinv
  refine ⟨n + 1, fun fuel hfuel => ?_⟩
  obtain ⟨m, rfl⟩ : ∃ m, fuel = m + 1 := ⟨fuel - 1, by omega⟩
  unfold Parser.ParseFile Parser.ParseFileWith
  simp only [hopen]
  rw [parseReader_succ_of_not_visited m env (NewParser c) content f hnv]
  exact hn m (by omega)

/-- In `loopFiles`, parsing `a.ini` reaches the directive `[Require a.ini]` on
line 2 of `b.ini` while `a.ini` and `b.ini` are on the file stack. -/
theorem loopFiles_reachesLoop :
    ReachesLoop loopFiles "a.ini".toList 0
      (Parser.pushFile loopFiles (NewParser none) "a.ini".toList).2
      (readLines "[S]\n[Include b.ini]\nx = 1".toList)
      { path := "b.ini".toList, lineNr := 2, msg := "include loop".toList } := by
  have hl : readLines "[S]\n[Include b.ini]\nx = 1".toList
      = ["[S]\n".toList, "[Include b.ini]\n".toList, "x = 1".toList] := by decide
  rw [hl]
  refine ReachesLoop.later _ _ _ _ _ _ _ ⟨0, rfl⟩ ?_
  refine ReachesLoop.inside _ _ _ _ _ _ _ false "b.ini".toList "b.ini".toList
    "y = 2\n[Require a.ini]".toList _ (by decide) (by decide) (by decide) rfl rfl ?_
  have hl2 : readLines "y = 2\n[Require a.ini]".toList
      = ["y = 2\n".toList, "[Require a.ini]".toList] := by decide
  rw [hl2]
  refine ReachesLoop.later _ _ _ _ _ _ _ ⟨0, rfl⟩ ?_
  exact ReachesLoop.here _ _ _ _ _ true "a.ini".toList "a.ini".toList
    (by decide) (by decide) (by decide)

/-- Witness of `include_loop_rejected`: `a.ini` includes `b.ini`, whose second
line requires `a.ini`; the error is stamped `b.ini:2`. -/
theorem include_loop_rejected_witness :
    (loopFiles.openFile "a.ini".toList = some "[S]\n[Include b.ini]\nx = 1".toList ∧
      ReachesLoop loopFiles "a.ini".toList 0
        (Parser.pushFile loopFiles (NewParser none) "a.ini".toList).2
        (readLines "[S]\n[Include b.ini]\nx = 1".toList)
        { path := "b.ini".toList, lineNr := 2, msg := "include loop".toList }) ∧
    (∃ n, ∀ fuel, n ≤ fuel →
      (Parser.ParseFile fuel loopFiles (NewParser none) "a.ini".toList).1
        = Outcome.err (GoError.syntaxError
            { path := "b.ini".toList, lineNr := 2, msg := "include loop".toList })) ∧
    (Parser.ParseFile 3 loopFiles (NewParser none) "a.ini".toList).1
      = Outcome.err (GoError.syntaxError
          { path := "b.ini".toList, lineNr := 2, msg := "include loop".toList }) :=
  ⟨⟨by decide, loopFiles_reachesLoop⟩,
   (include_loop_rejected loopFiles none "a.ini".toList
      "[S]\n[Include b.ini]\nx = 1".toList
      { path := "b.ini".toList, lineNr := 2, msg := "include loop".toList }
      (by decide) loopFiles_reachesLoop).2,
   by decide⟩

/-! ## C17, C18 : the store -/

theorem Value_setValueNoLock_other (c : Config) (s l v s' l' : Str)
    (h : (s', l') ≠ (s, l)) :
    (c.setValueNoLock s l v).Value s' l' = c.Value s' l' := by
  by_cases hs : s' = s
  · subst hs
    have hl : l' ≠ l := fun e => h (by rw [e])
    cases hm : mapGet c.cfg s' with
    | none =>
      simp [Config.setValueNoLock, Config.Value, hm, mapGet_mapSet_self, mapGet, mapSet, hl,
        Ne.symm hl]
    | some m =>
      simp [Config.setValueNoLock, Config.Value, hm, mapGet_mapSet_self,
        mapGet_mapSet_ne m l l' v hl]
  · cases hm : mapGet c.cfg s with
    | none =>
      simp [Config.setValueNoLock, Config.Value, hm, mapGet_mapSet_self,
        mapGet_mapSet_ne _ s s' _ hs]
    | some m =>
      simp [Config.setValueNoLock, Config.Value, hm, mapGet_mapSet_ne _ s s' _ hs]

/-- C17: `Value(s, l)` is the empty string when section `s` or label `l` is
absent; after `SetValue(s, l, v)` the value of `(s, l)` is `v`, and the value of
every other pair `(s', l')` is what it was. -/
theorem Value_SetValue_law (c : Config) (s l v : Str) :
    ((mapGet c.cfg s = none ∨ ∃ m, mapGet c.cfg s = some m ∧ mapGet m l = none) →
      c.Value s l = []) ∧
    (c.SetValue s l v).Value s l = v ∧
    ∀ s' l', (s', l') ≠ (s, l) → (c.SetValue s l v).Value s' l' = c.Value s' l' := by
  refine ⟨?_, Value_setValueNoLock_self c s l v, ?_⟩
  · rintro (h | ⟨m, hm, hl⟩)
    · simp [Config.Value, h]
    · simp [Config.Value, hm, hl]
  · intro s' l' h
    exact Value_setValueNoLock_other c s l v s' l' h

/-- Witness of `Value_SetValue_law`: the calls of `TestSetGetValue`, and a
second label that keeps its value. -/
theorem Value_SetValue_law_witness :
    (mapGet NewConfig.cfg "A".toList = none ∧
      NewConfig.Value "A".toList "B".toList = []) ∧
    (NewConfig.SetValue "A".toList "B".toList "C".toList).Value "A".toList "B".toList
      = "C".toList ∧
    (("A".toList, "D".toList) ≠ ("A".toList, "B".toList) ∧
      (NewConfig.SetValue "A".toList "B".toList "C".toList).Value "A".toList "D".toList
        = NewConfig.Value "A".toList "D".toList) :=
  ⟨⟨by decide,
    (Value_SetValue_law NewConfig "A".toList "B".toList "C".toList).1 (Or.inl (by decide))⟩,
   (Value_SetValue_law NewConfig "A".toList "B".toList "C".toList).2.1,
   ⟨by decide,
    (Value_SetValue_law NewConfig "A".toList "B".toList "C".toList).2.2 _ _ (by decide)⟩⟩

/-- C18: after `SetSection(s, m)` the labels of `s` are exactly the keys of `m`,
`Value(s, l)` is `m[l]` for every label `l` (the empty string for a label that is
not a key of `m`, whatever `s` held before), and every other section is
unchanged. -/
theorem SetSection_replaces (c : Config) (s : Str) (m : List (Str × Str)) :
    (c.SetSection s m).Labels s = mapKeys m ∧
    (∀ l, (c.SetSection s m).Value s l
      = match mapGet m l with
        | some v => v
        | none => []) ∧
    ∀ s', s' ≠ s →
      mapGet (c.SetSection s m).cfg s' = mapGet c.cfg s' ∧
      (c.SetSection s m).Labels s' = c.Labels s' ∧
      ∀ l', (c.SetSection s m).Value s' l' = c.Value s' l' := by
  refine ⟨?_, ?_, ?_⟩
  · simp [Config.SetSection, Config.Labels, mapGet_mapSet_self]
  · intro l
    simp only [Config.SetSection, Config.Value, mapGet_mapSet_self]
    cases mapGet m l <;> rfl
  · intro s' hs
    have h := mapGet_mapSet_ne c.cfg s s' m hs
    refine ⟨h, ?_, ?_⟩
    · simp only [Config.SetSection, Config.Labels, h]
    · intro l'
      simp only [Config.SetSection, Config.Value, h]

/-- Witness of `SetSection_replaces`: the call of `TestSetSection` on a store
that holds another section. -/
theorem SetSection_replaces_witness :
    "S".toList ≠ "A".toList ∧
    mapGet (Config.SetSection { cfg := [("S".toList, [("L".toList, "V".toList)])] }
        "A".toList [("B".toList, "C".toList), ("D".toList, "E".toList)]).cfg "S".toList
      = mapGet ({ cfg := [("S".toList, [("L".toList, "V".toList)])] } : Config).cfg
          "S".toList :=
  ⟨by decide,
   ((SetSection_replaces { cfg := [("S".toList, [("L".toList, "V".toList)])] }
      "A".toList [("B".toList, "C".toList), ("D".toList, "E".toList)]).2.2
      "S".toList (by decide)).1⟩

/-! ## C12 : a parser that is used twice -/

theorem popFile_visitedFiles (p : Parser) : p.popFile.visitedFiles = p.visitedFiles := by
  by_cases h : p.fileStack.length > 0 <;> simp [Parser.popFile, h]

/-- After `parseReader` has entered a path, the path is in the visited set. -/
theorem parseReader_visited (env : Env) (fuel : Nat) (p : Parser) (content path : Str)
    (hlen : p.lineNrStack.length = p.fileStack.length) :
    env.abs path ∈ (Parser.parseReader (fuel + 1) env p content path).2.visitedFiles := by
  by_cases hv : env.abs path ∈ p.visitedFiles
  · rw [parseReader_succ_of_visited fuel env p content path hv]
    exact hv
  · rw [parseReader_succ_of_not_visited fuel env p content path hv]
    have hfs := handleLines_frameStep env _ (parseReader_nestedOk env fuel)
      { p with visitedFiles := p.visitedFiles ++ [env.abs path],
               fileStack := p.fileStack ++ [path],
               lineNrStack := p.lineNrStack ++ [0] } (readLines content)
      (by simp [hlen])
    have hmem := hfs.2.2.2 (List.mem_append_right p.visitedFiles (List.mem_singleton.2 rfl))
    simp only [popFile_visitedFiles]
    exact hmem

/-- C12 (the code at the failing inputs): for every store and all inputs `r1` and
`r2`, the second `Parse` on one Parser ends in a run-time panic: the first call
leaves the path of the stream in `visitedFiles` and an empty file stack, so
`pushFile` builds the "include loop" error and `curFile` indexes the empty
stack.  On a new Parser over the store of the used one, the empty input parses. -/
theorem second_Parse_panics (env : Env) (c : Option Config) (fuel1 fuel2 : Nat)
    (r1 r2 : Str) :
    (Parser.Parse (fuel2 + 1) env (Parser.Parse (fuel1 + 1) env (NewParser c) r1).2 r2).1
      = Outcome.panic ∧
    (Parser.Parse 1 env (NewParser none) ([] : Str)).1 = Outcome.ok ∧
    (Parser.Parse 1 env (Parser.Parse 1 env (NewParser none) ([] : Str)).2 ([] : Str)).1
      = Outcome.panic ∧
    (Parser.Parse 1 env
      (NewParser (some (Parser.Parse 1 env (NewParser none) ([] : Str)).2.Config))
      ([] : Str)).1
      = Outcome.ok := by
  have hgen : ∀ (c : Option Config) (fuel1 fuel2 : Nat) (r1 r2 : Str),
      (Parser.Parse (fuel2 + 1) env (Parser.Parse (fuel1 + 1) env (NewParser c) r1).2 r2).1
        = Outcome.panic := by
    intro c fuel1 fuel2 r1 r2
    have hlen : (NewParser c).lineNrStack.length = (NewParser c).fileStack.length := rfl
    have hss := parseReader_nestedOk env (fuel1 + 1) (NewParser c) r1 [] hlen
    have hvis := parseReader_visited env fuel1 (NewParser c) r1 [] hlen
    unfold Parser.Parse
    rw [parseReader_succ_of_visited fuel2 env _ r2 [] hvis]
    have hfs : (Parser.parseReader (fuel1 + 1) env (NewParser c) r1 []).2.fileStack = [] :=
      hss.1
    simp only [Parser.syntaxError, Parser.curFile, hfs, List.getLast?_nil]
  exact ⟨hgen c fuel1 fuel2 r1 r2, rfl, hgen none 0 0 [] [], rfl⟩

/-! ## C16, C20 : section headers -/

/-- C16: inside a parse frame, for every line whose cleaned form is `[name]`,
where the trimmed name is non-empty, holds no bracket and does not begin with
`Include ` or `Require `, `handleLine` succeeds, sets the current section to the
trimmed name and leaves the store and the current label unchanged; and the input
of `TestSimple`, which opens `Section A` twice, yields `"Value A B C D"`. -/
theorem section_header_sets_section (env : Env)
    (nested : Parser → Reader → Str → Outcome × Parser) (p : Parser) (line name : Str)
    (hframe : p.InFrame)
    (hclean : removeComments (trimSpace line) = '[' :: (name ++ [']']))
    (hbr : '[' ∉ name ∧ ']' ∉ name) (hne : trimSpace name ≠ [])
    (hinc : hasPrefixStr (trimSpace name) "Include ".toList = false)
    (hreq : hasPrefixStr (trimSpace name) "Require ".toList = false) :
    ((Parser.handleLine env nested p line).1 = Outcome.ok ∧
      (Parser.handleLine env nested p line).2.curSection = trimSpace name ∧
      (Parser.handleLine env nested p line).2.Config = p.Config ∧
      (Parser.handleLine env nested p line).2.curLabel = p.curLabel) ∧
    (Parser.Parse 1 env (NewParser none)
      "# Some comment\n[Section A]\nLabel A = Value A\n\n[Section A]\nLabel A += B C D".toList).2.Config.Value
        "Section A".toList "Label A".toList = "Value A B C D".toList := by
  refine ⟨?_, rfl⟩
  obtain ⟨n, -, hincr⟩ := incLineNr_of_InFrame p hframe
  have hname : name ≠ [] := by
    intro e
    rw [e] at hne
    exact hne rfl
  have hsec : readSectionName ('[' :: (name ++ [']'])) = (true, trimSpace name) := by
    unfold readSectionName
    rw [reSectionFind_bracketed name hname hbr.2]
  have hl : Parser.handleLine env nested p line
      = (Outcome.ok,
          { p with lineNrStack := p.lineNrStack.dropLast ++ [(n + 1) % 2 ^ 64],
                   curSection := trimSpace name }) := by
    unfold Parser.handleLine
    rw [hincr]
    have hreq2 : hasPrefixStr (trimSpace name) ['R', 'e', 'q', 'u', 'i', 'r', 'e', ' ']
        = false := hreq
    have hinc2 : hasPrefixStr (trimSpace name) ['I', 'n', 'c', 'l', 'u', 'd', 'e', ' ']
        = false := hinc
    simp [hclean, hsec, hreq2, hinc2, Parser.setCurSection, hne]
  rw [hl]
  exact ⟨rfl, rfl, rfl, rfl⟩

/-- Witness of `section_header_sets_section`: the header `[  Section A   ]`,
read after an assignment in section `S`. -/
theorem section_header_sets_section_witness :
    (stateAfterAssignment.InFrame ∧
      removeComments (trimSpace "[  Section A   ] # header\n".toList)
        = '[' :: ("  Section A   ".toList ++ [']']) ∧
      ('[' ∉ "  Section A   ".toList ∧ ']' ∉ "  Section A   ".toList) ∧
      trimSpace "  Section A   ".toList ≠ []) ∧
    (Parser.handleLine (flatEnv []) (Parser.parseReader 1 (flatEnv []))
        stateAfterAssignment "[  Section A   ] # header\n".toList).1 = Outcome.ok ∧
    (Parser.handleLine (flatEnv []) (Parser.parseReader 1 (flatEnv []))
        stateAfterAssignment "[  Section A   ] # header\n".toList).2.curSection
      = trimSpace "  Section A   ".toList ∧
    (Parser.handleLine (flatEnv []) (Parser.parseReader 1 (flatEnv []))
        stateAfterAssignment "[  Section A   ] # header\n".toList).2.Config
      = stateAfterAssignment.Config :=
  have h := (section_header_sets_section (flatEnv []) (Parser.parseReader 1 (flatEnv []))
    stateAfterAssignment "[  Section A   ] # header\n".toList "  Section A   ".toList
    (by decide) (by decide) (by decide) (by decide) (by decide) (by decide)).1
  ⟨⟨by decide, by decide, by decide, by decide⟩, h.1, h.2.1, h.2.2.1⟩

/-- C20 (the code at the failing input): `readSectionName` reports a section for
`"L = a[0]"`, which neither begins with `[` nor ends with `]`; with current
section `S`, `handleLine` on this assignment stores nothing and makes `0` the
current section. -/
theorem bracket_in_value_is_a_section (env : Env)
    (nested : Parser → Reader → Str → Outcome × Parser) :
    readSectionName "L = a[0]".toList = (true, "0".toList) ∧
    Parser.handleLine env nested stateAfterAssignment "L = a[0]".toList
      = (Outcome.ok,
        { Config := { cfg := [("S".toList, [("L".toList, "A".toList)])] },
          curSection := "0".toList, curLabel := "L".toList,
          fileStack := [[]], lineNrStack := [3], visitedFiles := [[]] }) ∧
    (Parser.handleLine env nested stateAfterAssignment "L = a[0]".toList).2.Config.Value
        "S".toList "L".toList ≠ "a[0]".toList := by
  refine ⟨by decide, rfl, ?_⟩
  have h : (Parser.handleLine env nested stateAfterAssignment "L = a[0]".toList).2.Config.Value
      "S".toList "L".toList = "A".toList := rfl
  rw [h]
  decide

/-! ## C19 : comment stripping twice -/

theorem reCommentReplaceAll_of_no_newline (x : Str) (h : '\n' ∉ x) :
    reCommentReplaceAll x = x.takeWhile (fun c => !isCommentChar c) := by
  induction x with
  | nil => rfl
  | cons c cs ih =>
    have hcs : '\n' ∉ cs := fun e => h (List.mem_cons_of_mem c e)
    have hall : cs.all (fun d => d != '\n') = true := by
      rw [List.all_eq_true]
      intro d hd
      have : d ≠ '\n' := fun e => hcs (e ▸ hd)
      simpa using this
    by_cases hc : isCommentChar c = true
    · simp [reCommentReplaceAll, List.takeWhile_cons, hc, hall]
    · simp [reCommentReplaceAll, List.takeWhile_cons, hc, ih hcs]

theorem mem_of_mem_trimSpace (c : Char) (z : Str) (h : c ∈ trimSpace z) : c ∈ z := by
  rw [trimSpace_eq] at h
  exact (List.dropWhile_suffix isSpace).subset
    ((List.rdropWhile_prefix isSpace (z.dropWhile isSpace)).subset h)

theorem trimSpace_idem (z : Str) : trimSpace (trimSpace z) = trimSpace z := by
  rw [trimSpace_eq (trimSpace z), trimSpace_eq z, dropWhile_rdropWhile_comm,
    List.dropWhile_idempotent, List.rdropWhile_idempotent]

/-- C19 (counterexample): `removeComments("a;b\n")` is `"a;b"`, because the
pattern must reach the end of the text and `.` stops at the newline; stripping
this result once more gives `"a"`. -/
theorem removeComments_twice_counterexample :
    removeComments "a;b\n".toList = "a;b".toList ∧
    removeComments (removeComments "a;b\n".toList) = "a".toList ∧
    removeComments (removeComments "a;b\n".toList) ≠ removeComments "a;b\n".toList := by
  decide

/-- C19 (amended): for every string `x` without a newline,
`removeComments(removeComments(x)) = removeComments(x)`; and a line whose first
character that is not white space is `;` or `#`, and which holds no newline but
at its end, strips to the empty string, so `handleLine` on it returns no error
and changes nothing but the line counter. -/
theorem removeComments_idempotent :
    (∀ x : Str, '\n' ∉ x → removeComments (removeComments x) = removeComments x) ∧
    ∀ (env : Env) (nested : Parser → Reader → Str → Outcome × Parser) (p : Parser)
      (line : Str), p.InFrame →
      ((line.dropWhile isSpace).head? = some ';' ∨
        (line.dropWhile isSpace).head? = some '#') →
      '\n' ∉ trimSpace line →
      removeComments (trimSpace line) = [] ∧
      ∃ n, p.lineNrStack.getLast? = some n ∧
        Parser.handleLine env nested p line
          = (Outcome.ok,
              { p with lineNrStack := p.lineNrStack.dropLast ++ [(n + 1) % 2 ^ 64] }) := by
  constructor
  · intro x hx
    have h1 : removeComments x = trimSpace (x.takeWhile (fun c => !isCommentChar c)) := by
      unfold removeComments
      rw [reCommentReplaceAll_of_no_newline x hx]
    have hnc : ∀ c ∈ removeComments x, isCommentChar c = false := by
      intro c hc
      rw [h1] at hc
      have := List.mem_takeWhile_imp (mem_of_mem_trimSpace c _ hc)
      simpa using this
    have h2 : removeComments (removeComments x)
        = trimSpace (reCommentReplaceAll (removeComments x)) := rfl
    rw [h2, reCommentReplaceAll_of_no_comment _ hnc, h1, trimSpace_idem]
  · intro env nested p line hframe hfirst hnl
    have hclean : removeComments (trimSpace line) = [] := by
      have hhead : ∃ c rest, isCommentChar c = true ∧ trimSpace line = c :: rest := by
        rw [trimSpace_eq]
        cases hd : line.dropWhile isSpace with
        | nil => simp [hd] at hfirst
        | cons c rest =>
          have hc : c = ';' ∨ c = '#' := by simpa [hd] using hfirst
          have hcc : isCommentChar c = true := by
            rcases hc with rfl | rfl <;> decide
          have hns : isSpace c = false := by
            rcases hc with rfl | rfl <;> decide
          by_cases hall : ∀ d ∈ rest, isSpace d = true
          · refine ⟨c, [], hcc, ?_⟩
            rw [rdropWhile_cons_of_all isSpace c rest hall]
            simp [hns]
          · have hex : ∃ d ∈ rest, isSpace d = false := by
              push_neg at hall
              obtain ⟨d, hd1, hd2⟩ := hall
              exact ⟨d, hd1, by simpa using hd2⟩
            exact ⟨c, rest.rdropWhile isSpace, hcc,
              rdropWhile_append_of_exists isSpace [c] rest hex⟩
      obtain ⟨c, rest, hcc, ht⟩ := hhead
      have hrest : '\n' ∉ rest := by
        intro e
        apply hnl
        rw [ht]
        exact List.mem_cons_of_mem c e
      have hall : rest.all (fun d => d != '\n') = true := by
        rw [List.all_eq_true]
        intro d hd
        have : d ≠ '\n' := fun e => hrest (e ▸ hd)
        simpa using this
      unfold removeComments
      rw [ht]
      simp [reCommentReplaceAll, hcc, hall, trimSpace]
    refine ⟨hclean, ?_⟩
    obtain ⟨n, hn, hinc⟩ := incLineNr_of_InFrame p hframe
    refine ⟨n, hn, ?_⟩
    unfold Parser.handleLine
    rw [hinc]
    simp [hclean]

/-- Witness of `removeComments_idempotent`: the inputs of `TestRemoveComments`. -/
theorem removeComments_idempotent_witness :
    ('\n' ∉ "Some text # Leading comment ; Another comment".toList ∧
      removeComments (removeComments "Some text # Leading comment ; Another comment".toList)
        = removeComments "Some text # Leading comment ; Another comment".toList) ∧
    (stateAfterAssignment.InFrame ∧
      ("  # only a comment\n".toList.dropWhile isSpace).head? = some '#' ∧
      '\n' ∉ trimSpace "  # only a comment\n".toList ∧
      removeComments (trimSpace "  # only a comment\n".toList) = []) :=
  ⟨⟨by decide,
    removeComments_idempotent.1 "Some text # Leading comment ; Another comment".toList
      (by decide)⟩,
   ⟨by decide, by decide, by decide,
    (removeComments_idempotent.2 (flatEnv []) (Parser.parseReader 1 (flatEnv [])) stateAfterAssignment
      "  # only a comment\n".toList (by decide) (Or.inr (by decide)) (by decide)).1⟩⟩

/-! ## Facts about plain text and the lines built from it -/

theorem rdropWhile_append_of_all (p : Char → Bool) (a b : Str)
    (h : ∀ x ∈ b, p x = true) : (a ++ b).rdropWhile p = a.rdropWhile p := by
  have h2 : ∀ x ∈ b.reverse, p x = true := fun x hx => h x (List.mem_reverse.1 hx)
  simp only [List.rdropWhile, List.reverse_append, List.dropWhile_append_of_pos h2]

theorem rdropWhile_append_tight (a b : Str) (x : Char) (hx : isSpace x = false) :
    ((a ++ [x]) ++ b).rdropWhile isSpace = (a ++ [x]) ++ b.rdropWhile isSpace := by
  by_cases hall : ∀ d ∈ b, isSpace d = true
  · rw [rdropWhile_append_of_all isSpace _ b hall, List.rdropWhile_eq_nil_iff.2 hall,
      List.rdropWhile_concat_neg _ _ _ (by simp [hx])]
    simp
  · have hex : ∃ d ∈ b, isSpace d = false := by
      push_neg at hall
      obtain ⟨d, hd1, hd2⟩ := hall
      exact ⟨d, hd1, by simpa using hd2⟩
    exact rdropWhile_append_of_exists isSpace _ b hex

theorem plainChar_not_space (c : Char) (h : isPlainChar c = true) (hc : c ≠ ' ') :
    isSpace c = false := by
  unfold isPlainChar at h
  have h1 : (c == ' ') = false := by simpa using hc
  rw [h1] at h
  simp only [Bool.false_or, Bool.not_eq_true', Bool.or_eq_false_iff] at h
  exact h.1.1.1.1.1

theorem plainChar_facts (c : Char) (h : isPlainChar c = true) :
    isCommentChar c = false ∧ c ≠ '=' ∧ c ≠ '+' ∧ c ≠ '[' ∧ c ≠ ']' ∧ c ≠ '\n' := by
  by_cases hc : c = ' '
  · subst hc
    decide
  · unfold isPlainChar at h
    have h1 : (c == ' ') = false := by simpa using hc
    rw [h1] at h
    simp only [Bool.false_or, Bool.not_eq_true', Bool.or_eq_false_iff, beq_eq_false_iff_ne,
      ne_eq] at h
    obtain ⟨⟨⟨⟨⟨hs, hcm⟩, h2⟩, h3⟩, h4⟩, h5⟩ := h
    refine ⟨hcm, h2, h3, h4, h5, ?_⟩
    intro e
    subst e
    exact absurd hs (by decide)

/-- A plain text neither starts nor ends with white space. -/
theorem plainText_tight (s : Str) (h : PlainText s) :
    (∀ c, s.head? = some c → isSpace c = false) ∧
    (∀ c, s.getLast? = some c → isSpace c = false) := by
  obtain ⟨hall, hh, hl⟩ := h
  constructor
  · intro c hc
    have hmem : c ∈ s := List.mem_of_mem_head? hc
    exact plainChar_not_space c (hall c hmem) (fun e => hh (by rw [hc, e]))
  · intro c hc
    have hmem : c ∈ s := List.mem_of_mem_getLast? hc
    exact plainChar_not_space c (hall c hmem) (fun e => hl (by rw [hc, e]))

/-- Trimming removes white space around a text that neither starts nor ends
with white space, and nothing else. -/
theorem trimSpace_pad (a s b : Str) (ha : ∀ c ∈ a, isSpace c = true)
    (hb : ∀ c ∈ b, isSpace c = true)
    (hh : ∀ c, s.head? = some c → isSpace c = false)
    (hl : ∀ c, s.getLast? = some c → isSpace c = false) :
    trimSpace (a ++ s ++ b) = s := by
  rw [trimSpace_eq, List.append_assoc, List.dropWhile_append_of_pos ha]
  cases s with
  | nil =>
    rw [List.nil_append, List.dropWhile_eq_nil_iff.2 hb]
    rfl
  | cons c t =>
    have hc : isSpace c = false := hh c rfl
    rw [List.cons_append, List.dropWhile_cons]
    simp only [hc, Bool.false_eq_true, if_false]
    rw [← List.cons_append, rdropWhile_append_of_all isSpace _ b hb,
      List.rdropWhile_eq_self_iff]
    intro hne
    have hlast := hl ((c :: t).getLast hne) (List.getLast?_eq_getLast _ hne)
    simp [hlast]

theorem reSectionFind_none (s : Str) (h : '[' ∉ s) : reSectionFind s = none := by
  induction s with
  | nil => rfl
  | cons c cs ih =>
    have hc : c ≠ '[' := fun e => h (by simp [e])
    have hcs : '[' ∉ cs := fun e => h (List.mem_cons_of_mem c e)
    have hat : reSectionAt (c :: cs) = none := by
      simp [reSectionAt, hc]
    simp only [reSectionFind, hat, ih hcs]

theorem readLines_of_no_newline (a : Str) (h : '\n' ∉ a) : readLines a = [a] := by
  induction a with
  | nil => rfl
  | cons c cs ih =>
    have hc : c ≠ '\n' := fun e => h (by simp [e])
    have hcs : '\n' ∉ cs := fun e => h (List.mem_cons_of_mem c e)
    simp [readLines, hc, ih hcs]

theorem readLines_append_newline (a rest : Str) (h : '\n' ∉ a) :
    readLines (a ++ '\n' :: rest) = (a ++ ['\n']) :: readLines rest := by
  induction a with
  | nil => simp [readLines]
  | cons c cs ih =>
    have hc : c ≠ '\n' := fun e => h (by simp [e])
    have hcs : '\n' ∉ cs := fun e => h (List.mem_cons_of_mem c e)
    simp [readLines, hc, ih hcs]

/-- Reading a text that is newline-free segments joined by newlines. -/
theorem readLines_intercalate (segs : List Str) (hne : segs ≠ [])
    (h : ∀ s ∈ segs, '\n' ∉ s) :
    readLines (List.intercalate ['\n'] segs) = markLines segs := by
  induction segs with
  | nil => exact absurd rfl hne
  | cons s rest ih =>
    have hs : '\n' ∉ s := h s (by simp)
    cases rest with
    | nil =>
      have e : List.intercalate ['\n'] [s] = s := by
        simp [List.intercalate, List.intersperse]
      rw [e]
      exact readLines_of_no_newline s hs
    | cons t r =>
      have hrest : ∀ u ∈ t :: r, '\n' ∉ u := fun u hu => h u (List.mem_cons_of_mem s hu)
      have hi := ih (by simp) hrest
      have e : List.intercalate ['\n'] (s :: t :: r)
          = s ++ '\n' :: List.intercalate ['\n'] (t :: r) := by
        simp [List.intercalate, List.intersperse]
      rw [e, readLines_append_newline s _ hs, hi]
      rfl

/-- What is left of ` <value>` once trailing white space is gone. -/
theorem valueTail_facts (v : Str) (hv : PlainText v) :
    (∀ c ∈ (' ' :: v).rdropWhile isSpace, isPlainChar c = true) ∧
    trimSpace ((' ' :: v).rdropWhile isSpace) = v := by
  constructor
  · intro c hc
    have hmem : c ∈ ' ' :: v := (List.rdropWhile_prefix isSpace (' ' :: v)).subset hc
    rcases List.mem_cons.1 hmem with rfl | h
    · decide
    · exact hv.1 c h
  · rw [trimSpace_rdropWhile]
    have h := trimSpace_pad [' '] v [] (by decide) (by simp) (plainText_tight v hv).1
      (plainText_tight v hv).2
    simpa using h

/-- Cleaning a line `<label> <op> <value>` of plain texts, where `<op>` is `=`
or `+=`: only the white space at its end goes. -/
theorem clean_operator_line (l v nl opc : Str) (hop : opc = ['='] ∨ opc = ['+', '='])
    (hl : PlainText l) (hlne : l ≠ []) (hv : PlainText v)
    (hnl : ∀ c ∈ nl, isSpace c = true) :
    removeComments (trimSpace ((l ++ [' ']) ++ opc ++ ((' ' :: v) ++ nl)))
      = (l ++ [' ']) ++ opc ++ (' ' :: v).rdropWhile isSpace := by
  obtain ⟨c, l', rfl⟩ := List.exists_cons_of_ne_nil hlne
  have hc : isSpace c = false := (plainText_tight _ hl).1 c rfl
  have htrim : trimSpace (((c :: l') ++ [' ']) ++ opc ++ ((' ' :: v) ++ nl))
      = ((c :: l') ++ [' ']) ++ opc ++ (' ' :: v).rdropWhile isSpace := by
    rw [trimSpace_eq]
    have e1 : ((c :: l') ++ [' ']) ++ opc ++ ((' ' :: v) ++ nl)
        = c :: ((l' ++ [' ']) ++ opc ++ ((' ' :: v) ++ nl)) := by simp
    rw [e1, List.dropWhile_cons]
    simp only [hc, Bool.false_eq_true, if_false]
    rw [← e1]
    rcases hop with rfl | rfl
    · have e2 : ((c :: l') ++ [' ']) ++ ['='] ++ ((' ' :: v) ++ nl)
          = (((c :: l') ++ [' ']) ++ ['=']) ++ ((' ' :: v) ++ nl) := by simp
      rw [e2, rdropWhile_append_tight _ _ '=' (by decide),
        rdropWhile_append_of_all isSpace _ nl hnl]
    · have e2 : ((c :: l') ++ [' ']) ++ ['+', '='] ++ ((' ' :: v) ++ nl)
          = (((c :: l') ++ [' ', '+']) ++ ['=']) ++ ((' ' :: v) ++ nl) := by simp
      have e3 : ((c :: l') ++ [' ']) ++ ['+', '='] ++ (' ' :: v).rdropWhile isSpace
          = (((c :: l') ++ [' ', '+']) ++ ['=']) ++ (' ' :: v).rdropWhile isSpace := by simp
      rw [e2, e3, rdropWhile_append_tight _ _ '=' (by decide),
        rdropWhile_append_of_all isSpace _ nl hnl]
  have hnc : ∀ d ∈ ((c :: l') ++ [' ']) ++ opc ++ (' ' :: v).rdropWhile isSpace,
      isCommentChar d = false := by
    intro d hd
    rcases List.mem_append.1 hd with h | h
    · rcases List.mem_append.1 h with h | h
      · rcases List.mem_append.1 h with h | h
        · exact (plainChar_facts d (hl.1 d h)).1
        · rw [List.mem_singleton.1 h]
          decide
      · rcases hop with rfl | rfl
        · rw [List.mem_singleton.1 h]
          decide
        · rcases List.mem_cons.1 h with rfl | h
          · decide
          · rw [List.mem_singleton.1 h]
            decide
    · exact (plainChar_facts d ((valueTail_facts v hv).1 d h)).1
  unfold removeComments
  rw [htrim, reCommentReplaceAll_of_no_comment _ hnc, ← htrim, trimSpace_idem]

theorem trimSpace_label_space (l : Str) (hl : PlainText l) : trimSpace (l ++ [' ']) = l := by
  have h := trimSpace_pad [] l [' '] (by simp) (by decide) (plainText_tight l hl).1
    (plainText_tight l hl).2
  simpa using h

/-- The classification of a cleaned line `<label> = <value>` of plain texts. -/
theorem classify_assign_line (l v : Str) (hl : PlainText l) (hv : PlainText v) :
    readSectionName ((l ++ [' ']) ++ ['='] ++ (' ' :: v).rdropWhile isSpace) = (false, []) ∧
    readAppend ((l ++ [' ']) ++ ['='] ++ (' ' :: v).rdropWhile isSpace) = (false, [], []) ∧
    readAssign ((l ++ [' ']) ++ ['='] ++ (' ' :: v).rdropWhile isSpace) = (true, l, v) := by
  have hw := valueTail_facts v hv
  have hmem : ∀ d ∈ (l ++ [' ']) ++ ['='] ++ (' ' :: v).rdropWhile isSpace,
      d = '=' ∨ isPlainChar d = true := by
    intro d hd
    rcases List.mem_append.1 hd with h | h
    · rcases List.mem_append.1 h with h | h
      · rcases List.mem_append.1 h with h | h
        · exact Or.inr (hl.1 d h)
        · rw [List.mem_singleton.1 h]
          exact Or.inr (by decide)
      · exact Or.inl (List.mem_singleton.1 h)
    · exact Or.inr (hw.1 d h)
  refine ⟨?_, ?_, ?_⟩
  · have hb : '[' ∉ (l ++ [' ']) ++ ['='] ++ (' ' :: v).rdropWhile isSpace := by
      intro h
      rcases hmem _ h with h1 | h1
      · exact absurd h1 (by decide)
      · exact absurd h1 (by decide)
    simp only [readSectionName, reSectionFind_none _ hb]
  · have hplus : '+' ∉ (l ++ [' ']) ++ ['='] ++ (' ' :: v).rdropWhile isSpace := by
      intro h
      rcases hmem _ h with h1 | h1
      · exact absurd h1 (by decide)
      · exact absurd h1 (by decide)
    have hn := reLabelValueFind_none '+' ['+', '=']
      ((l ++ [' ']) ++ ['='] ++ (' ' :: v).rdropWhile isSpace)
      (by
        intro t ht
        cases hp : hasPrefixStr t ['+', '='] with
        | false => rfl
        | true =>
          obtain ⟨u, hu⟩ := (hasPrefixStr_iff _ _).1 hp
          exact absurd (ht.subset (by rw [hu]; simp)) hplus)
    simp only [readAppend, reAppendFind, readLabelValue, hn]
  · have hpre : '=' ∉ l ++ [' '] := by
      intro h
      rcases List.mem_append.1 h with h | h
      · exact (plainChar_facts _ (hl.1 _ h)).2.1 rfl
      · exact absurd (List.mem_singleton.1 h) (by decide)
    have hpost : '\n' ∉ (' ' :: v).rdropWhile isSpace := fun h =>
      (plainChar_facts _ (hw.1 _ h)).2.2.2.2.2 rfl
    have hf := reLabelValueFind_split '=' [] (l ++ [' ']) _ (by simp) hpre hpost
    simp only [readAssign, reAssignFind, readLabelValue, hf, trimSpace_label_space l hl, hw.2]

/-- The classification of a cleaned line `<label> += <value>` of plain texts. -/
theorem classify_append_line (l v : Str) (hl : PlainText l) (hv : PlainText v) :
    readSectionName ((l ++ [' ']) ++ ['+', '='] ++ (' ' :: v).rdropWhile isSpace)
      = (false, []) ∧
    readAppend ((l ++ [' ']) ++ ['+', '='] ++ (' ' :: v).rdropWhile isSpace)
      = (true, l, v) := by
  have hw := valueTail_facts v hv
  refine ⟨?_, ?_⟩
  · have hb : '[' ∉ (l ++ [' ']) ++ ['+', '='] ++ (' ' :: v).rdropWhile isSpace := by
      intro h
      rcases List.mem_append.1 h with h | h
      · rcases List.mem_append.1 h with h | h
        · rcases List.mem_append.1 h with h | h
          · exact (plainChar_facts _ (hl.1 _ h)).2.2.2.1 rfl
          · exact absurd (List.mem_singleton.1 h) (by decide)
        · revert h
          decide
      · exact (plainChar_facts _ (hw.1 _ h)).2.2.2.1 rfl
    simp only [readSectionName, reSectionFind_none _ hb]
  · have hpre : '+' ∉ l ++ [' '] := by
      intro h
      rcases List.mem_append.1 h with h | h
      · exact (plainChar_facts _ (hl.1 _ h)).2.2.1 rfl
      · exact absurd (List.mem_singleton.1 h) (by decide)
    have hpost : '\n' ∉ (' ' :: v).rdropWhile isSpace := fun h =>
      (plainChar_facts _ (hw.1 _ h)).2.2.2.2.2 rfl
    have hf := reLabelValueFind_split '+' ['='] (l ++ [' ']) _ (by simp) hpre hpost
    simp only [readAppend, reAppendFind, readLabelValue, hf, trimSpace_label_space l hl, hw.2]

/-! ## Handling the lines of a flat input -/

theorem inFrame_of_incLineNr (p : Parser) (n x : Nat) (hframe : p.InFrame)
    (hn : p.lineNrStack.getLast? = some n) :
    (p.lineNrStack.dropLast ++ [x]).length = p.fileStack.length := by
  have hne : p.lineNrStack ≠ [] := by
    intro e
    simp [e] at hn
  have := List.length_pos.2 hne
  simp only [List.length_append, List.length_dropLast, List.length_singleton]
  rw [← hframe.2]
  omega

/-- A header line `[S]` of a plain name that is no directive. -/
theorem handleLine_header_line (env : Env)
    (nested : Parser → Reader → Str → Outcome × Parser) (p : Parser) (S nl : Str)
    (hframe : p.InFrame) (hS : PlainText S) (hSne : S ≠ [])
    (hinc : hasPrefixStr S "Include ".toList = false)
    (hreq : hasPrefixStr S "Require ".toList = false)
    (hnl : ∀ c ∈ nl, isSpace c = true) :
    ∃ q, Parser.handleLine env nested p (('[' :: (S ++ [']'])) ++ nl) = (Outcome.ok, q) ∧
      q.InFrame ∧ q.curSection = S ∧ q.Config = p.Config ∧ q.curLabel = p.curLabel ∧
      q.visitedFiles = p.visitedFiles := by
  obtain ⟨n, hn, hincr⟩ := incLineNr_of_InFrame p hframe
  have htS : trimSpace S = S := by
    have h := trimSpace_pad [] S [] (by simp) (by simp) (plainText_tight S hS).1
      (plainText_tight S hS).2
    simpa using h
  have htrim : trimSpace (('[' :: (S ++ [']'])) ++ nl) = '[' :: (S ++ [']']) := by
    have h := trimSpace_pad [] ('[' :: (S ++ [']'])) nl (by simp) hnl
      (by
        intro c hc
        have : c = '[' := by simpa using hc.symm
        subst this
        decide)
      (by
        intro c hc
        have : c = ']' := by
          have h2 : ('[' :: (S ++ [']'])).getLast? = some ']' := by
            rw [← List.cons_append, List.getLast?_append]
            simp
          rw [h2] at hc
          exact (Option.some.inj hc).symm
        subst this
        decide)
    simpa using h
  have hnc : ∀ c ∈ '[' :: (S ++ [']']), isCommentChar c = false := by
    intro c hc
    rcases List.mem_cons.1 hc with rfl | hc
    · decide
    · rcases List.mem_append.1 hc with h | h
      · exact (plainChar_facts c (hS.1 c h)).1
      · rw [List.mem_singleton.1 h]
        decide
  have hclean : removeComments (trimSpace (('[' :: (S ++ [']'])) ++ nl))
      = '[' :: (S ++ [']']) := by
    unfold removeComments
    rw [htrim, reCommentReplaceAll_of_no_comment _ hnc, ← htrim, trimSpace_idem]
  have hbr : ']' ∉ S := fun h => (plainChar_facts _ (hS.1 _ h)).2.2.2.2.1 rfl
  have hsec : readSectionName ('[' :: (S ++ [']'])) = (true, S) := by
    unfold readSectionName
    rw [reSectionFind_bracketed S hSne hbr]
    simp only [htS]
  have hreq2 : hasPrefixStr S ['R', 'e', 'q', 'u', 'i', 'r', 'e', ' '] = false := hreq
  have hinc2 : hasPrefixStr S ['I', 'n', 'c', 'l', 'u', 'd', 'e', ' '] = false := hinc
  refine ⟨{ p with lineNrStack := p.lineNrStack.dropLast ++ [(n + 1) % 2 ^ 64],
                   curSection := S }, ?_, ?_, rfl, rfl, rfl, rfl⟩
  · unfold Parser.handleLine
    rw [hincr]
    simp only [hclean, hsec]
    simp [hreq2, hinc2, Parser.setCurSection, hSne]
  · exact ⟨hframe.1, inFrame_of_incLineNr p n _ hframe hn⟩

/-- A line `<label> = <value>` of plain texts, read in a section. -/
theorem handleLine_assign_line (env : Env)
    (nested : Parser → Reader → Str → Outcome × Parser) (p : Parser) (l v nl : Str)
    (hframe : p.InFrame) (hsec : p.curSection ≠ []) (hl : PlainText l) (hlne : l ≠ [])
    (hv : PlainText v) (hnl : ∀ c ∈ nl, isSpace c = true) :
    ∃ q, Parser.handleLine env nested p ((l ++ " = ".toList ++ v) ++ nl) = (Outcome.ok, q) ∧
      q.InFrame ∧ q.curSection = p.curSection ∧
      q.Config = p.Config.SetValue p.curSection l v ∧ q.curLabel = l := by
  obtain ⟨n, hn, hincr⟩ := incLineNr_of_InFrame p hframe
  have hline : (l ++ " = ".toList ++ v) ++ nl = (l ++ [' ']) ++ ['='] ++ ((' ' :: v) ++ nl) := by
    simp
  have hclean := clean_operator_line l v nl ['='] (Or.inl rfl) hl hlne hv hnl
  obtain ⟨h1, h2, h3⟩ := classify_assign_line l v hl hv
  have hne : (l ++ [' ']) ++ ['='] ++ (' ' :: v).rdropWhile isSpace ≠ [] := by simp
  refine ⟨{ p with lineNrStack := p.lineNrStack.dropLast ++ [(n + 1) % 2 ^ 64],
                   curLabel := l, Config := p.Config.SetValue p.curSection l v },
    ?_, ?_, rfl, rfl, rfl⟩
  · unfold Parser.handleLine
    rw [hincr, hline]
    simp only [hclean, h1, h2, h3, if_neg hne]
    simp [Parser.insertValue, hsec, hlne]
  · exact ⟨hframe.1, inFrame_of_incLineNr p n _ hframe hn⟩

/-- A line `<label> += <value>` of plain texts, read in a section. -/
theorem handleLine_append_line (env : Env)
    (nested : Parser → Reader → Str → Outcome × Parser) (p : Parser) (l v nl : Str)
    (hframe : p.InFrame) (hsec : p.curSection ≠ []) (hl : PlainText l) (hlne : l ≠ [])
    (hv : PlainText v) (hnl : ∀ c ∈ nl, isSpace c = true) :
    ∃ q, Parser.handleLine env nested p ((l ++ " += ".toList ++ v) ++ nl) = (Outcome.ok, q) ∧
      q.InFrame ∧ q.curSection = p.curSection ∧
      q.Config = p.Config.AppendValue p.curSection l v [' '] ∧ q.curLabel = l := by
  obtain ⟨n, hn, hincr⟩ := incLineNr_of_InFrame p hframe
  have hline : (l ++ " += ".toList ++ v) ++ nl
      = (l ++ [' ']) ++ ['+', '='] ++ ((' ' :: v) ++ nl) := by
    simp
  have hclean := clean_operator_line l v nl ['+', '='] (Or.inr rfl) hl hlne hv hnl
  obtain ⟨h1, h2⟩ := classify_append_line l v hl hv
  have hne : (l ++ [' ']) ++ ['+', '='] ++ (' ' :: v).rdropWhile isSpace ≠ [] := by simp
  refine ⟨{ p with lineNrStack := p.lineNrStack.dropLast ++ [(n + 1) % 2 ^ 64],
                   curLabel := l, Config := p.Config.AppendValue p.curSection l v [' '] },
    ?_, ?_, rfl, rfl, rfl⟩
  · unfold Parser.handleLine
    rw [hincr, hline]
    simp only [hclean, h1, h2, if_neg hne]
    simp [Parser.insertValue, hsec, hlne]
  · exact ⟨hframe.1, inFrame_of_incLineNr p n _ hframe hn⟩

/-! ## C14, C15 : flat inputs -/

theorem mapSet_append_new {V : Type} (m : List (Str × V)) (k : Str) (v : V)
    (h : k ∉ m.map Prod.fst) : mapSet m k v = m ++ [(k, v)] := by
  induction m with
  | nil => rfl
  | cons hd tl ih =>
    obtain ⟨k', v'⟩ := hd
    have hk : k' ≠ k := fun e =>
      h (List.mem_map.2 ⟨(k', v'), List.mem_cons_self _ _, e⟩)
    have ht : k ∉ tl.map Prod.fst := by
      intro e
      obtain ⟨a, ha, hak⟩ := List.mem_map.1 e
      exact h (List.mem_map.2 ⟨a, List.mem_cons_of_mem _ ha, hak⟩)
    simp only [mapSet, if_neg hk, ih ht, List.cons_append]

theorem mapGet_of_mem_nodup {V : Type} (m : List (Str × V)) (k : Str) (v : V)
    (hmem : (k, v) ∈ m) (hnd : (m.map Prod.fst).Nodup) : mapGet m k = some v := by
  induction m with
  | nil => simp at hmem
  | cons hd tl ih =>
    obtain ⟨k', v'⟩ := hd
    simp only [List.map_cons, List.nodup_cons] at hnd
    rcases List.mem_cons.1 hmem with h | h
    · simp only [Prod.mk.injEq] at h
      obtain ⟨rfl, rfl⟩ := h
      simp [mapGet]
    · have hk : k' ≠ k := by
        intro e
        subst e
        exact hnd.1 (List.mem_map.2 ⟨(k', v), h, rfl⟩)
      simp [mapGet, hk, ih h hnd.2]

/-- Assigning a label that section `S` does not hold yet. -/
theorem SetValue_storeOf (S l v : Str) (m : List (Str × Str)) (h : l ∉ m.map Prod.fst) :
    (Config.SetValue { cfg := storeOf S m } S l v).cfg = [(S, m ++ [(l, v)])] := by
  cases m with
  | nil => simp [storeOf, Config.SetValue, Config.setValueNoLock, mapGet, mapSet]
  | cons hd tl =>
    have hm := mapSet_append_new (hd :: tl) l v h
    simp [storeOf, Config.SetValue, Config.setValueNoLock, mapGet, mapSet, hm]

/-- The loop of `parseReader` over the assignment lines of a flat input. -/
theorem handleLines_assignments (env : Env)
    (nested : Parser → Reader → Str → Outcome × Parser) (S : Str) (hSne : S ≠ [])
    (ps : List (Str × Str)) :
    ∀ (p : Parser) (m : List (Str × Str)), ps ≠ [] → p.InFrame → p.curSection = S →
      p.Config.cfg = storeOf S m →
      (∀ lv ∈ ps, PlainText lv.1 ∧ lv.1 ≠ [] ∧ PlainText lv.2) →
      (m.map Prod.fst ++ ps.map Prod.fst).Nodup →
      ∃ q, handleLines (Parser.handleLine env nested) p
          (markLines (ps.map (fun lv => lv.1 ++ " = ".toList ++ lv.2))) = (Outcome.ok, q) ∧
        q.Config.cfg = [(S, m ++ ps)] := by
  induction ps with
  | nil => intro p m h; exact absurd rfl h
  | cons x r ih =>
    intro p m _ hframe hsec hcfg hplain hnd
    obtain ⟨hx1, hx2, hx3⟩ := hplain x (by simp)
    have hsec2 : p.curSection ≠ [] := by rw [hsec]; exact hSne
    have hnew : x.1 ∉ m.map Prod.fst := by
      intro h
      have := List.disjoint_of_nodup_append hnd h
      exact this (by simp)
    have hstore : (p.Config.SetValue p.curSection x.1 x.2).cfg = [(S, m ++ [(x.1, x.2)])] := by
      have hc : p.Config = { cfg := storeOf S m } := by
        cases hpc : p.Config with
        | mk cfg =>
          rw [hpc] at hcfg
          simp only at hcfg
          rw [hcfg]
      rw [hc, hsec]
      exact SetValue_storeOf S x.1 x.2 m hnew
    cases r with
    | nil =>
      obtain ⟨q, hq, -, -, hqc, -⟩ := handleLine_assign_line env nested p x.1 x.2 []
        hframe hsec2 hx1 hx2 hx3 (by simp)
      rw [List.append_nil] at hq
      refine ⟨q, ?_, ?_⟩
      · simp only [List.map_cons, List.map_nil, markLines]
        rw [handleLines_cons_ok _ p q _ _ hq]
        rfl
      · rw [hqc, hstore]
    | cons y r2 =>
      obtain ⟨q, hq, hqf, hqs, hqc, -⟩ := handleLine_assign_line env nested p x.1 x.2 ['\n']
        hframe hsec2 hx1 hx2 hx3 (by decide)
      have hnd2 : ((m ++ [(x.1, x.2)]).map Prod.fst ++ (y :: r2).map Prod.fst).Nodup := by
        simpa [List.append_assoc] using hnd
      have hcfg2 : q.Config.cfg = storeOf S (m ++ [(x.1, x.2)]) := by
        rw [hqc, hstore]
        simp [storeOf]
      obtain ⟨q2, hq2, hq2c⟩ := ih q (m ++ [(x.1, x.2)]) (by simp) hqf (hqs.trans hsec) hcfg2
        (fun lv hlv => hplain lv (List.mem_cons_of_mem x hlv)) hnd2
      refine ⟨q2, ?_, ?_⟩
      · simp only [List.map_cons, markLines]
        rw [handleLines_cons_ok _ p q _ _ hq]
        simpa using hq2
      · rw [hq2c]
        simp

theorem popFile_Config (p : Parser) : p.popFile.Config = p.Config := by
  by_cases h : p.fileStack.length > 0 <;> simp [Parser.popFile, h]

/-- The state of a fresh parser once `Parse` has pushed the frame of the stream. -/
theorem fresh_pushed_inFrame (env : Env) :
    Parser.InFrame { (NewParser none) with
      visitedFiles := (NewParser none).visitedFiles ++ [env.abs []],
      fileStack := (NewParser none).fileStack ++ [[]],
      lineNrStack := (NewParser none).lineNrStack ++ [0] } := by
  unfold Parser.InFrame NewParser
  simp

theorem plainText_no_newline (s : Str) (h : PlainText s) : '\n' ∉ s := fun e =>
  (plainChar_facts _ (h.1 _ e)).2.2.2.2.2 rfl

/-- C14 (counterexample): with no pair at all the store stays empty, so
`Sections()` does not contain `S`; and the name `Include x`, which is letters and
one interior space, makes the first line a directive, so the assignment that
follows fails with "empty section name". -/
theorem flat_round_trip_counterexample :
    (PlainText "S".toList ∧
      (Parser.Parse 1 (flatEnv []) (NewParser none) (flatText "S".toList [])).1 = Outcome.ok ∧
      (Parser.Parse 1 (flatEnv []) (NewParser none)
        (flatText "S".toList [])).2.Config.Sections = []) ∧
    (PlainText "Include x".toList ∧ PlainText "L".toList ∧ PlainText "V".toList ∧
      (Parser.Parse 1 (flatEnv []) (NewParser none)
        (flatText "Include x".toList [("L".toList, "V".toList)])).1
        = Outcome.err (GoError.syntaxError
            { path := [], lineNr := 2, msg := "empty section name".toList })) := by
  decide

/-- C14 (amended): for every non-empty plain section name `S` that does not
begin with `Include ` or `Require `, and every non-empty list of pairs of a
non-empty plain label and a plain value with pairwise distinct labels, parsing
the flat text with a fresh Parser returns no error, `Sections()` is exactly `S`,
`Labels(S)` is exactly the labels (each once), and `Value(S, label)` is the
value of each pair. -/
theorem flat_round_trip (env : Env) (fuel : Nat) (S : Str) (pairs : List (Str × Str))
    (hS : PlainText S) (hSne : S ≠ [])
    (hinc : hasPrefixStr S "Include ".toList = false)
    (hreq : hasPrefixStr S "Require ".toList = false)
    (hne : pairs ≠ [])
    (hplain : ∀ lv ∈ pairs, PlainText lv.1 ∧ lv.1 ≠ [] ∧ PlainText lv.2)
    (hnd : (pairs.map Prod.fst).Nodup) :
    (Parser.Parse (fuel + 1) env (NewParser none) (flatText S pairs)).1 = Outcome.ok ∧
    (Parser.Parse (fuel + 1) env (NewParser none) (flatText S pairs)).2.Config.Sections
      = [S] ∧
    (Parser.Parse (fuel + 1) env (NewParser none) (flatText S pairs)).2.Config.Labels S
      = pairs.map Prod.fst ∧
    ∀ lv ∈ pairs,
      (Parser.Parse (fuel + 1) env (NewParser none) (flatText S pairs)).2.Config.Value S lv.1
        = lv.2 := by
  obtain ⟨x, r, rfl⟩ := List.exists_cons_of_ne_nil hne
  have hlines : readLines (flatText S (x :: r))
      = (('[' :: (S ++ [']'])) ++ ['\n'])
          :: markLines ((x :: r).map (fun lv => lv.1 ++ " = ".toList ++ lv.2)) := by
    unfold flatText
    rw [readLines_intercalate _ (by simp)]
    · rfl
    · intro s hs
      rcases List.mem_cons.1 hs with rfl | hs
      · intro h
        rcases List.mem_cons.1 h with h | h
        · exact absurd h (by decide)
        · rcases List.mem_append.1 h with h | h
          · exact plainText_no_newline S hS h
          · exact absurd (List.mem_singleton.1 h) (by decide)
      · obtain ⟨lv, hlv, rfl⟩ := List.mem_map.1 hs
        obtain ⟨h1, -, h3⟩ := hplain lv hlv
        intro h
        rcases List.mem_append.1 h with h | h
        · rcases List.mem_append.1 h with h | h
          · exact plainText_no_newline _ h1 h
          · revert h
            decide
        · exact plainText_no_newline _ h3 h
  obtain ⟨p1, hp1, hf1, hs1, hc1, -, -⟩ := handleLine_header_line env
    (fun q c f => Parser.parseReader fuel env q c f) _ S ['\n']
    (fresh_pushed_inFrame env) hS hSne hinc hreq (by decide)
  obtain ⟨q, hq, hqc⟩ := handleLines_assignments env
    (fun q c f => Parser.parseReader fuel env q c f) S hSne (x :: r) p1 [] (by simp) hf1 hs1
    (by rw [hc1]; rfl) hplain (by simpa using hnd)
  have hres : Parser.Parse (fuel + 1) env (NewParser none) (flatText S (x :: r))
      = (Outcome.ok, q.popFile) := by
    unfold Parser.Parse
    rw [parseReader_succ_of_not_visited fuel env (NewParser none) _ []
      (by simp [NewParser]), hlines, handleLines_cons_ok _ _ p1 _ _ hp1, hq]
  have hcfg : (Parser.Parse (fuel + 1) env (NewParser none)
      (flatText S (x :: r))).2.Config.cfg = [(S, x :: r)] := by
    rw [hres]
    simp only [popFile_Config, hqc, List.nil_append]
  refine ⟨by rw [hres], ?_, ?_, ?_⟩
  · simp [Config.Sections, mapKeys, hcfg]
  · simp [Config.Labels, mapKeys, hcfg, mapGet]
  · intro lv hlv
    have hg := mapGet_of_mem_nodup (x :: r) lv.1 lv.2 hlv hnd
    have hS2 : mapGet [(S, x :: r)] S = some (x :: r) := by simp [mapGet]
    simp only [Config.Value, hcfg, hS2, hg]

/-- Witness of `flat_round_trip`: section `S1` with the two labels of
`TestLabels`. -/
theorem flat_round_trip_witness :
    (PlainText "S1".toList ∧ "S1".toList ≠ [] ∧
      (∀ lv ∈ [("L1".toList, "V1".toList), ("L2".toList, "V2".toList)],
        PlainText lv.1 ∧ lv.1 ≠ [] ∧ PlainText lv.2) ∧
      ([("L1".toList, "V1".toList), ("L2".toList, "V2".toList)].map Prod.fst).Nodup) ∧
    (Parser.Parse 1 (flatEnv []) (NewParser none)
      (flatText "S1".toList
        [("L1".toList, "V1".toList), ("L2".toList, "V2".toList)])).2.Config.Labels "S1".toList
      = ["L1".toList, "L2".toList] :=
  ⟨⟨by decide, by decide, by decide, by decide⟩,
   (flat_round_trip (flatEnv []) 0 "S1".toList
      [("L1".toList, "V1".toList), ("L2".toList, "V2".toList)]
      (by decide) (by decide) (by decide) (by decide) (by decide) (by decide)
      (by decide)).2.2.1⟩

/-- C15 (counterexample): for `S = "Include x"`, which is letters and one
interior space, the first line is a directive; the append that follows fails
with "empty section name" and the store stays empty. -/
theorem double_append_counterexample :
    PlainText "Include x".toList ∧ PlainText "L".toList ∧ PlainText "A".toList ∧
    PlainText "B".toList ∧
    (Parser.Parse 1 (flatEnv []) (NewParser none)
      (doubleAppendText "Include x".toList "L".toList "A".toList "B".toList)).1
      = Outcome.err (GoError.syntaxError
          { path := [], lineNr := 2, msg := "empty section name".toList }) ∧
    (Parser.Parse 1 (flatEnv []) (NewParser none)
      (doubleAppendText "Include x".toList "L".toList "A".toList "B".toList)).2.Config.cfg
      = [] := by
  decide

/-- C15 (amended): for every non-empty plain `S` that does not begin with
`Include ` or `Require `, and all non-empty plain `L`, `A`, `B` (`B` may even be
empty), parsing `"[S]\nL += A\nL += B"` with a fresh Parser returns no error and
yields a store whose entire map is `{S: {L: A + " " + B}}`. -/
theorem double_append (env : Env) (fuel : Nat) (S L A B : Str)
    (hS : PlainText S) (hSne : S ≠ [])
    (hinc : hasPrefixStr S "Include ".toList = false)
    (hreq : hasPrefixStr S "Require ".toList = false)
    (hL : PlainText L) (hLne : L ≠ []) (hA : PlainText A) (hAne : A ≠ [])
    (hB : PlainText B) :
    (Parser.Parse (fuel + 1) env (NewParser none) (doubleAppendText S L A B)).1
      = Outcome.ok ∧
    (Parser.Parse (fuel + 1) env (NewParser none) (doubleAppendText S L A B)).2.Config.cfg
      = [(S, [(L, A ++ [' '] ++ B)])] := by
  have hnoL : '\n' ∉ L := plainText_no_newline L hL
  have hlines : readLines (doubleAppendText S L A B)
      = [('[' :: (S ++ [']'])) ++ ['\n'], (L ++ " += ".toList ++ A) ++ ['\n'],
          L ++ " += ".toList ++ B] := by
    unfold doubleAppendText
    rw [readLines_intercalate _ (by simp)]
    · rfl
    · intro s hs
      have hop : ∀ v, PlainText v → '\n' ∉ L ++ " += ".toList ++ v := by
        intro v hv h
        rcases List.mem_append.1 h with h | h
        · rcases List.mem_append.1 h with h | h
          · exact hnoL h
          · revert h
            decide
        · exact plainText_no_newline v hv h
      simp only [List.mem_cons, List.mem_singleton, List.not_mem_nil, or_false] at hs
      rcases hs with rfl | rfl | rfl
      · intro h
        rcases List.mem_cons.1 h with h | h
        · exact absurd h (by decide)
        · rcases List.mem_append.1 h with h | h
          · exact plainText_no_newline S hS h
          · exact absurd (List.mem_singleton.1 h) (by decide)
      · exact hop A hA
      · exact hop B hB
  obtain ⟨p1, hp1, hf1, hs1, hc1, -, -⟩ := handleLine_header_line env
    (fun q c f => Parser.parseReader fuel env q c f) _ S ['\n']
    (fresh_pushed_inFrame env) hS hSne hinc hreq (by decide)
  have hsec1 : p1.curSection ≠ [] := by rw [hs1]; exact hSne
  obtain ⟨p2, hp2, hf2, hs2, hc2, -⟩ := handleLine_append_line env
    (fun q c f => Parser.parseReader fuel env q c f) p1 L A ['\n'] hf1 hsec1 hL hLne hA
    (by decide)
  have hsec2 : p2.curSection ≠ [] := by rw [hs2]; exact hsec1
  obtain ⟨p3, hp3, -, -, hc3, -⟩ := handleLine_append_line env
    (fun q c f => Parser.parseReader fuel env q c f) p2 L B [] hf2 hsec2 hL hLne hB
    (by simp)
  rw [List.append_nil] at hp3
  have hres : Parser.Parse (fuel + 1) env (NewParser none) (doubleAppendText S L A B)
      = (Outcome.ok, p3.popFile) := by
    unfold Parser.Parse
    rw [parseReader_succ_of_not_visited fuel env (NewParser none) _ []
      (by simp [NewParser]), hlines, handleLines_cons_ok _ _ p1 _ _ hp1,
      handleLines_cons_ok _ _ p2 _ _ hp2, handleLines_cons_ok _ _ p3 _ _ hp3]
    rfl
  rw [hres]
  refine ⟨rfl, ?_⟩
  have hcfg1 : p1.Config = { cfg := [] } := by rw [hc1]; rfl
  simp only [popFile_Config, hc3, hc2, hs2, hs1, hcfg1]
  simp [Config.AppendValue, Config.Value, Config.setValueNoLock, mapGet, mapSet, hAne]

/-- Witness of `double_append`: the input of `TestParseDoubleAppend`. -/
theorem double_append_witness :
    (PlainText "Section".toList ∧ PlainText "Label 1".toList ∧ PlainText "A".toList ∧
      PlainText "B".toList) ∧
    (Parser.Parse 1 (flatEnv []) (NewParser none)
      (doubleAppendText "Section".toList "Label 1".toList "A".toList "B".toList)).2.Config.cfg
      = [("Section".toList, [("Label 1".toList, "A".toList ++ [' '] ++ "B".toList)])] :=
  ⟨⟨by decide, by decide, by decide, by decide⟩,
   (double_append (flatEnv []) 0 "Section".toList "Label 1".toList "A".toList "B".toList
      (by decide) (by decide) (by decide) (by decide) (by decide) (by decide)
      (by decide) (by decide) (by decide)).2⟩

/-! ## C13 : the stamp of a syntax error -/

theorem syntaxError_stamp (p : Parser) (f msg : Str) (n : Nat)
    (hf : p.curFile = some f) (hn : p.curLineNr = some n) :
    p.syntaxError msg
      = Outcome.err (GoError.syntaxError { path := f, lineNr := n, msg := msg }) := by
  unfold Parser.syntaxError
  rw [hf, hn]

/-- The state after `incLineNr` in a frame `(file, k)`. -/
theorem incLineNr_of_frameAt (file : Str) (k : Nat) (p : Parser) (h : FrameAt file k p) :
    ∃ p1, p.incLineNr = some p1 ∧ p1.fileStack = p.fileStack ∧
      p1.visitedFiles = p.visitedFiles ∧ p1.Config = p.Config ∧
      FrameAt file (k + 1) p1 := by
  obtain ⟨hlen, hfile, hline⟩ := h
  unfold Parser.curLineNr at hline
  have hne : p.lineNrStack ≠ [] := by
    intro e
    simp [e] at hline
  refine ⟨{ p with lineNrStack := p.lineNrStack.dropLast ++ [(k % 2 ^ 64 + 1) % 2 ^ 64] },
    ?_, rfl, rfl, rfl, ?_, hfile, ?_⟩
  · simp [Parser.incLineNr, hline]
  · simp only [List.length_append, List.length_dropLast, List.length_singleton]
    have := List.length_pos.2 hne
    omega
  · simp [Parser.curLineNr, Nat.mod_add_mod]

/-- On a line that carries no directive, `handleLine` does not call the nested
parse: it returns `nil` or a syntax error built in the state after `incLineNr`,
and leaves the stacks and the visited set as `incLineNr` left them. -/
theorem handleLine_not_directive (env : Env)
    (nested : Parser → Reader → Str → Outcome × Parser) (p p1 : Parser) (line : Str)
    (hinc : p.incLineNr = some p1) (hdir : directiveOf line = none) :
    (∀ nested2, Parser.handleLine env nested2 p line = Parser.handleLine env nested p line) ∧
    ((Parser.handleLine env nested p line).1 = Outcome.ok ∨
      (Parser.handleLine env nested p line).1
        = p1.syntaxError "empty section name".toList ∨
      (Parser.handleLine env nested p line).1 = p1.syntaxError "empty label".toList) ∧
    (Parser.handleLine env nested p line).2.fileStack = p1.fileStack ∧
    (Parser.handleLine env nested p line).2.lineNrStack = p1.lineNrStack ∧
    (Parser.handleLine env nested p line).2.visitedFiles = p1.visitedFiles := by
  have hins : ∀ (q : Parser) (s l v : Str) (a : Bool),
      q.fileStack = p1.fileStack → q.lineNrStack = p1.lineNrStack →
      q.visitedFiles = p1.visitedFiles →
      ((q.insertValue s l v a).1 = Outcome.ok ∨
        (q.insertValue s l v a).1 = p1.syntaxError "empty section name".toList ∨
        (q.insertValue s l v a).1 = p1.syntaxError "empty label".toList) ∧
      (q.insertValue s l v a).2.fileStack = p1.fileStack ∧
      (q.insertValue s l v a).2.lineNrStack = p1.lineNrStack ∧
      (q.insertValue s l v a).2.visitedFiles = p1.visitedFiles := by
    intro q s l v a h1 h2 h3
    have hse : ∀ msg, q.syntaxError msg = p1.syntaxError msg := by
      intro msg
      simp only [Parser.syntaxError, Parser.curFile, Parser.curLineNr, h1, h2]
    unfold Parser.insertValue
    split_ifs
    · exact ⟨Or.inr (Or.inl (hse _)), h1, h2, h3⟩
    · exact ⟨Or.inr (Or.inr (hse _)), h1, h2, h3⟩
    · exact ⟨Or.inl rfl, h1, h2, h3⟩
    · exact ⟨Or.inl rfl, h1, h2, h3⟩
  unfold directiveOf at hdir
  simp only [] at hdir
  unfold Parser.handleLine
  simp only [hinc]
  by_cases h1 : removeComments (trimSpace line) = []
  · simp [h1]
  · simp only [if_neg h1] at hdir ⊢
    by_cases h2 : (readSectionName (removeComments (trimSpace line))).1 = true
    · simp only [if_pos h2] at hdir ⊢
      by_cases h3 : hasPrefixStr (readSectionName (removeComments (trimSpace line))).2
          "Require ".toList = true
      · rw [if_pos h3] at hdir
        exact Option.noConfusion hdir
      · rw [if_neg h3] at hdir ⊢
        by_cases h4 : hasPrefixStr (readSectionName (removeComments (trimSpace line))).2
            "Include ".toList = true
        · rw [if_pos h4] at hdir
          exact Option.noConfusion hdir
        · rw [if_neg h4]
          refine ⟨fun _ => by rw [if_neg h3, if_neg h4], ?_⟩
          unfold Parser.setCurSection
          split_ifs
          · exact ⟨Or.inr (Or.inl rfl), rfl, rfl, rfl⟩
          · exact ⟨Or.inl rfl, rfl, rfl, rfl⟩
    · simp only [if_neg h2]
      refine ⟨fun _ => trivial, ?_⟩
      split_ifs
      · exact hins _ _ _ _ _ rfl rfl rfl
      · exact hins _ _ _ _ _ rfl rfl rfl
      · exact hins _ _ _ _ _ rfl rfl rfl

theorem frameAt_congr (file : Str) (k : Nat) (q p : Parser)
    (h1 : q.fileStack = p.fileStack) (h2 : q.lineNrStack = p.lineNrStack)
    (h : FrameAt file k p) : FrameAt file k q := by
  unfold FrameAt Parser.curFile Parser.curLineNr at h ⊢
  rw [h1, h2]
  exact h

/-- A line handled without error leads from frame `(file, k)` to `(file, k + 1)`. -/
theorem frameAt_step (env : Env) (fuel : Nat) (file : Str) (k : Nat) (p p1 : Parser)
    (line : Str) (h : FrameAt file k p)
    (hok : Parser.handleLine env (fun q c f => Parser.parseReader fuel env q c f) p line
      = (Outcome.ok, p1)) :
    FrameAt file (k + 1) p1 := by
  obtain ⟨q, hinc, -, -, -, hq⟩ := incLineNr_of_frameAt file k p h
  have hss := handleLine_sameStacks env _ (parseReader_nestedOk env fuel) p q line h.1 hinc
  rw [hok] at hss
  exact frameAt_congr file (k + 1) p1 q hss.1 hss.2.1 hq

/-- The frame of a file that has just been entered. -/
theorem frameAt_entered (env : Env) (p : Parser) (path : Str)
    (hlen : p.lineNrStack.length = p.fileStack.length) :
    FrameAt path 0 (p.entered env path) := by
  unfold FrameAt Parser.entered Parser.curFile Parser.curLineNr
  simp [hlen]

theorem parseReader_entered (fuel : Nat) (env : Env) (p : Parser) (content path : Str)
    (h : env.abs path ∉ p.visitedFiles) :
    Parser.parseReader (fuel + 1) env p content path
      = ((handleLines (Parser.handleLine env (fun q c f => Parser.parseReader fuel env q c f))
            (p.entered env path) (readLines content)).1,
         (handleLines (Parser.handleLine env (fun q c f => Parser.parseReader fuel env q c f))
            (p.entered env path) (readLines content)).2.popFile) :=
  parseReader_succ_of_not_visited fuel env p content path h

/-- Once processing reaches a line that raises a syntax error, the loop over the
lines returns that error, stamped with the file and the number of the line. -/
theorem handleLines_of_raisesAt (env : Env) (file : Str) (k : Nat) (p : Parser)
    (ls : List Str) (F : Str) (K : Nat) (msg : Str)
    (h : RaisesAt env file k p ls F K msg) (hinv : FrameAt file k p) :
    ∃ n, ∀ fuel, n ≤ fuel →
      (handleLines (Parser.handleLine env (fun q c f => Parser.parseReader fuel env q c f))
        p ls).1
        = Outcome.err (GoError.syntaxError { path := F, lineNr := K % 2 ^ 64, msg := msg }) := by
  induction h with
  | plain file k p q line rest nested e hdir herr =>
    obtain ⟨p1, hinc, -, -, -, hp1⟩ := incLineNr_of_frameAt file k p hinv
    obtain ⟨hindep, hout, -, -, -⟩ := handleLine_not_directive env nested p p1 line hinc hdir
    have hst : ∀ m, p1.syntaxError m = Outcome.err (GoError.syntaxError
        { path := file, lineNr := (k + 1) % 2 ^ 64, msg := m }) :=
      fun m => syntaxError_stamp p1 file m _ hp1.2.1 hp1.2.2
    have he : e = { path := file, lineNr := (k + 1) % 2 ^ 64, msg := e.msg } := by
      rw [herr] at hout
      simp only [hst] at hout
      rcases hout with h | h | h
      · exact Outcome.noConfusion h
      · have := GoError.syntaxError.inj (Outcome.err.inj h)
        rw [this]
      · have := GoError.syntaxError.inj (Outcome.err.inj h)
        rw [this]
    refine ⟨0, fun fuel _ => ?_⟩
    apply handleLines_cons_err
    rw [hindep, herr, ← he]
  | loop file k p line rest req arg incPath content hdir hres hopen hvis =>
    replace hopen : env.openFile incPath = some { content := content, fails := false } :=
      hopen
    obtain ⟨p1, hinc, hfs, hv, -, hp1⟩ := incLineNr_of_frameAt file k p hinv
    refine ⟨1, fun fuel hfuel => ?_⟩
    obtain ⟨m, rfl⟩ : ∃ m, fuel = m + 1 := ⟨fuel - 1, by omega⟩
    have hres1 : p1.resolveIncludeFile env arg = some incPath := by
      rw [resolveIncludeFile_congr env p1 p arg hfs]
      exact hres
    have hvisited : env.abs incPath ∈ p1.visitedFiles := by
      rw [hv]
      exact hvis
    have hse := syntaxError_stamp p1 file "include loop".toList _ hp1.2.1 hp1.2.2
    apply handleLines_cons_err
    rw [handleLine_directive env _ p p1 line req arg hinc hdir, hres1]
    cases req
    · simp only [hopen, Bool.false_eq_true, if_false]
      rw [parseReader_succ_of_visited m env p1 content incPath hvisited, hse]
    · simp only [Parser.ParseFileWith, hopen, if_true]
      rw [parseReader_succ_of_visited m env p1 content incPath hvisited, hse]
  | later file k p p1 line rest F K msg hok _ ih =>
    obtain ⟨f0, hok⟩ := hok
    obtain ⟨n1, hn1⟩ := ih (frameAt_step env f0 file k p p1 line hinv hok)
    refine ⟨max f0 n1, fun fuel hfuel => ?_⟩
    have hl : Parser.handleLine env (fun q c f => Parser.parseReader fuel env q c f) p line
        = (Outcome.ok, p1) := by
      have hx := handleLine_extends env _ _
        (parseReader_mono env f0 fuel (le_trans (le_max_left f0 n1) hfuel)) p line
        (by rw [hok]; simp)
      rw [hx, hok]
    rw [handleLines_cons_ok _ p p1 line rest hl]
    exact hn1 fuel (le_trans (le_max_right f0 n1) hfuel)
  | inside file k p p1 line rest req arg incPath content F K msg hdir hres hopen hinc hnew _ ih =>
    replace hopen : env.openFile incPath = some { content := content, fails := false } :=
      hopen
    obtain ⟨q, hq, hfs, -, -, hq1⟩ := incLineNr_of_frameAt file k p hinv
    have hqp : q = p1 := Option.some.inj (hq.symm.trans hinc)
    subst hqp
    obtain ⟨n1, hn1⟩ := ih (frameAt_entered env q incPath hq1.1)
    refine ⟨n1 + 1, fun fuel hfuel => ?_⟩
    obtain ⟨m, rfl⟩ : ∃ m, fuel = m + 1 := ⟨fuel - 1, by omega⟩
    have hres1 : q.resolveIncludeFile env arg = some incPath := by
      rw [resolveIncludeFile_congr env q p arg hfs]
      exact hres
    have hm := hn1 m (by omega)
    apply handleLines_cons_err
    rw [handleLine_directive env _ p q line req arg hinc hdir, hres1]
    cases req
    · simp only [hopen, Bool.false_eq_true, if_false]
      rw [parseReader_entered m env q content incPath hnew]
      exact hm
    · simp only [Parser.ParseFileWith, hopen, if_true]
      rw [parseReader_entered m env q content incPath hnew]
      exact hm

theorem raisesAt_msg (env : Env) (file : Str) (k : Nat) (p : Parser)
    (ls : List Str) (F : Str) (K : Nat) (msg : Str)
    (h : RaisesAt env file k p ls F K msg) (hinv : FrameAt file k p) :
    msg = "empty section name".toList ∨ msg = "empty label".toList ∨
      msg = "include loop".toList := by
  induction h with
  | plain file k p q line rest nested e hdir herr =>
    obtain ⟨p1, hinc, -, -, -, hp1⟩ := incLineNr_of_frameAt file k p hinv
    obtain ⟨-, hout, -, -, -⟩ := handleLine_not_directive env nested p p1 line hinc hdir
    rw [herr] at hout
    simp only [syntaxError_stamp p1 file _ _ hp1.2.1 hp1.2.2] at hout
    rcases hout with h | h | h
    · exact Outcome.noConfusion h
    · have := GoError.syntaxError.inj (Outcome.err.inj h)
      rw [this]
      exact Or.inl rfl
    · have := GoError.syntaxError.inj (Outcome.err.inj h)
      rw [this]
      exact Or.inr (Or.inl rfl)
  | loop => exact Or.inr (Or.inr rfl)
  | later file k p p1 line rest F K msg hok _ ih =>
    obtain ⟨f0, hok⟩ := hok
    exact ih (frameAt_step env f0 file k p p1 line hinv hok)
  | inside file k p p1 line rest req arg incPath content F K msg hdir hres hopen hinc hnew _ ih =>
    replace hopen : env.openFile incPath = some { content := content, fails := false } :=
      hopen
    obtain ⟨q, hq, -, -, -, hq1⟩ := incLineNr_of_frameAt file k p hinv
    have hqp : q = p1 := Option.some.inj (hq.symm.trans hinc)
    subst hqp
    exact ih (frameAt_entered env q incPath hq1.1)
/-- C13: whenever a parse by a fresh Parser fails with a syntax error raised
while the `K`-th line of the file `F` is handled (`RaisesAt`; lines are counted
from 1 within their own file), `Parse` and `ParseFile` return a `SyntaxError`
whose text is `"<K>: <message>"` when the line belongs to the stream (the frame
without a path) and `"<path>:<K>: <message>"` when it belongs to the file
`<path>`; the message is one of "empty section name", "empty label" and
"include loop".  The line number is a `uint`: it is `K` modulo `2^64`. -/
theorem syntax_error_stamp (env : Env) (c : Option Config) (content F msg : Str) (K : Nat) :
    (RaisesAt env [] 0 ((NewParser c).entered env []) (readLines content) F K msg →
      (msg = "empty section name".toList ∨ msg = "empty label".toList ∨
        msg = "include loop".toList) ∧
      ∃ n, ∀ fuel, n ≤ fuel → ∃ e,
        (Parser.Parse fuel env (NewParser c) content).1
          = Outcome.err (GoError.syntaxError e) ∧
        e.Error = if F = [] then decimal (K % 2 ^ 64) ++ ": ".toList ++ msg
          else F ++ ":".toList ++ decimal (K % 2 ^ 64) ++ ": ".toList ++ msg) ∧
    (∀ f, env.openFile f = some content →
      RaisesAt env f 0 ((NewParser c).entered env f) (readLines content) F K msg →
      (msg = "empty section name".toList ∨ msg = "empty label".toList ∨
        msg = "include loop".toList) ∧
      ∃ n, ∀ fuel, n ≤ fuel → ∃ e,
        (Parser.ParseFile fuel env (NewParser c) f).1
          = Outcome.err (GoError.syntaxError e) ∧
        e.Error = if F = [] then decimal (K % 2 ^ 64) ++ ": ".toList ++ msg
          else F ++ ":".toList ++ decimal (K % 2 ^ 64) ++ ": ".toList ++ msg) := by
  have hlen : (NewParser c).lineNrStack.length = (NewParser c).fileStack.length := rfl
  have hnv : ∀ f, env.abs f ∉ (NewParser c).visitedFiles := by
    intro f
    simp [NewParser]
  have hkey : ∀ f, RaisesAt env f 0 ((NewParser c).entered env f) (readLines content) F K msg →
      (msg = "empty section name".toList ∨ msg = "empty label".toList ∨
        msg = "include loop".toList) ∧
      ∃ n, ∀ fuel, n ≤ fuel → ∃ e,
        (Parser.parseReader fuel env (NewParser c) content f).1
          = Outcome.err (GoError.syntaxError e) ∧
        e.Error = if F = [] then decimal (K % 2 ^ 64) ++ ": ".toList ++ msg
          else F ++ ":".toList ++ decimal (K % 2 ^ 64) ++ ": ".toList ++ msg := by
    intro f hr
    have hinv := frameAt_entered env (NewParser c) f hlen
    refine ⟨raisesAt_msg env _ _ _ _ F K msg hr hinv, ?_⟩
    obtain ⟨n, hn⟩ := handleLines_of_raisesAt env _ _ _ _ F K msg hr hinv
    refine ⟨n + 1, fun fuel hfuel => ?_⟩
    obtain ⟨m, rfl⟩ : ∃ m, fuel = m + 1 := ⟨fuel - 1, by omega⟩
    refine ⟨{ path := F, lineNr := K % 2 ^ 64, msg := msg }, ?_, rfl⟩
    rw [parseReader_entered m env (NewParser c) content f (hnv f)]
    exact hn m (by omega)
  constructor
  · intro hr
    exact hkey [] hr
  · intro f hopen hr
    replace hopen : env.openFile f = some { content := content, fails := false } := hopen
    obtain ⟨h1, n, hn⟩ := hkey f hr
    refine ⟨h1, n, fun fuel hfuel => ?_⟩
    obtain ⟨e, he1, he2⟩ := hn fuel hfuel
    refine ⟨e, ?_, he2⟩
    unfold Parser.ParseFile Parser.ParseFileWith
    simp only [hopen]
    exact he1

/-- In `labelFiles`, the second line of `invalid_label.ini` raises "empty label". -/
theorem labelFiles_raisesAt :
    RaisesAt labelFiles "invalid_label.ini".toList 0
      ((NewParser none).entered labelFiles "invalid_label.ini".toList)
      (readLines "[Section]\n= value".toList)
      "invalid_label.ini".toList 2 "empty label".toList := by
  have hl : readLines "[Section]\n= value".toList
      = ["[Section]\n".toList, "= value".toList] := by decide
  rw [hl]
  refine RaisesAt.later _ _ _ _ _ _ _ _ _ ⟨0, rfl⟩ ?_
  exact RaisesAt.plain _ _ _ _ _ _ (fun q _ _ => (Outcome.ok, q))
    { path := "invalid_label.ini".toList, lineNr := 2, msg := "empty label".toList }
    (by decide) rfl

/-- In a stream, the first line `[]` of `TestParseEmptySection` raises "empty
section name". -/
theorem emptySection_raisesAt :
    RaisesAt labelFiles [] 0 ((NewParser none).entered labelFiles [])
      (readLines "[]\nLabel 1 += B".toList) [] 1 "empty section name".toList := by
  have hl : readLines "[]\nLabel 1 += B".toList
      = ["[]\n".toList, "Label 1 += B".toList] := by decide
  rw [hl]
  exact RaisesAt.plain _ _ _ _ _ _ (fun q _ _ => (Outcome.ok, q))
    { path := [], lineNr := 1, msg := "empty section name".toList }
    (by decide) rfl

/-- Witness of `syntax_error_stamp`: the errors of `TestParseEmptySection` and
`TestParseEmptyLabel`, with their texts. -/
theorem syntax_error_stamp_witness :
    (RaisesAt labelFiles [] 0 ((NewParser none).entered labelFiles [])
        (readLines "[]\nLabel 1 += B".toList) [] 1 "empty section name".toList ∧
      ∃ n, ∀ fuel, n ≤ fuel → ∃ e,
        (Parser.Parse fuel labelFiles (NewParser none) "[]\nLabel 1 += B".toList).1
          = Outcome.err (GoError.syntaxError e) ∧
        e.Error = if ([] : Str) = [] then
            decimal (1 % 2 ^ 64) ++ ": ".toList ++ "empty section name".toList
          else [] ++ ":".toList ++ decimal (1 % 2 ^ 64) ++ ": ".toList
            ++ "empty section name".toList) ∧
    (labelFiles.openFile "invalid_label.ini".toList = some "[Section]\n= value".toList ∧
      ∃ n, ∀ fuel, n ≤ fuel → ∃ e,
        (Parser.ParseFile fuel labelFiles (NewParser none) "invalid_label.ini".toList).1
          = Outcome.err (GoError.syntaxError e) ∧
        e.Error = if "invalid_label.ini".toList = [] then
            decimal (2 % 2 ^ 64) ++ ": ".toList ++ "empty label".toList
          else "invalid_label.ini".toList ++ ":".toList ++ decimal (2 % 2 ^ 64)
            ++ ": ".toList ++ "empty label".toList) ∧
    SyntaxError.Error { path := [], lineNr := 1, msg := "empty section name".toList }
      = "1: empty section name".toList ∧
    SyntaxError.Error
        { path := "invalid_label.ini".toList, lineNr := 2, msg := "empty label".toList }
      = "invalid_label.ini:2: empty label".toList :=
  ⟨⟨emptySection_raisesAt,
    ((syntax_error_stamp labelFiles none "[]\nLabel 1 += B".toList [] 
      "empty section name".toList 1).1 emptySection_raisesAt).2⟩,
   ⟨by decide,
    ((syntax_error_stamp labelFiles none "[Section]\n= value".toList
      "invalid_label.ini".toList "empty label".toList 2).2 "invalid_label.ini".toList
      (by decide) labelFiles_raisesAt).2⟩,
   by decide, by decide⟩

/-! ## C11 : inclusion without revisits -/

theorem incLineNr_fields (p p1 : Parser) (hinc : p.incLineNr = some p1) :
    p1.fileStack = p.fileStack ∧ p1.visitedFiles = p.visitedFiles ∧
    p1.lineNrStack.length = p.lineNrStack.length := by
  have h := incLineNr_frameStep p p1 hinc
  refine ⟨h.1, ?_, h.2.2.1⟩
  unfold Parser.incLineNr at hinc
  cases hl : p.lineNrStack.getLast? with
  | none => simp [hl] at hinc
  | some n =>
    simp only [hl, Option.some.injEq] at hinc
    subst hinc
    rfl

theorem incLineNr_of_handleLine_ok (env : Env)
    (nested : Parser → Reader → Str → Outcome × Parser) (p p1 : Parser) (line : Str)
    (hok : Parser.handleLine env nested p line = (Outcome.ok, p1)) :
    ∃ q, p.incLineNr = some q := by
  cases hinc : p.incLineNr with
  | some q => exact ⟨q, rfl⟩
  | none =>
    unfold Parser.handleLine at hok
    rw [hinc] at hok
    exact Outcome.noConfusion (congrArg Prod.fst hok)

/-- What a line without a directive leaves of the stacks and the visited set. -/
theorem plain_line_fields (env : Env)
    (nested : Parser → Reader → Str → Outcome × Parser) (p p1 : Parser) (line : Str)
    (hdir : directiveOf line = none)
    (hok : Parser.handleLine env nested p line = (Outcome.ok, p1)) :
    p1.fileStack = p.fileStack ∧ p1.visitedFiles = p.visitedFiles ∧
    p1.lineNrStack.length = p.lineNrStack.length := by
  obtain ⟨q, hinc⟩ := incLineNr_of_handleLine_ok env nested p p1 line hok
  obtain ⟨-, -, h1, h2, h3⟩ := handleLine_not_directive env nested p q line hinc hdir
  rw [hok] at h1 h2 h3
  obtain ⟨g1, g2, g3⟩ := incLineNr_fields p q hinc
  exact ⟨h1.trans g1, h3.trans g2, by rw [h2, g3]⟩

theorem popFile_entered_fields (env : Env) (p q : Parser) (path : Str)
    (hlen : p.lineNrStack.length = p.fileStack.length)
    (h1 : q.fileStack = (p.entered env path).fileStack)
    (h2 : q.lineNrStack.length = (p.entered env path).lineNrStack.length) :
    q.popFile.fileStack = p.fileStack ∧
    q.popFile.lineNrStack.length = p.lineNrStack.length ∧
    q.popFile.visitedFiles = q.visitedFiles := by
  have hfs : q.fileStack = p.fileStack ++ [path] := h1
  have hln : q.lineNrStack.length = p.lineNrStack.length + 1 := by
    rw [h2]
    simp [Parser.entered]
  have hpos : q.fileStack.length > 0 := by simp [hfs]
  have hl : q.fileStack.length - 1 = p.fileStack.length := by simp [hfs]
  refine ⟨?_, ?_, popFile_visitedFiles q⟩
  · simp [Parser.popFile, hpos, hfs]
  · simp only [Parser.popFile, hpos, if_true, hl, List.length_take]
    omega

/-- The expansion keeps the stacks and adds the entered files to the visited set. -/
theorem expands_fields (env : Env) (p : Parser) (ls es : List Str) (q : Parser)
    (h : Expands env p ls es q) (hlen : p.lineNrStack.length = p.fileStack.length) :
    q.fileStack = p.fileStack ∧ q.lineNrStack.length = p.lineNrStack.length ∧
    q.visitedFiles = p.visitedFiles ++ es := by
  induction h with
  | done p => simp
  | plain p p1 p2 line rest es nested hdir hok _ ih =>
    obtain ⟨g1, g2, g3⟩ := plain_line_fields env nested p p1 line hdir hok
    obtain ⟨i1, i2, i3⟩ := ih (by rw [g3, g1, hlen])
    exact ⟨i1.trans g1, i2.trans g3, by rw [i3, g2]⟩
  | skip p p1 p2 line rest es arg incPath hdir hres hopen hinc _ ih =>
    obtain ⟨g1, g2, g3⟩ := incLineNr_fields p p1 hinc
    obtain ⟨i1, i2, i3⟩ := ih (by rw [g3, g1, hlen])
    exact ⟨i1.trans g1, i2.trans g3, by rw [i3, g2]⟩
  | enter p p1 q p2 line rest req arg incPath content es1 es2 hdir hres hopen hinc _ _ ih1 ih2 =>
    replace hopen : env.openFile incPath = some { content := content, fails := false } :=
      hopen
    obtain ⟨g1, g2, g3⟩ := incLineNr_fields p p1 hinc
    have hlen1 : p1.lineNrStack.length = p1.fileStack.length := by rw [g3, g1, hlen]
    obtain ⟨i1, i2, i3⟩ := ih1 (by simp [Parser.entered, hlen1])
    obtain ⟨j1, j2, j3⟩ := popFile_entered_fields env p1 q incPath hlen1 i1 i2
    obtain ⟨k1, k2, k3⟩ := ih2 (by rw [j2, j1, hlen1])
    refine ⟨k1.trans (j1.trans g1), k2.trans (j2.trans g3), ?_⟩
    rw [k3, j3, i3]
    simp [Parser.entered, g2]

/-- When no file is entered twice, the parser follows the layered expansion. -/
theorem handleLines_of_expands (env : Env) (p : Parser) (ls es : List Str) (q : Parser)
    (h : Expands env p ls es q) (hlen : p.lineNrStack.length = p.fileStack.length)
    (hnew : ∀ a ∈ es, a ∉ p.visitedFiles) (hnd : es.Nodup) :
    ∃ n, ∀ fuel, n ≤ fuel →
      handleLines (Parser.handleLine env (fun q c f => Parser.parseReader fuel env q c f))
        p ls = (Outcome.ok, q) := by
  induction h with
  | done p => exact ⟨0, fun _ _ => rfl⟩
  | plain p p1 p2 line rest es nested hdir hok _ ih =>
    obtain ⟨g1, g2, g3⟩ := plain_line_fields env nested p p1 line hdir hok
    obtain ⟨n, hn⟩ := ih (by rw [g3, g1, hlen]) (by rw [g2]; exact hnew) hnd
    obtain ⟨q0, hinc⟩ := incLineNr_of_handleLine_ok env nested p p1 line hok
    obtain ⟨hindep, -⟩ := handleLine_not_directive env nested p q0 line hinc hdir
    refine ⟨n, fun fuel hfuel => ?_⟩
    rw [handleLines_cons_ok _ p p1 line rest (by rw [hindep, hok])]
    exact hn fuel hfuel
  | skip p p1 p2 line rest es arg incPath hdir hres hopen hinc _ ih =>
    obtain ⟨g1, g2, g3⟩ := incLineNr_fields p p1 hinc
    obtain ⟨n, hn⟩ := ih (by rw [g3, g1, hlen]) (by rw [g2]; exact hnew) hnd
    have hres1 : p1.resolveIncludeFile env arg = some incPath := by
      rw [resolveIncludeFile_congr env p1 p arg g1]
      exact hres
    refine ⟨n, fun fuel hfuel => ?_⟩
    have hl : Parser.handleLine env (fun q c f => Parser.parseReader fuel env q c f) p line
        = (Outcome.ok, p1) := by
      rw [handleLine_directive env _ p p1 line false arg hinc hdir, hres1]
      simp only [hopen, Bool.false_eq_true, if_false]
    rw [handleLines_cons_ok _ p p1 line rest hl]
    exact hn fuel hfuel
  | enter p p1 q p2 line rest req arg incPath content es1 es2 hdir hres hopen hinc hin _ ih1 ih2 =>
    replace hopen : env.openFile incPath = some { content := content, fails := false } :=
      hopen
    obtain ⟨g1, g2, g3⟩ := incLineNr_fields p p1 hinc
    have hlen1 : p1.lineNrStack.length = p1.fileStack.length := by rw [g3, g1, hlen]
    have hlenE : (p1.entered env incPath).lineNrStack.length
        = (p1.entered env incPath).fileStack.length := by
      simp [Parser.entered, hlen1]
    obtain ⟨i1, i2, i3⟩ := expands_fields env _ _ _ _ hin hlenE
    obtain ⟨j1, j2, j3⟩ := popFile_entered_fields env p1 q incPath hlen1 i1 i2
    have hnd' := List.nodup_cons.1 hnd
    have hnd12 := List.nodup_append.1 hnd'.2
    have hnotin : env.abs incPath ∉ p1.visitedFiles := by
      rw [g2]
      exact hnew _ (List.mem_cons_self _ _)
    obtain ⟨n1, hn1⟩ := ih1 hlenE
      (by
        intro a ha hmem
        simp only [Parser.entered, List.mem_append, List.mem_singleton] at hmem
        rcases hmem with hmem | rfl
        · rw [g2] at hmem
          exact hnew a (List.mem_cons_of_mem _ (List.mem_append_left _ ha)) hmem
        · exact hnd'.1 (List.mem_append_left _ ha))
      hnd12.1
    obtain ⟨n2, hn2⟩ := ih2 (by rw [j2, j1, hlen1])
      (by
        intro a ha hmem
        rw [j3, i3] at hmem
        simp only [Parser.entered, List.mem_append, List.mem_singleton] at hmem
        rcases hmem with (hmem | rfl) | hmem
        · rw [g2] at hmem
          exact hnew a (List.mem_cons_of_mem _ (List.mem_append_right _ ha)) hmem
        · exact hnd'.1 (List.mem_append_right _ ha)
        · exact hnd12.2.2 hmem ha)
      hnd12.2.1
    have hres1 : p1.resolveIncludeFile env arg = some incPath := by
      rw [resolveIncludeFile_congr env p1 p arg g1]
      exact hres
    refine ⟨max (n1 + 1) n2, fun fuel hfuel => ?_⟩
    have hf1 : n1 + 1 ≤ fuel := le_trans (le_max_left _ _) hfuel
    have hf2 : n2 ≤ fuel := le_trans (le_max_right _ _) hfuel
    obtain ⟨m, rfl⟩ : ∃ m, fuel = m + 1 := ⟨fuel - 1, by omega⟩
    have hnest : Parser.parseReader (m + 1) env p1 content incPath = (Outcome.ok, q.popFile) := by
      rw [parseReader_entered m env p1 content incPath hnotin, hn1 m (by omega)]
    have hl : Parser.handleLine env (fun q c f => Parser.parseReader (m + 1) env q c f) p line
        = (Outcome.ok, q.popFile) := by
      rw [handleLine_directive env _ p p1 line req arg hinc hdir, hres1]
      cases req
      · simp only [hopen, Bool.false_eq_true, if_false]
        exact hnest
      · simp only [Parser.ParseFileWith, hopen, if_true]
        exact hnest
    rw [handleLines_cons_ok _ p q.popFile line rest hl]
    exact hn2 (m + 1) hf2
/-- C11 (counterexample): `a.ini` includes `b.ini` twice.  Both files exist,
`b.ini` holds no directive (so the graph has no cycle), `b.ini` alone and
`a.ini` with a single include (`once.ini`) parse without error, yet
`ParseFile("a.ini")` returns "include loop" for line 3. -/
theorem include_twice_counterexample :
    (readLines "[T]\nx = 1".toList).all (fun l => directiveOf l == none) = true ∧
    (Parser.ParseFile 2 twiceFiles (NewParser none) "b.ini".toList).1 = Outcome.ok ∧
    (Parser.ParseFile 2 twiceFiles (NewParser none) "once.ini".toList).1 = Outcome.ok ∧
    (Parser.ParseFile 2 twiceFiles (NewParser none) "a.ini".toList).1
      = Outcome.err (GoError.syntaxError
          { path := "a.ini".toList, lineNr := 3, msg := "include loop".toList }) ∧
    (Parser.ParseFile 9 twiceFiles (NewParser none) "a.ini".toList).1
      = Outcome.err (GoError.syntaxError
          { path := "a.ini".toList, lineNr := 3, msg := "include loop".toList }) := by
  decide

/-- C11 (amended): for every file system and every top-level file `f` that can be
opened, if the layered expansion of the inclusion graph from `f` is free of
syntax errors and of missing `Require` targets (`Expands`) and enters no file
twice, `f` included (so the graph is a tree and has no cycle), then `ParseFile(f)`
on a fresh Parser returns no error, with the state of the expansion, given
enough fuel for the depth of the nested files. -/
theorem tree_inclusion_parses (env : Env) (c : Option Config) (f content : Str)
    (es : List Str) (q : Parser) (hopen : env.openFile f = some content)
    (hexp : Expands env ((NewParser c).entered env f) (readLines content) es q)
    (hnd : (env.abs f :: es).Nodup) :
    ∃ n, ∀ fuel, n ≤ fuel →
      Parser.ParseFile fuel env (NewParser c) f = (Outcome.ok, q.popFile) := by
  replace hopen : env.openFile f = some { content := content, fails := false } := hopen
  have hnd' := List.nodup_cons.1 hnd
  obtain ⟨n, hn⟩ := handleLines_of_expands env _ _ es q hexp
    (by simp [Parser.entered, NewParser])
    (by
      intro a ha hmem
      have : a = env.abs f := by simpa [Parser.entered, NewParser] using hmem
      subst this
      exact hnd'.1 ha)
    hnd'.2
  refine ⟨n + 1, fun fuel hfuel => ?_⟩
  obtain ⟨m, rfl⟩ : ∃ m, fuel = m + 1 := ⟨fuel - 1, by omega⟩
  unfold Parser.ParseFile Parser.ParseFileWith
  simp only [hopen]
  rw [parseReader_entered m env (NewParser c) content f (by simp [NewParser]),
    hn m (by omega)]

/-- In `treeFiles`, the expansion from `a.ini` enters `b.ini` and `c.ini`. -/
theorem treeFiles_expands :
    Expands treeFiles ((NewParser none).entered treeFiles "a.ini".toList)
      (readLines "[S]\n[Include b.ini]\n[Require c.ini]\nx = 1".toList)
      ["b.ini".toList, "c.ini".toList] treeFinal := by
  have hl : readLines "[S]\n[Include b.ini]\n[Require c.ini]\nx = 1".toList
      = ["[S]\n".toList, "[Include b.ini]\n".toList, "[Require c.ini]\n".toList,
          "x = 1".toList] := by decide
  have hb : readLines "y = 2".toList = ["y = 2".toList] := by decide
  have hc : readLines "z = 3".toList = ["z = 3".toList] := by decide
  rw [hl]
  refine Expands.plain _
    ⟨⟨[]⟩, "S".toList, [], ["a.ini".toList], [1], ["a.ini".toList]⟩ _ _ _ _
    (fun q _ _ => (Outcome.ok, q)) (by decide) (by decide) ?_
  refine Expands.enter _
    ⟨⟨[]⟩, "S".toList, [], ["a.ini".toList], [2], ["a.ini".toList]⟩
    ⟨⟨[("S".toList, [("y".toList, "2".toList)])]⟩, "S".toList, "y".toList,
      ["a.ini".toList, "b.ini".toList], [2, 1], ["a.ini".toList, "b.ini".toList]⟩
    _ _ _ false "b.ini".toList "b.ini".toList "y = 2".toList
    [] ["c.ini".toList] (by decide) (by decide) (by decide) (by decide) ?_ ?_
  · rw [hb]
    exact Expands.plain _ _ _ _ _ _ (fun q _ _ => (Outcome.ok, q)) (by decide) (by decide)
      (Expands.done _)
  · refine Expands.enter _
      ⟨⟨[("S".toList, [("y".toList, "2".toList)])]⟩, "S".toList, "y".toList,
        ["a.ini".toList], [3], ["a.ini".toList, "b.ini".toList]⟩
      ⟨⟨[("S".toList, [("y".toList, "2".toList), ("z".toList, "3".toList)])]⟩,
        "S".toList, "z".toList, ["a.ini".toList, "c.ini".toList], [3, 1],
        ["a.ini".toList, "b.ini".toList, "c.ini".toList]⟩
      _ _ _ true "c.ini".toList "c.ini".toList "z = 3".toList
      [] [] (by decide) (by decide) (by decide) (by decide) ?_ ?_
    · rw [hc]
      exact Expands.plain _ _ _ _ _ _ (fun q _ _ => (Outcome.ok, q)) (by decide) (by decide)
        (Expands.done _)
    · exact Expands.plain _ _ _ _ _ _ (fun q _ _ => (Outcome.ok, q)) (by decide) (by decide)
        (Expands.done _)

/-- Witness of `tree_inclusion_parses`: `a.ini` includes `b.ini` and requires
`c.ini`, as `testdata/valid00.ini` and `testdata/valid01.ini` do. -/
theorem tree_inclusion_parses_witness :
    (treeFiles.openFile "a.ini".toList
        = some "[S]\n[Include b.ini]\n[Require c.ini]\nx = 1".toList ∧
      Expands treeFiles ((NewParser none).entered treeFiles "a.ini".toList)
        (readLines "[S]\n[Include b.ini]\n[Require c.ini]\nx = 1".toList)
        ["b.ini".toList, "c.ini".toList] treeFinal ∧
      (treeFiles.abs "a.ini".toList :: ["b.ini".toList, "c.ini".toList]).Nodup) ∧
    (∃ n, ∀ fuel, n ≤ fuel →
      Parser.ParseFile fuel treeFiles (NewParser none) "a.ini".toList
        = (Outcome.ok, treeFinal.popFile)) ∧
    Parser.ParseFile 2 treeFiles (NewParser none) "a.ini".toList
      = (Outcome.ok, treeFinal.popFile) :=
  ⟨⟨by decide, treeFiles_expands, by decide⟩,
   tree_inclusion_parses treeFiles none "a.ini".toList
     "[S]\n[Include b.ini]\n[Require c.ini]\nx = 1".toList
     ["b.ini".toList, "c.ini".toList] treeFinal (by decide) treeFiles_expands (by decide),
   by decide⟩

/-! ## C22 : no empty name is stored -/

theorem mem_mapSet {V : Type} (m : List (Str × V)) (k : Str) (v : V) (x : Str × V)
    (h : x ∈ mapSet m k v) : x = (k, v) ∨ x ∈ m := by
  induction m with
  | nil =>
    left
    simpa [mapSet] using h
  | cons kv rest ih =>
    obtain ⟨k', v'⟩ := kv
    unfold mapSet at h
    by_cases hk : k' = k
    · rw [if_pos hk] at h
      rcases List.mem_cons.1 h with h1 | h1
      · exact Or.inl h1
      · exact Or.inr (List.mem_cons_of_mem _ h1)
    · rw [if_neg hk] at h
      rcases List.mem_cons.1 h with h1 | h1
      · exact Or.inr (h1 ▸ List.mem_cons_self _ _)
      · rcases ih h1 with h2 | h2
        · exact Or.inl h2
        · exact Or.inr (List.mem_cons_of_mem _ h2)

theorem mem_of_mapGet {V : Type} (m : List (Str × V)) (k : Str) (v : V)
    (h : mapGet m k = some v) : (k, v) ∈ m := by
  induction m with
  | nil => simp [mapGet] at h
  | cons kv rest ih =>
    obtain ⟨k', v'⟩ := kv
    unfold mapGet at h
    by_cases hk : k' = k
    · rw [if_pos hk] at h
      simp only [Option.some.injEq] at h
      subst hk
      subst h
      exact List.mem_cons_self _ _
    · rw [if_neg hk] at h
      exact List.mem_cons_of_mem _ (ih h)

/-- The method `setValueNoLock` stores no empty name when it is given none. -/
theorem setValueNoLock_noEmptyNames (c : Config) (s l v : Str) (hs : s ≠ []) (hl : l ≠ [])
    (h : c.NoEmptyNames) : (c.setValueNoLock s l v).NoEmptyNames := by
  have hlab : ∀ (m : List (Str × Str)), (∀ lv ∈ m, lv.1 ≠ []) →
      ∀ lv ∈ mapSet m l v, lv.1 ≠ [] := by
    intro m hm lv hlv
    rcases mem_mapSet _ _ _ _ hlv with h2 | h2
    · subst h2
      exact hl
    · exact hm lv h2
  cases hg : mapGet c.cfg s with
  | some m0 =>
    have e : c.setValueNoLock s l v = { cfg := mapSet c.cfg s (mapSet m0 l v) } := by
      simp [Config.setValueNoLock, hg]
    rw [e]
    intro sm hsm
    rcases mem_mapSet _ _ _ _ hsm with h1 | h1
    · subst h1
      exact ⟨hs, hlab m0 (h _ (mem_of_mapGet _ _ _ hg)).2⟩
    · exact h sm h1
  | none =>
    have e : c.setValueNoLock s l v
        = { cfg := mapSet (mapSet c.cfg s []) s (mapSet [] l v) } := by
      simp [Config.setValueNoLock, hg, mapGet_mapSet_self]
    rw [e]
    intro sm hsm
    rcases mem_mapSet _ _ _ _ hsm with h1 | h1
    · subst h1
      exact ⟨hs, hlab [] (fun lv hlv => by simp at hlv)⟩
    · rcases mem_mapSet _ _ _ _ h1 with h2 | h2
      · subst h2
        exact ⟨hs, fun lv hlv => by simp at hlv⟩
      · exact h sm h2

theorem insertValue_noEmptyNames (p : Parser) (sect label value : Str) (app : Bool)
    (h : p.Config.NoEmptyNames) :
    (p.insertValue sect label value app).2.Config.NoEmptyNames := by
  unfold Parser.insertValue
  by_cases h1 : sect = []
  · rw [if_pos h1]
    exact h
  · rw [if_neg h1]
    by_cases h2 : label = []
    · rw [if_pos h2]
      exact h
    · rw [if_neg h2]
      cases app with
      | true =>
        simp only [if_true]
        unfold Config.AppendValue
        simp only []
        split_ifs
        · exact setValueNoLock_noEmptyNames _ _ _ _ h1 h2 h
        · exact setValueNoLock_noEmptyNames _ _ _ _ h1 h2 h
      | false =>
        simp only [Bool.false_eq_true, if_false]
        exact setValueNoLock_noEmptyNames _ _ _ _ h1 h2 h

theorem incLineNr_Config (p p1 : Parser) (hinc : p.incLineNr = some p1) :
    p1.Config = p.Config ∧ p1.curSection = p.curSection ∧ p1.curLabel = p.curLabel := by
  unfold Parser.incLineNr at hinc
  cases hl : p.lineNrStack.getLast? with
  | none => simp [hl] at hinc
  | some n =>
    simp only [hl, Option.some.injEq] at hinc
    subst hinc
    exact ⟨rfl, rfl, rfl⟩

theorem handleLine_noEmptyNames (env : Env)
    (nested : Parser → Reader → Str → Outcome × Parser) (hn : NestedKeepsNames nested)
    (p : Parser) (line : Str) (h : p.Config.NoEmptyNames) :
    (Parser.handleLine env nested p line).2.Config.NoEmptyNames := by
  unfold Parser.handleLine
  cases hinc : p.incLineNr with
  | none => exact h
  | some p1 =>
    have h1 : p1.Config.NoEmptyNames := by
      rw [(incLineNr_Config p p1 hinc).1]
      exact h
    simp only []
    split_ifs
    · exact h1
    · unfold Parser.handleRequire
      cases p1.resolveIncludeFile env _ with
      | none => exact h1
      | some incPath =>
        simp only []
        unfold Parser.ParseFileWith
        cases env.openFile incPath with
        | none => exact h1
        | some content => exact hn _ _ _ h1
    · unfold Parser.handleInclude
      cases p1.resolveIncludeFile env _ with
      | none => exact h1
      | some incPath =>
        simp only []
        cases env.openFile incPath with
        | none => exact h1
        | some content => exact hn _ _ _ h1
    · unfold Parser.setCurSection
      split_ifs
      · exact h1
      · exact h1
    · exact insertValue_noEmptyNames _ _ _ _ _ h1
    · exact insertValue_noEmptyNames _ _ _ _ _ h1
    · exact insertValue_noEmptyNames _ _ _ _ _ h1

theorem handleLines_noEmptyNames (env : Env)
    (nested : Parser → Reader → Str → Outcome × Parser) (hn : NestedKeepsNames nested)
    (p : Parser) (ls : List Str) (h : p.Config.NoEmptyNames) :
    (handleLines (Parser.handleLine env nested) p ls).2.Config.NoEmptyNames := by
  induction ls generalizing p with
  | nil => exact h
  | cons l ls ih =>
    have h1 := handleLine_noEmptyNames env nested hn p l h
    unfold handleLines
    cases hr : Parser.handleLine env nested p l with
    | mk r p1 =>
      rw [hr] at h1
      cases r with
      | ok => exact ih p1 h1
      | err e => exact h1
      | panic => exact h1
      | outOfFuel => exact h1

theorem readErrorLoop_noEmptyNames (env : Env)
    (nested : Parser → Reader → Str → Outcome × Parser) (hn : NestedKeepsNames nested)
    (fuel : Nat) (p : Parser) (h : p.Config.NoEmptyNames) :
    (readErrorLoop (Parser.handleLine env nested) fuel p).2.Config.NoEmptyNames := by
  induction fuel generalizing p with
  | zero => exact h
  | succ fuel ih =>
    have h1 := handleLine_noEmptyNames env nested hn p [] h
    unfold readErrorLoop
    cases hr : Parser.handleLine env nested p [] with
    | mk r p1 =>
      rw [hr] at h1
      cases r with
      | ok => exact ih p1 h1
      | err e => exact h1
      | panic => exact h1
      | outOfFuel => exact h1

theorem readLoop_noEmptyNames (env : Env)
    (nested : Parser → Reader → Str → Outcome × Parser) (hn : NestedKeepsNames nested)
    (fuel : Nat) (p : Parser) (reader : Reader) (h : p.Config.NoEmptyNames) :
    (readLoop (Parser.handleLine env nested) fuel p reader).2.Config.NoEmptyNames := by
  have h1 := handleLines_noEmptyNames env nested hn p (readLines reader.content) h
  unfold readLoop
  cases hr : handleLines (Parser.handleLine env nested) p (readLines reader.content) with
  | mk r p1 =>
    rw [hr] at h1
    cases r with
    | ok =>
      simp only []
      split_ifs
      · exact readErrorLoop_noEmptyNames env nested hn fuel p1 h1
      · exact h1
    | err e => exact h1
    | panic => exact h1
    | outOfFuel => exact h1

theorem parseReader_noEmptyNames (env : Env) (fuel : Nat) :
    NestedKeepsNames (fun q c f => Parser.parseReader fuel env q c f) := by
  induction fuel with
  | zero =>
    intro q c f h
    exact h
  | succ fuel ih =>
    intro q c f h
    by_cases hv : env.abs f ∈ q.visitedFiles
    · simp only [parseReader_succ_of_visited fuel env q c f hv]
      exact h
    · simp only [parseReader_succ_reader fuel env q c f hv]
      rw [popFile_Config]
      exact readLoop_noEmptyNames env _ ih _ _ _ h

/-- C22: for every file system, every parser state whose store holds no empty
section name and no empty label, every input and every path, the store holds no
empty section name and no empty label after `Parse` and after `ParseFile`,
whatever the outcome (no error, a syntax error or an error of `os.Open` at any
depth of nested files, a panic) and for every depth of nested files. -/
theorem parse_stores_no_empty_name (env : Env) (fuel : Nat) (p : Parser)
    (content : Reader) (path : Str) (h : p.Config.NoEmptyNames) :
    (Parser.Parse fuel env p content).2.Config.NoEmptyNames ∧
    (Parser.ParseFile fuel env p path).2.Config.NoEmptyNames := by
  refine ⟨parseReader_noEmptyNames env fuel p content [] h, ?_⟩
  unfold Parser.ParseFile Parser.ParseFileWith
  cases env.openFile path with
  | none => exact h
  | some c => exact parseReader_noEmptyNames env fuel p c path h

/-- Witness of `parse_stores_no_empty_name`: a store with one section, an input
with an empty section header, an empty label and a directive, and the file
`a.ini` of `loopFiles`. -/
theorem parse_stores_no_empty_name_witness :
    (NewParser (some sampleStore)).Config.NoEmptyNames ∧
    ((Parser.Parse 3 loopFiles (NewParser (some sampleStore))
        "[T]\nx = 1\n[Include b.ini]\n= v\n[]".toList).2.Config.NoEmptyNames ∧
      (Parser.ParseFile 3 loopFiles (NewParser (some sampleStore))
        "a.ini".toList).2.Config.NoEmptyNames) :=
  ⟨by decide,
   parse_stores_no_empty_name loopFiles 3 (NewParser (some sampleStore))
     "[T]\nx = 1\n[Include b.ini]\n= v\n[]".toList "a.ini".toList (by decide)⟩

/-! ## C23 : the stack discipline of parseReader -/

/-- The two stacks are equally long in every state a call of `parseReader`
passes through, when they are in the state of the call. -/
theorem passes_length (env : Env) (p : Parser) (reader : Reader) (path : Str) (s : Parser)
    (h : Passes env p reader path s)
    (hlen : p.lineNrStack.length = p.fileStack.length) :
    s.lineNrStack.length = s.fileStack.length := by
  have hent : ∀ (p : Parser) (path : Str), p.lineNrStack.length = p.fileStack.length →
      (p.entered env path).lineNrStack.length = (p.entered env path).fileStack.length := by
    intro p path hp
    simp [Parser.entered, hp]
  have hloop : ∀ (fuel : Nat) (p q : Parser) (path : Str) (pre : List Str),
      p.lineNrStack.length = p.fileStack.length →
      handleLines (Parser.handleLine env
        (fun r c f => Parser.parseReader fuel env r c f)) (p.entered env path) pre
          = (Outcome.ok, q) →
      q.lineNrStack.length = q.fileStack.length := by
    intro fuel p q path pre hp hpre
    have hfs := handleLines_frameStep env _ (parseReader_nestedOk env fuel)
      (p.entered env path) pre (hent p path hp)
    rw [hpre] at hfs
    rw [hfs.1, hfs.2.2.1]
    exact hent p path hp
  induction h with
  | called p reader path => exact hlen
  | pushed p reader path =>
    rcases pushFile_cases env p path with ⟨_, h2⟩ | ⟨_, h2⟩
    · rw [h2]
      exact hlen
    · rw [h2]
      simp [hlen]
  | counted p reader path fuel pre line post q q1 hnew hlines hpre hinc =>
    have hq := hloop fuel p q path pre hlen hpre
    have hfs := incLineNr_frameStep q q1 hinc
    rw [hfs.1, hfs.2.2.1]
    exact hq
  | handled p reader path fuel pre line post q hnew hlines hpre hret =>
    have hq := hloop fuel p q path pre hlen hpre
    have hfs := handleLine_frameStep env _ (parseReader_nestedOk env fuel) q line hq
    rw [hfs.1, hfs.2.2.1]
    exact hq
  | nested p reader path fuel pre line post q q1 req arg incPath reader2 s hnew hlines
      hpre hinc hdir hres hopen hin ih =>
    have hq := hloop fuel p q path pre hlen hpre
    have hfs := incLineNr_frameStep q q1 hinc
    apply ih
    rw [hfs.1, hfs.2.2.1]
    exact hq
  | reread p reader path fuel turns q hnew hfails hall =>
    have hq := hloop fuel p q path _ hlen hall
    have hfs := readErrorLoop_frameStep env _ (parseReader_nestedOk env fuel) turns q hq
    rw [hfs.1, hfs.2.2.1]
    exact hq
  | popped p reader path fuel hret =>
    have hss := parseReader_nestedOk env fuel p reader path hlen
    rw [hss.1, hss.2.1]
    exact hlen

/-- C23: for every file system, every parser state whose two stacks are equally
long, every reader and every path: (1) whatever depth of nested files the
call of `parseReader` is followed to and whatever its outcome (no error, a
syntax error of any depth, an "include loop" rejection, an error of `os.Open`),
it returns with the file stack and the line number stack it was called with,
element for element; (2) the two stacks are equally long in every state the
call passes through, at every depth (`Passes`). -/
theorem parseReader_stack_discipline (env : Env) (p : Parser) (reader : Reader)
    (path : Str) (hlen : p.lineNrStack.length = p.fileStack.length) :
    (∀ fuel, (Parser.parseReader fuel env p reader path).2.fileStack = p.fileStack ∧
      (Parser.parseReader fuel env p reader path).2.lineNrStack = p.lineNrStack) ∧
    (∀ s, Passes env p reader path s → s.lineNrStack.length = s.fileStack.length) :=
  ⟨fun fuel =>
      ⟨(parseReader_nestedOk env fuel p reader path hlen).1,
       (parseReader_nestedOk env fuel p reader path hlen).2.1⟩,
   fun s h => passes_length env p reader path s h hlen⟩

/-- In `loopFiles`, the parse of `a.ini` passes through the state in which line
2 of `b.ini` has been counted. -/
theorem loopFiles_passes :
    Passes loopFiles (NewParser none) "[S]\n[Include b.ini]\nx = 1".toList
      "a.ini".toList stateInNested := by
  refine Passes.nested _ _ _ 0 ["[S]\n".toList] "[Include b.ini]\n".toList ["x = 1".toList]
    ⟨⟨[]⟩, "S".toList, [], ["a.ini".toList], [1], ["a.ini".toList]⟩
    ⟨⟨[]⟩, "S".toList, [], ["a.ini".toList], [2], ["a.ini".toList]⟩
    false "b.ini".toList "b.ini".toList "y = 2\n[Require a.ini]".toList _
    (by decide) (by decide) (by decide) (by decide) (by decide) (by decide) (by decide) ?_
  exact Passes.counted _ _ _ 0 ["y = 2\n".toList] "[Require a.ini]".toList []
    ⟨⟨[("S".toList, [("y".toList, "2".toList)])]⟩, "S".toList, "y".toList,
      ["a.ini".toList, "b.ini".toList], [2, 1], ["a.ini".toList, "b.ini".toList]⟩
    _ (by decide) (by decide) (by decide) (by decide)

/-- Witness of `parseReader_stack_discipline`: the parse of `a.ini` in
`loopFiles`, which ends with an "include loop" raised in `b.ini`. -/
theorem parseReader_stack_discipline_witness :
    (NewParser none).lineNrStack.length = (NewParser none).fileStack.length ∧
    ((∀ fuel, (Parser.parseReader fuel loopFiles (NewParser none)
          "[S]\n[Include b.ini]\nx = 1".toList "a.ini".toList).2.fileStack
            = (NewParser none).fileStack ∧
        (Parser.parseReader fuel loopFiles (NewParser none)
          "[S]\n[Include b.ini]\nx = 1".toList "a.ini".toList).2.lineNrStack
            = (NewParser none).lineNrStack) ∧
      (∀ s, Passes loopFiles (NewParser none) "[S]\n[Include b.ini]\nx = 1".toList
          "a.ini".toList s → s.lineNrStack.length = s.fileStack.length)) ∧
    Passes loopFiles (NewParser none) "[S]\n[Include b.ini]\nx = 1".toList
      "a.ini".toList stateInNested ∧
    (Parser.parseReader 3 loopFiles (NewParser none)
      "[S]\n[Include b.ini]\nx = 1".toList "a.ini".toList).1
        = Outcome.err (GoError.syntaxError
            { path := "b.ini".toList, lineNr := 2, msg := "include loop".toList }) :=
  ⟨by decide,
   parseReader_stack_discipline loopFiles (NewParser none)
     "[S]\n[Include b.ini]\nx = 1".toList "a.ini".toList (by decide),
   loopFiles_passes, by decide⟩

/-! ## What the visited set gives: a bound on the nested calls -/

theorem unvisited_mono (paths : List Str) (q p : Parser)
    (h : p.visitedFiles ⊆ q.visitedFiles) : unvisited paths q ≤ unvisited paths p := by
  unfold unvisited
  apply Finset.card_le_card
  intro a ha
  rw [Finset.mem_sdiff, List.mem_toFinset, List.mem_toFinset] at ha ⊢
  exact ⟨ha.1, fun hq => ha.2 (h hq)⟩

/-- Entering a file that exists and has not been visited leaves fewer unvisited
paths. -/
theorem unvisited_entered (env : Env) (paths : List Str) (p : Parser) (path : Str)
    (hin : env.abs path ∈ paths) (hnew : env.abs path ∉ p.visitedFiles) :
    unvisited paths (p.entered env path) < unvisited paths p := by
  unfold unvisited
  apply Finset.card_lt_card
  rw [Finset.ssubset_iff_of_subset]
  · refine ⟨env.abs path, ?_, ?_⟩
    · rw [Finset.mem_sdiff, List.mem_toFinset, List.mem_toFinset]
      exact ⟨hin, hnew⟩
    · rw [Finset.mem_sdiff, List.mem_toFinset, List.mem_toFinset]
      intro h
      exact h.2 (by simp [Parser.entered])
  · intro a ha
    rw [Finset.mem_sdiff, List.mem_toFinset, List.mem_toFinset] at ha ⊢
    exact ⟨ha.1, fun hq => ha.2 (by simp [Parser.entered, hq])⟩

theorem unvisited_le_length (paths : List Str) (p : Parser) :
    unvisited paths p ≤ paths.length := by
  unfold unvisited
  exact le_trans (Finset.card_le_card Finset.sdiff_subset) (List.toFinset_card_le paths)

theorem handleLine_returns (env : Env) (paths : List Str) (n : Nat)
    (nested : Parser → Reader → Str → Outcome × Parser)
    (hn : NestedReturns env paths n nested) (q : Parser) (line : Str)
    (hfuel : unvisited paths q + 1 ≤ n)
    (hlen : q.lineNrStack.length = q.fileStack.length) :
    (Parser.handleLine env nested q line).1 ≠ Outcome.outOfFuel := by
  cases hinc : q.incLineNr with
  | none =>
    unfold Parser.handleLine
    rw [hinc]
    exact fun e => Outcome.noConfusion e
  | some q1 =>
    obtain ⟨g1, g2, g3⟩ := incLineNr_fields q q1 hinc
    have hfuel1 : unvisited paths q1 + 1 ≤ n :=
      le_trans (Nat.succ_le_succ (unvisited_mono paths q1 q (by rw [g2]; exact fun _ h => h)))
        hfuel
    have hlen1 : q1.lineNrStack.length = q1.fileStack.length := by rw [g1, g3, hlen]
    cases hdir : directiveOf line with
    | none =>
      obtain ⟨-, h, -⟩ := handleLine_not_directive env nested q q1 line hinc hdir
      rcases h with h | h | h
      · rw [h]
        exact fun e => Outcome.noConfusion e
      · rw [h]
        exact syntaxError_ne_outOfFuel _ _
      · rw [h]
        exact syntaxError_ne_outOfFuel _ _
    | some d =>
      obtain ⟨req, arg⟩ := d
      rw [handleLine_directive env nested q q1 line req arg hinc hdir]
      cases hres : q1.resolveIncludeFile env arg with
      | none => exact fun e => Outcome.noConfusion e
      | some incPath =>
        simp only []
        cases hopen : env.openFile incPath with
        | none =>
          cases req with
          | true =>
            simp only [Parser.ParseFileWith, hopen, if_true]
            exact fun e => Outcome.noConfusion e
          | false =>
            simp only [Bool.false_eq_true, if_false]
            exact fun e => Outcome.noConfusion e
        | some content =>
          have hres := hn q1 content incPath hopen hfuel1 hlen1
          cases req with
          | true =>
            simp only [Parser.ParseFileWith, hopen, if_true]
            exact hres
          | false =>
            simp only [Bool.false_eq_true, if_false]
            exact hres

theorem handleLines_returns (env : Env) (paths : List Str) (n : Nat)
    (nested : Parser → Reader → Str → Outcome × Parser) (hok : NestedOk nested)
    (hn : NestedReturns env paths n nested) (q : Parser) (ls : List Str)
    (hfuel : unvisited paths q + 1 ≤ n)
    (hlen : q.lineNrStack.length = q.fileStack.length) :
    (handleLines (Parser.handleLine env nested) q ls).1 ≠ Outcome.outOfFuel := by
  induction ls generalizing q with
  | nil => exact fun e => Outcome.noConfusion e
  | cons l ls ih =>
    have h1 := handleLine_returns env paths n nested hn q l hfuel hlen
    have h2 := handleLine_frameStep env nested hok q l hlen
    unfold handleLines
    cases hr : Parser.handleLine env nested q l with
    | mk r q1 =>
      rw [hr] at h1 h2
      cases r with
      | ok =>
        refine ih q1 (le_trans (Nat.succ_le_succ (unvisited_mono paths q1 q h2.2.2.2)) hfuel) ?_
        rw [h2.1, h2.2.2.1, hlen]
      | err e => exact fun e => Outcome.noConfusion e
      | panic => exact fun e => Outcome.noConfusion e
      | outOfFuel => exact absurd rfl h1

theorem readLoop_of_not_fails (h : Parser → Str → Outcome × Parser) (fuel : Nat)
    (p : Parser) (reader : Reader) (hr : reader.fails = false) :
    readLoop h fuel p reader = handleLines h p (readLines reader.content) := by
  obtain ⟨content, fails⟩ := reader
  simp only at hr
  subst hr
  exact readLoop_text h fuel p content

/-- The recursion of `parseReader` is bounded by the number of files that exist
and have not been visited, when every file that can be opened is read to its
end: with more fuel than that, the model returns. -/
theorem parseReader_returns (env : Env) (paths : List Str)
    (hfin : ∀ a, (env.files a).isSome = true → a ∈ paths) (hread : env.Readable)
    (fuel : Nat) :
    NestedReturns env paths fuel (fun q c f => Parser.parseReader fuel env q c f) := by
  induction fuel with
  | zero =>
    intro q c f _ h _
    omega
  | succ n ih =>
    intro q c f hopen hfuel hlen
    by_cases hv : env.abs f ∈ q.visitedFiles
    · simp only [parseReader_succ_of_visited n env q c f hv]
      exact syntaxError_ne_outOfFuel _ _
    · simp only [parseReader_succ_reader n env q c f hv]
      rw [readLoop_of_not_fails _ _ _ c (hread _ c hopen)]
      have hlt := unvisited_entered env paths q f
        (hfin _ (by unfold Env.openFile at hopen; rw [hopen]; rfl)) hv
      exact handleLines_returns env paths n _ (parseReader_nestedOk env n) ih
        (q.entered env f) _ (by omega) (by simp [Parser.entered, hlen])

/-- What the visited set gives: when the files that can be opened are among
finitely many absolute paths `paths` and each of them is read to its end,
`ParseFile(f)` on a fresh Parser returns, within a depth of `paths.length + 1`
nested calls, and every larger bound gives the same result. -/
theorem ParseFile_returns_of_readable (env : Env) (paths : List Str)
    (hfin : ∀ a, (env.files a).isSome = true → a ∈ paths) (hread : env.Readable)
    (c : Option Config) (f : Str) :
    ∀ fuel, paths.length + 1 ≤ fuel →
      (Parser.ParseFile fuel env (NewParser c) f).1 ≠ Outcome.outOfFuel ∧
      Parser.ParseFile fuel env (NewParser c) f
        = Parser.ParseFile (paths.length + 1) env (NewParser c) f := by
  have hret : ∀ fuel, paths.length + 1 ≤ fuel →
      (Parser.ParseFile fuel env (NewParser c) f).1 ≠ Outcome.outOfFuel := by
    intro fuel hfuel
    unfold Parser.ParseFile Parser.ParseFileWith
    cases hopen : env.openFile f with
    | none => exact fun e => Outcome.noConfusion e
    | some content =>
      exact parseReader_returns env paths hfin hread fuel (NewParser c) content f hopen
        (le_trans (Nat.succ_le_succ (unvisited_le_length paths _)) hfuel) rfl
  intro fuel hfuel
  refine ⟨hret fuel hfuel, ?_⟩
  have h0 := hret (paths.length + 1) (le_refl _)
  unfold Parser.ParseFile Parser.ParseFileWith at h0 ⊢
  cases hopen : env.openFile f with
  | none => rfl
  | some content =>
    rw [hopen] at h0
    exact parseReader_mono env (paths.length + 1) fuel hfuel (NewParser c) content f h0

/-! ## The lines of a text -/

/-- The pieces `readLines` cuts a text into: full lines, then a last piece with
no newline; put together again they are the text. -/
theorem readLines_shape (s : Str) :
    ∃ M x, readLines s = M ++ [x] ∧ (∀ l ∈ M, IsFullLine l) ∧ '\n' ∉ x ∧
      s = M.flatten ++ x := by
  induction s with
  | nil => exact ⟨[], [], rfl, fun l hl => by simp at hl, by simp, rfl⟩
  | cons c cs ih =>
    obtain ⟨M, x, h1, h2, h3, h4⟩ := ih
    by_cases hc : c = '\n'
    · refine ⟨['\n'] :: M, x, ?_, ?_, h3, ?_⟩
      · simp [readLines, hc, h1]
      · intro l hl
        rcases List.mem_cons.1 hl with h | h
        · exact ⟨[], by simp, by simp [h]⟩
        · exact h2 l h
      · simp [hc, ← h4]
    · cases M with
      | nil =>
        refine ⟨[], c :: x, ?_, fun l hl => by simp at hl, ?_, ?_⟩
        · simp [readLines, hc, h1]
        · intro h
          rcases List.mem_cons.1 h with h | h
          · exact hc h.symm
          · exact h3 h
        · simp at h4
          simp [h4]
      | cons m M2 =>
        refine ⟨(c :: m) :: M2, x, ?_, ?_, h3, ?_⟩
        · simp [readLines, hc, h1]
        · intro l hl
          rcases List.mem_cons.1 hl with h | h
          · obtain ⟨a, ha1, ha2⟩ := h2 m (List.mem_cons_self _ _)
            refine ⟨c :: a, ?_, by simp [h, ha2]⟩
            intro hm
            rcases List.mem_cons.1 hm with h' | h'
            · exact hc h'.symm
            · exact ha1 h'
          · exact h2 l (List.mem_cons_of_mem _ h)
        · simp at h4
          simp [h4]

/-- Full lines in front of a text are read back as they are. -/
theorem readLines_flatten_append (M : List Str) (t : Str) (hM : ∀ l ∈ M, IsFullLine l) :
    readLines (M.flatten ++ t) = M ++ readLines t := by
  induction M with
  | nil => simp
  | cons m M ih =>
    obtain ⟨a, ha1, ha2⟩ := hM m (List.mem_cons_self _ _)
    have e : (m :: M).flatten ++ t = a ++ '\n' :: (M.flatten ++ t) := by
      simp [ha2]
    rw [e, readLines_append_newline a _ ha1, ih (fun l hl => hM l (List.mem_cons_of_mem _ hl)),
      ha2]
    rfl

/-- The lines of the text of the first `k` and of the first `k + 1` lines. -/
theorem firstLines_lines (content : Str) (k : Nat) (hk : k < (readLines content).length) :
    ∃ A l B tail, readLines content = A ++ l :: B ∧ A.length = k ∧
      (readLines content).take (k + 1) = A ++ [l] ∧
      readLines (firstLines k content) = A ++ [[]] ∧
      readLines (firstLines (k + 1) content) = A ++ l :: tail ∧
      (tail = [] ∨ tail = [[]]) := by
  obtain ⟨M, x, h1, h2, h3, h4⟩ := readLines_shape content
  have hkM : k ≤ M.length := by
    rw [h1] at hk
    simp at hk
    omega
  have hfull : ∀ j, j ≤ M.length → ∀ l ∈ M.take j, IsFullLine l :=
    fun j _ l hl => h2 l (List.mem_of_mem_take hl)
  have hfirst : ∀ j, j ≤ M.length → readLines (firstLines j content) = M.take j ++ [[]] := by
    intro j hj
    have e : firstLines j content = (M.take j).flatten ++ [] := by
      unfold firstLines
      rw [h1, List.take_append_of_le_length hj, List.append_nil]
    rw [e, readLines_flatten_append _ _ (hfull j hj)]
    rfl
  rcases Nat.lt_or_ge k M.length with hlt | hge
  · have hd : M.drop k = M[k] :: M.drop (k + 1) := List.drop_eq_getElem_cons hlt
    have hsplit : M = M.take k ++ M[k] :: M.drop (k + 1) := by
      rw [← hd, List.take_append_drop]
    have htk : M.take (k + 1) = M.take k ++ [M[k]] := by
      rw [List.take_succ, List.getElem?_eq_getElem hlt]
      rfl
    refine ⟨M.take k, M[k], M.drop (k + 1) ++ [x], [[]], ?_, ?_, ?_, hfirst k hkM,
      ?_, Or.inr rfl⟩
    · rw [h1]
      conv_lhs => rw [hsplit]
      rw [List.append_assoc]
      rfl
    · rw [List.length_take]
      omega
    · rw [h1, List.take_append_of_le_length (by omega : k + 1 ≤ M.length), htk]
    · rw [hfirst (k + 1) (by omega), htk, List.append_assoc]
      rfl
  · have hkeq : k = M.length := by omega
    refine ⟨M, x, [], [], h1, hkeq.symm, ?_, ?_, ?_, Or.inl rfl⟩
    · rw [h1, hkeq]
      simp
    · rw [hkeq] at *
      have := hfirst M.length (le_refl _)
      simpa using this
    · have e : firstLines (k + 1) content = content := by
        unfold firstLines
        rw [h1, hkeq, List.take_of_length_le (by simp)]
        rw [h4]
        simp
      rw [e, h1]
/-! ## C21 : the first error ends the parse -/

theorem handleLines_append_ok (h : Parser → Str → Outcome × Parser) (p p1 : Parser)
    (a b : List Str) (hok : handleLines h p a = (Outcome.ok, p1)) :
    handleLines h p (a ++ b) = handleLines h p1 b := by
  induction a generalizing p with
  | nil =>
    simp only [handleLines, Prod.mk.injEq, true_and] at hok
    subst hok
    rfl
  | cons l ls ih =>
    rw [List.cons_append]
    cases hr : h p l with
    | mk r q =>
      cases r with
      | ok =>
        rw [handleLines_cons_ok h p q l _ hr]
        rw [handleLines_cons_ok h p q l _ hr] at hok
        exact ih q hok
      | err e =>
        unfold handleLines at hok
        rw [hr] at hok
        exact Outcome.noConfusion (congrArg Prod.fst hok)
      | panic =>
        unfold handleLines at hok
        rw [hr] at hok
        exact Outcome.noConfusion (congrArg Prod.fst hok)
      | outOfFuel =>
        unfold handleLines at hok
        rw [hr] at hok
        exact Outcome.noConfusion (congrArg Prod.fst hok)

theorem handleLines_append_stop (h : Parser → Str → Outcome × Parser) (p : Parser)
    (a b : List Str) (hne : (handleLines h p a).1 ≠ Outcome.ok) :
    handleLines h p (a ++ b) = handleLines h p a := by
  induction a generalizing p with
  | nil => exact absurd rfl hne
  | cons l ls ih =>
    rw [List.cons_append]
    cases hr : h p l with
    | mk r q =>
      cases r with
      | ok =>
        rw [handleLines_cons_ok h p q l _ hr, handleLines_cons_ok h p q l _ hr]
        rw [handleLines_cons_ok h p q l _ hr] at hne
        exact ih q hne
      | err e =>
        unfold handleLines
        rw [hr]
      | panic =>
        unfold handleLines
        rw [hr]
      | outOfFuel =>
        unfold handleLines
        rw [hr]

/-- An empty line is counted and has no other effect. -/
theorem handleLine_nil (env : Env) (nested : Parser → Reader → Str → Outcome × Parser)
    (p : Parser) :
    Parser.handleLine env nested p []
      = match p.incLineNr with
        | none => (Outcome.panic, p)
        | some p1 => (Outcome.ok, p1) := by
  have e : removeComments (trimSpace []) = [] := by decide
  unfold Parser.handleLine
  cases p.incLineNr with
  | none => rfl
  | some p1 => simp [e]

/-- A line that carries no directive and is not accepted leaves the store as
it is. -/
theorem handleLine_fail_Config (env : Env) (nested : Parser → Reader → Str → Outcome × Parser)
    (p : Parser) (line : Str) (hdir : directiveOf line = none)
    (hne : (Parser.handleLine env nested p line).1 ≠ Outcome.ok) :
    (Parser.handleLine env nested p line).2.Config = p.Config := by
  have hins : ∀ (q : Parser) (s l v : Str) (a : Bool),
      (q.insertValue s l v a).1 ≠ Outcome.ok → (q.insertValue s l v a).2.Config = q.Config := by
    intro q s l v a
    unfold Parser.insertValue
    split_ifs
    · exact fun _ => rfl
    · exact fun _ => rfl
    · exact fun h => absurd rfl h
    · exact fun h => absurd rfl h
  cases hinc : p.incLineNr with
  | none =>
    unfold Parser.handleLine
    rw [hinc]
  | some p1 =>
    have hc := (incLineNr_Config p p1 hinc).1
    unfold directiveOf at hdir
    simp only [] at hdir
    unfold Parser.handleLine at hne ⊢
    simp only [hinc] at hne ⊢
    by_cases h1 : removeComments (trimSpace line) = []
    · simp [h1] at hne
    · simp only [if_neg h1] at hdir hne ⊢
      by_cases h2 : (readSectionName (removeComments (trimSpace line))).1 = true
      · simp only [if_pos h2] at hdir hne ⊢
        by_cases h3 : hasPrefixStr (readSectionName (removeComments (trimSpace line))).2
            "Require ".toList = true
        · rw [if_pos h3] at hdir
          exact Option.noConfusion hdir
        · rw [if_neg h3] at hdir hne ⊢
          by_cases h4 : hasPrefixStr (readSectionName (removeComments (trimSpace line))).2
              "Include ".toList = true
          · rw [if_pos h4] at hdir
            exact Option.noConfusion hdir
          · rw [if_neg h4] at hne ⊢
            unfold Parser.setCurSection at hne ⊢
            split_ifs at hne ⊢
            · exact hc
            · exact absurd rfl hne
      · simp only [if_neg h2] at hne ⊢
        split_ifs at hne ⊢
        · exact (hins _ _ _ _ _ hne).trans hc
        · exact (hins _ _ _ _ _ hne).trans hc
        · exact (hins _ _ _ _ _ hne).trans hc

/-- Lines handled without error move the frame on by their number. -/
theorem frameAt_handleLines (env : Env) (fuel : Nat) (file : Str) (k : Nat) (p p1 : Parser)
    (ls : List Str) (h : FrameAt file k p)
    (hok : handleLines (Parser.handleLine env
      (fun q c f => Parser.parseReader fuel env q c f)) p ls = (Outcome.ok, p1)) :
    FrameAt file (k + ls.length) p1 := by
  induction ls generalizing p k with
  | nil =>
    simp only [handleLines, Prod.mk.injEq, true_and] at hok
    subst hok
    exact h
  | cons l ls ih =>
    unfold handleLines at hok
    cases hr : Parser.handleLine env
        (fun q c f => Parser.parseReader fuel env q c f) p l with
    | mk r q =>
      rw [hr] at hok
      cases r with
      | ok =>
        have h1 := frameAt_step env fuel file k p q l h hr
        have h2 := ih (k + 1) q h1 hok
        rw [List.length_cons]
        have e : k + (ls.length + 1) = k + 1 + ls.length := by omega
        rw [e]
        exact h2
      | err e => exact Outcome.noConfusion (congrArg Prod.fst hok)
      | panic => exact Outcome.noConfusion (congrArg Prod.fst hok)
      | outOfFuel => exact Outcome.noConfusion (congrArg Prod.fst hok)

/-- The method `Parse` on a fresh Parser: the loop over the lines, then `popFile`. -/
theorem Parse_fresh (env : Env) (c : Option Config) (fuel : Nat) (t : Str) :
    Parser.Parse (fuel + 1) env (NewParser c) t
      = ((handleLines (Parser.handleLine env (fun q c f => Parser.parseReader fuel env q c f))
            ((NewParser c).entered env []) (readLines t)).1,
         (handleLines (Parser.handleLine env (fun q c f => Parser.parseReader fuel env q c f))
            ((NewParser c).entered env []) (readLines t)).2.popFile) :=
  parseReader_entered fuel env (NewParser c) t [] (by simp [NewParser])

/-- C21: for every file system, every initial store, every input and every `k`
such that the first `k + 1` lines of the input hold no Include/Require
directive, `Parse` of the first `k` lines alone returns no error and `Parse` of
the first `k + 1` lines alone returns the error `e` (line `k + 1` is the first
line that fails): `Parse` of the whole input on a fresh Parser returns `e`, which
is a syntax error stamped with line `k + 1` of the stream; the store it leaves
is the store that `Parse` of the first `k` lines leaves; every input with the
same first `k + 1` lines gives the same result. -/
theorem first_error_aborts (env : Env) (c : Option Config) (fuel : Nat) (content : Str)
    (k : Nat) (e : GoError) (hk : k < (readLines content).length)
    (hnodir : ∀ l ∈ (readLines content).take (k + 1), directiveOf l = none)
    (hpre : (Parser.Parse (fuel + 1) env (NewParser c) (firstLines k content)).1
      = Outcome.ok)
    (hfail : (Parser.Parse (fuel + 1) env (NewParser c) (firstLines (k + 1) content)).1
      = Outcome.err e) :
    (Parser.Parse (fuel + 1) env (NewParser c) content).1 = Outcome.err e ∧
    (Parser.Parse (fuel + 1) env (NewParser c) content).2.Config
      = (Parser.Parse (fuel + 1) env (NewParser c) (firstLines k content)).2.Config ∧
    (∃ msg, e = GoError.syntaxError
      { path := [], lineNr := (k + 1) % 2 ^ 64, msg := msg }) ∧
    (∀ content2, (readLines content2).take (k + 1) = (readLines content).take (k + 1) →
      Parser.Parse (fuel + 1) env (NewParser c) content2
        = Parser.Parse (fuel + 1) env (NewParser c) content) := by
  obtain ⟨A, l, B, tail, hls, hA, htake, hfirst, hnext, htail⟩ := firstLines_lines content k hk
  have hl : directiveOf l = none := hnodir l (by rw [htake]; simp)
  rw [Parse_fresh] at hpre hfail
  simp only [] at hpre hfail
  rw [hfirst] at hpre
  rw [hnext] at hfail
  -- the first `k` lines are handled without error
  have hA1 : (handleLines (Parser.handleLine env
      (fun q c f => Parser.parseReader fuel env q c f))
        ((NewParser c).entered env []) A).1 = Outcome.ok := by
    by_contra hne
    rw [handleLines_append_stop _ _ A [[]] hne] at hpre
    exact hne hpre
  obtain ⟨p1, hp1⟩ : ∃ p1, handleLines (Parser.handleLine env
      (fun q c f => Parser.parseReader fuel env q c f))
        ((NewParser c).entered env []) A = (Outcome.ok, p1) :=
    ⟨_, Prod.ext hA1 rfl⟩
  have hframe : FrameAt [] k p1 := by
    have := frameAt_handleLines env fuel [] 0 _ p1 A
      (frameAt_entered env (NewParser c) [] rfl) hp1
    rw [hA, Nat.zero_add] at this
    exact this
  obtain ⟨p2, hinc, -, -, -, hframe2⟩ := incLineNr_of_frameAt [] k p1 hframe
  -- line `k + 1` fails with `e`
  have hline : (Parser.handleLine env
      (fun q c f => Parser.parseReader fuel env q c f) p1 l).1 = Outcome.err e := by
    rw [handleLines_append_ok _ _ p1 A (l :: tail) hp1] at hfail
    unfold handleLines at hfail
    cases hr : Parser.handleLine env
        (fun q c f => Parser.parseReader fuel env q c f) p1 l with
    | mk r q =>
      rw [hr] at hfail
      cases r with
      | ok =>
        exfalso
        simp only [] at hfail
        rcases htail with ht | ht
        · rw [ht] at hfail
          exact Outcome.noConfusion hfail
        · rw [ht] at hfail
          unfold handleLines at hfail
          rw [handleLine_nil] at hfail
          cases hq : q.incLineNr with
          | none =>
            rw [hq] at hfail
            exact Outcome.noConfusion hfail
          | some q1 =>
            rw [hq] at hfail
            exact Outcome.noConfusion hfail
      | err x => exact hfail
      | panic => exact Outcome.noConfusion hfail
      | outOfFuel => exact Outcome.noConfusion hfail
  -- every input with these first lines stops there
  have hstop : ∀ rest, handleLines (Parser.handleLine env
      (fun q c f => Parser.parseReader fuel env q c f))
        ((NewParser c).entered env []) ((A ++ [l]) ++ rest)
      = (Outcome.err e, (Parser.handleLine env
          (fun q c f => Parser.parseReader fuel env q c f) p1 l).2) := by
    intro rest
    rw [List.append_assoc, handleLines_append_ok _ _ p1 A _ hp1]
    simp only [List.singleton_append]
    unfold handleLines
    cases hr : Parser.handleLine env
        (fun q c f => Parser.parseReader fuel env q c f) p1 l with
    | mk r q =>
      rw [hr] at hline
      simp only [] at hline
      subst hline
      rfl
  have hall : ∀ t, (readLines t).take (k + 1) = (readLines content).take (k + 1) →
      Parser.Parse (fuel + 1) env (NewParser c) t
        = (Outcome.err e, (Parser.handleLine env
            (fun q c f => Parser.parseReader fuel env q c f) p1 l).2.popFile) := by
    intro t ht
    rw [Parse_fresh]
    have e2 : readLines t = (A ++ [l]) ++ (readLines t).drop (k + 1) := by
      rw [← htake, ← ht, List.take_append_drop]
    rw [e2, hstop]
  have hmain := hall content rfl
  refine ⟨by rw [hmain], ?_, ?_, fun content2 h2 => by rw [hall content2 h2, hmain]⟩
  · rw [hmain, Parse_fresh, hfirst, handleLines_append_ok _ _ p1 A _ hp1]
    simp only [popFile_Config]
    rw [handleLine_fail_Config env _ p1 l hl (by rw [hline]; exact fun h => Outcome.noConfusion h)]
    unfold handleLines
    rw [handleLine_nil, hinc]
    simp only [handleLines]
    exact (incLineNr_Config p1 p2 hinc).1.symm
  · obtain ⟨-, h, -⟩ := handleLine_not_directive env
      (fun q c f => Parser.parseReader fuel env q c f) p1 p2 l hinc hl
    rw [hline] at h
    rcases h with h | h | h
    · exact Outcome.noConfusion h
    · rw [syntaxError_stamp p2 [] _ _ hframe2.2.1 hframe2.2.2] at h
      exact ⟨_, Outcome.err.inj h⟩
    · rw [syntaxError_stamp p2 [] _ _ hframe2.2.1 hframe2.2.2] at h
      exact ⟨_, Outcome.err.inj h⟩

/-- Witness of `first_error_aborts`: line 3 of the input has an empty section
name; the store is the one that lines 1 and 2 build. -/
theorem first_error_aborts_witness :
    (2 < (readLines "[S]\nx = 1\n[ ]\ny = 2".toList).length ∧
      (∀ l ∈ (readLines "[S]\nx = 1\n[ ]\ny = 2".toList).take (2 + 1),
        directiveOf l = none) ∧
      (Parser.Parse (0 + 1) (flatEnv []) (NewParser none)
        (firstLines 2 "[S]\nx = 1\n[ ]\ny = 2".toList)).1 = Outcome.ok ∧
      (Parser.Parse (0 + 1) (flatEnv []) (NewParser none)
        (firstLines (2 + 1) "[S]\nx = 1\n[ ]\ny = 2".toList)).1
          = Outcome.err (GoError.syntaxError
              { path := [], lineNr := 3, msg := "empty section name".toList })) ∧
    ((Parser.Parse (0 + 1) (flatEnv []) (NewParser none)
        "[S]\nx = 1\n[ ]\ny = 2".toList).1
          = Outcome.err (GoError.syntaxError
              { path := [], lineNr := 3, msg := "empty section name".toList }) ∧
      (Parser.Parse (0 + 1) (flatEnv []) (NewParser none)
        "[S]\nx = 1\n[ ]\ny = 2".toList).2.Config
          = (Parser.Parse (0 + 1) (flatEnv []) (NewParser none)
              (firstLines 2 "[S]\nx = 1\n[ ]\ny = 2".toList)).2.Config ∧
      (∃ msg, GoError.syntaxError
          { path := [], lineNr := 3, msg := "empty section name".toList }
        = GoError.syntaxError { path := [], lineNr := (2 + 1) % 2 ^ 64, msg := msg }) ∧
      (∀ content2, (readLines content2).take (2 + 1)
          = (readLines "[S]\nx = 1\n[ ]\ny = 2".toList).take (2 + 1) →
        Parser.Parse (0 + 1) (flatEnv []) (NewParser none) content2
          = Parser.Parse (0 + 1) (flatEnv []) (NewParser none)
              "[S]\nx = 1\n[ ]\ny = 2".toList)) ∧
    (Parser.Parse 1 (flatEnv []) (NewParser none)
      "[S]\nx = 1\n[ ]\ny = 2".toList).2.Config
        = { cfg := [("S".toList, [("x".toList, "1".toList)])] } :=
  ⟨⟨by decide, by decide, by decide, by decide⟩,
   first_error_aborts (flatEnv []) none 0 "[S]\nx = 1\n[ ]\ny = 2".toList 2
     (GoError.syntaxError { path := [], lineNr := 3, msg := "empty section name".toList })
     (by decide) (by decide) (by decide) (by decide),
   by decide⟩

/-! ## C24 : inclusion and inlining -/

/-- C24 (counterexample): `a.ini` includes `b.ini` on line 2 and again on line 3;
`b.ini` exists, differs from `a.ini` and holds no directive.  `ParseFile("a.ini")`
fails with "include loop" on line 3, while the text of `a.ini` with line 2
replaced by the content of `b.ini` parses without error, as a stream and as the
file `inl.ini` next to `a.ini`. -/
theorem inlining_counterexample :
    inlineFiles.openFile "a.ini".toList
      = some "[S]\n[Include b.ini]\n[Include b.ini]".toList ∧
    (readLines "[S]\n[Include b.ini]\n[Include b.ini]".toList)[1]?
      = some "[Include b.ini]\n".toList ∧
    directiveOf "[Include b.ini]\n".toList = some (false, "b.ini".toList) ∧
    inlineFiles.openFile "b.ini".toList = some "[T]\nx = 1".toList ∧
    (readLines "[T]\nx = 1".toList).all (fun l => directiveOf l == none) = true ∧
    replaceLine "[S]\n[Include b.ini]\n[Include b.ini]".toList 1 "[T]\nx = 1".toList
      = "[S]\n[T]\nx = 1\n[Include b.ini]".toList ∧
    (Parser.ParseFile 3 inlineFiles (NewParser none) "a.ini".toList).1
      = Outcome.err (GoError.syntaxError
          { path := "a.ini".toList, lineNr := 3, msg := "include loop".toList }) ∧
    (Parser.Parse 3 inlineFiles (NewParser none)
      (replaceLine "[S]\n[Include b.ini]\n[Include b.ini]".toList 1
        "[T]\nx = 1".toList)).1 = Outcome.ok ∧
    (Parser.ParseFile 3 inlineFiles (NewParser none) "inl.ini".toList).1 = Outcome.ok := by
  decide

theorem trimSpace_append_newline (l : Str) : trimSpace (l ++ ['\n']) = trimSpace l := by
  rw [← trimSpace_rdropWhile (l ++ ['\n']),
    rdropWhile_append_of_all isSpace l ['\n'] (by decide), trimSpace_rdropWhile]

/-- The method `handleLine` looks at a line through `strings.TrimSpace` only. -/
theorem handleLine_congr_trim (env : Env) (nested : Parser → Reader → Str → Outcome × Parser)
    (p : Parser) (l1 l2 : Str) (h : trimSpace l1 = trimSpace l2) :
    Parser.handleLine env nested p l1 = Parser.handleLine env nested p l2 := by
  unfold Parser.handleLine
  rw [h]

theorem popFile_agree (p : Parser) : Agree p.popFile p := by
  by_cases h : p.fileStack.length > 0 <;> simp [Parser.popFile, h, Agree]

theorem agree_trans {p q r : Parser} (h1 : Agree p q) (h2 : Agree q r) : Agree p r :=
  ⟨h1.1.trans h2.1, h1.2.1.trans h2.2.1, h1.2.2.trans h2.2.2⟩

theorem agree_symm {p q : Parser} (h : Agree p q) : Agree q p :=
  ⟨h.1.symm, h.2.1.symm, h.2.2.symm⟩

theorem insertValue_agree (p q : Parser) (s l v : Str) (a : Bool) (h : Agree p q) :
    Simulates (p.insertValue s l v a) (q.insertValue s l v a) := by
  obtain ⟨h1, h2, h3⟩ := h
  unfold Parser.insertValue
  by_cases hs : s = []
  · rw [if_pos hs, if_pos hs]
    exact ⟨⟨fun e => absurd e (syntaxError_ne_ok _ _),
      fun e => absurd e (syntaxError_ne_ok _ _)⟩, h1, h2, h3⟩
  · rw [if_neg hs, if_neg hs]
    by_cases hl : l = []
    · rw [if_pos hl, if_pos hl]
      exact ⟨⟨fun e => absurd e (syntaxError_ne_ok _ _),
        fun e => absurd e (syntaxError_ne_ok _ _)⟩, h1, h2, h3⟩
    · rw [if_neg hl, if_neg hl]
      cases a with
      | true =>
        simp only [if_true]
        exact ⟨⟨fun _ => rfl, fun _ => rfl⟩, by simp only [h1], h2, h3⟩
      | false =>
        simp only [Bool.false_eq_true, if_false]
        exact ⟨⟨fun _ => rfl, fun _ => rfl⟩, by simp only [h1], h2, h3⟩

theorem sameFrame_inFrame {q p : Parser} (h : SameFrame q p) (hp : p.InFrame) : q.InFrame := by
  unfold Parser.InFrame at hp ⊢
  rw [h.1, h.2.1]
  exact hp

theorem sameFrame_trans {r q p : Parser} (h1 : SameFrame r q) (h2 : SameFrame q p) :
    SameFrame r p :=
  ⟨h1.1.trans h2.1, h1.2.1.trans h2.2.1, h1.2.2.trans h2.2.2⟩

/-- A line without a directive keeps the frame, whatever its outcome. -/
theorem handleLine_sameFrame (env : Env) (nested : Parser → Reader → Str → Outcome × Parser)
    (p : Parser) (line : Str) (hdir : directiveOf line = none) :
    SameFrame (Parser.handleLine env nested p line).2 p := by
  cases hinc : p.incLineNr with
  | none =>
    unfold Parser.handleLine
    rw [hinc]
    exact ⟨rfl, rfl, rfl⟩
  | some p1 =>
    obtain ⟨-, -, h1, h2, h3⟩ := handleLine_not_directive env nested p p1 line hinc hdir
    obtain ⟨g1, g2, g3⟩ := incLineNr_fields p p1 hinc
    exact ⟨h1.trans g1, by rw [h2, g3], h3.trans g2⟩

/-- A line without a directive is handled in the same way in two states that
agree, whatever their frames. -/
theorem handleLine_agree (env : Env) (n1 n2 : Parser → Reader → Str → Outcome × Parser)
    (p q : Parser) (line : Str) (hdir : directiveOf line = none)
    (hp : p.InFrame) (hq : q.InFrame) (hag : Agree p q) :
    Simulates (Parser.handleLine env n1 p line) (Parser.handleLine env n2 q line) := by
  obtain ⟨n, -, hincp⟩ := incLineNr_of_InFrame p hp
  obtain ⟨m, -, hincq⟩ := incLineNr_of_InFrame q hq
  obtain ⟨c1, c2, c3⟩ := incLineNr_Config p _ hincp
  obtain ⟨d1, d2, d3⟩ := incLineNr_Config q _ hincq
  generalize ({ p with lineNrStack := p.lineNrStack.dropLast ++ [(n + 1) % 2 ^ 64] } : Parser)
    = p1 at hincp c1 c2 c3
  generalize ({ q with lineNrStack := q.lineNrStack.dropLast ++ [(m + 1) % 2 ^ 64] } : Parser)
    = q1 at hincq d1 d2 d3
  have hag1 : Agree p1 q1 :=
    ⟨c1.trans (hag.1.trans d1.symm), c2.trans (hag.2.1.trans d2.symm),
      c3.trans (hag.2.2.trans d3.symm)⟩
  unfold directiveOf at hdir
  simp only [] at hdir
  unfold Parser.handleLine
  simp only [hincp, hincq]
  by_cases h1 : removeComments (trimSpace line) = []
  · simp only [if_pos h1]
    exact ⟨⟨fun _ => rfl, fun _ => rfl⟩, hag1⟩
  · simp only [if_neg h1] at hdir ⊢
    by_cases h2 : (readSectionName (removeComments (trimSpace line))).1 = true
    · simp only [if_pos h2] at hdir ⊢
      by_cases h3 : hasPrefixStr (readSectionName (removeComments (trimSpace line))).2
          "Require ".toList = true
      · rw [if_pos h3] at hdir
        exact Option.noConfusion hdir
      · rw [if_neg h3] at hdir
        rw [if_neg h3, if_neg h3]
        by_cases h4 : hasPrefixStr (readSectionName (removeComments (trimSpace line))).2
            "Include ".toList = true
        · rw [if_pos h4] at hdir
          exact Option.noConfusion hdir
        · rw [if_neg h4, if_neg h4]
          unfold Parser.setCurSection
          by_cases h5 : (readSectionName (removeComments (trimSpace line))).2 = []
          · rw [if_pos h5, if_pos h5]
            exact ⟨⟨fun e => absurd e (syntaxError_ne_ok _ _),
              fun e => absurd e (syntaxError_ne_ok _ _)⟩, hag1⟩
          · rw [if_neg h5, if_neg h5]
            exact ⟨⟨fun _ => rfl, fun _ => rfl⟩, hag1.1, rfl, hag1.2.2⟩
    · simp only [if_neg h2]
      rw [hag1.2.1, hag1.2.2]
      split_ifs
      · exact insertValue_agree _ _ _ _ _ _ ⟨hag1.1, rfl, rfl⟩
      · exact insertValue_agree _ _ _ _ _ _ ⟨hag1.1, rfl, rfl⟩
      · exact insertValue_agree _ _ _ _ _ _ hag1

/-- Lines without a directive are handled in the same way in two states that
agree; the lines may differ in their surrounding white space. -/
theorem handleLines_agree (env : Env) (n1 n2 : Parser → Reader → Str → Outcome × Parser)
    (L1 L2 : List Str)
    (hL : List.Forall₂ (fun a b => trimSpace a = trimSpace b) L1 L2)
    (hplain : ∀ l ∈ L1, directiveOf l = none) (p q : Parser)
    (hp : p.InFrame) (hq : q.InFrame) (hag : Agree p q) :
    Simulates (handleLines (Parser.handleLine env n1) p L1)
      (handleLines (Parser.handleLine env n2) q L2) ∧
    SameFrame (handleLines (Parser.handleLine env n1) p L1).2 p ∧
    SameFrame (handleLines (Parser.handleLine env n2) q L2).2 q := by
  induction hL generalizing p q with
  | nil => exact ⟨⟨⟨fun _ => rfl, fun _ => rfl⟩, hag⟩, ⟨rfl, rfl, rfl⟩, ⟨rfl, rfl, rfl⟩⟩
  | @cons a b L1 L2 hab _ ih =>
    have hd : directiveOf a = none := hplain a (List.mem_cons_self _ _)
    have hd2 : directiveOf b = none := by
      unfold directiveOf at hd ⊢
      rw [← hab]
      exact hd
    have hsim := handleLine_agree env n1 n2 p q a hd hp hq hag
    rw [handleLine_congr_trim env n2 q a b hab] at hsim
    have hf1 := handleLine_sameFrame env n1 p a hd
    have hf2 := handleLine_sameFrame env n2 q b hd2
    unfold handleLines
    cases hr1 : Parser.handleLine env n1 p a with
    | mk r1 p1 =>
      cases hr2 : Parser.handleLine env n2 q b with
      | mk r2 q1 =>
        rw [hr1, hr2] at hsim
        rw [hr1] at hf1
        rw [hr2] at hf2
        obtain ⟨hiff, hag1⟩ := hsim
        simp only [] at hiff hag1 hf1 hf2
        cases r1 with
        | ok =>
          have e2 : r2 = Outcome.ok := hiff.1 rfl
          subst e2
          simp only []
          obtain ⟨i1, i2, i3⟩ := ih (fun l hl => hplain l (List.mem_cons_of_mem _ hl)) p1 q1
            (sameFrame_inFrame hf1 hp) (sameFrame_inFrame hf2 hq) hag1
          exact ⟨i1, sameFrame_trans i2 hf1, sameFrame_trans i3 hf2⟩
        | err e =>
          have hne : r2 ≠ Outcome.ok := fun h => Outcome.noConfusion (hiff.2 h)
          cases r2 with
          | ok => exact absurd rfl hne
          | err e2 => exact ⟨⟨hiff, hag1⟩, hf1, hf2⟩
          | panic => exact ⟨⟨hiff, hag1⟩, hf1, hf2⟩
          | outOfFuel => exact ⟨⟨hiff, hag1⟩, hf1, hf2⟩
        | panic =>
          have hne : r2 ≠ Outcome.ok := fun h => Outcome.noConfusion (hiff.2 h)
          cases r2 with
          | ok => exact absurd rfl hne
          | err e2 => exact ⟨⟨hiff, hag1⟩, hf1, hf2⟩
          | panic => exact ⟨⟨hiff, hag1⟩, hf1, hf2⟩
          | outOfFuel => exact ⟨⟨hiff, hag1⟩, hf1, hf2⟩
        | outOfFuel =>
          have hne : r2 ≠ Outcome.ok := fun h => Outcome.noConfusion (hiff.2 h)
          cases r2 with
          | ok => exact absurd rfl hne
          | err e2 => exact ⟨⟨hiff, hag1⟩, hf1, hf2⟩
          | panic => exact ⟨⟨hiff, hag1⟩, hf1, hf2⟩
          | outOfFuel => exact ⟨⟨hiff, hag1⟩, hf1, hf2⟩
theorem eraseIdx_append_cons (A : List Str) (l : Str) (B : List Str) :
    (A ++ l :: B).eraseIdx A.length = A ++ B := by
  induction A with
  | nil => rfl
  | cons a A ih => simp [List.eraseIdx, ih]

theorem lineEnd_full (a : Str) : lineEnd (a ++ ['\n']) = ['\n'] := by
  simp [lineEnd]

theorem lineEnd_of_no_newline (x : Str) (h : '\n' ∉ x) : lineEnd x = [] := by
  unfold lineEnd
  rw [if_neg]
  intro e
  exact h (List.mem_of_mem_getLast? e)

/-- The lines of a text in which a line has been replaced by a text: the lines
before it, the lines of the replacement (the last one with the newline of the
replaced line), the lines after it. -/
theorem replaceLine_lines (fcontent gcontent line : Str) (k : Nat)
    (hline : (readLines fcontent)[k]? = some line) :
    ∃ A B G2, readLines fcontent = A ++ line :: B ∧
      (readLines fcontent).eraseIdx k = A ++ B ∧
      readLines (replaceLine fcontent k gcontent) = A ++ (G2 ++ B) ∧
      List.Forall₂ (fun a b => trimSpace a = trimSpace b) (readLines gcontent) G2 := by
  obtain ⟨M, x, h1, h2, h3, h4⟩ := readLines_shape fcontent
  obtain ⟨MG, xg, g1, g2, g3, g4⟩ := readLines_shape gcontent
  have hrefl : ∀ L : List Str, List.Forall₂ (fun a b => trimSpace a = trimSpace b) L L := by
    intro L
    induction L with
    | nil => exact List.Forall₂.nil
    | cons a L ih => exact List.Forall₂.cons rfl ih
  rw [h1] at hline
  rcases Nat.lt_or_ge k M.length with hlt | hge
  · have hl : line = M[k] := by
      rw [List.getElem?_append_left hlt, List.getElem?_eq_getElem hlt] at hline
      exact (Option.some.inj hline).symm
    have hd : M.drop k = M[k] :: M.drop (k + 1) := List.drop_eq_getElem_cons hlt
    have hsplit : M = M.take k ++ line :: M.drop (k + 1) := by
      rw [hl, ← hd, List.take_append_drop]
    have hAlen : (M.take k).length = k := by
      rw [List.length_take]
      omega
    obtain ⟨a, ha1, ha2⟩ := h2 line (by rw [hl]; exact List.getElem_mem _)
    have hrl : readLines fcontent = M.take k ++ line :: (M.drop (k + 1) ++ [x]) := by
      rw [h1]
      conv_lhs => rw [hsplit]
      rw [List.append_assoc]
      rfl
    refine ⟨M.take k, M.drop (k + 1) ++ [x], MG ++ [xg ++ ['\n']], hrl, ?_, ?_, ?_⟩
    · rw [hrl]
      have := eraseIdx_append_cons (M.take k) line (M.drop (k + 1) ++ [x])
      rw [hAlen] at this
      exact this
    · have hget : (readLines fcontent).getD k [] = line := by
        rw [hrl, List.getD_eq_getElem?_getD, List.getElem?_append_right (by omega), hAlen]
        simp
      have htake : (readLines fcontent).take k = M.take k := by
        rw [h1, List.take_append_of_le_length (by omega)]
      have hdrop : (readLines fcontent).drop (k + 1) = M.drop (k + 1) ++ [x] := by
        rw [h1, List.drop_append_of_le_length (by omega)]
      have e : replaceLine fcontent k gcontent
          = (M.take k).flatten ++ (MG.flatten ++ (xg ++ '\n' ::
              ((M.drop (k + 1)).flatten ++ x))) := by
        unfold replaceLine
        rw [hget, htake, hdrop, ha2, lineEnd_full, g4]
        simp
      rw [e, readLines_flatten_append _ _ (fun l hl => h2 l (List.mem_of_mem_take hl)),
        readLines_flatten_append _ _ g2, readLines_append_newline xg _ g3,
        readLines_flatten_append _ _ (fun l hl => h2 l (List.mem_of_mem_drop hl)),
        readLines_of_no_newline x h3]
      simp
    · rw [g1]
      exact List.rel_append (hrefl MG)
        (List.Forall₂.cons (trimSpace_append_newline xg).symm List.Forall₂.nil)
  · have hk : k = M.length := by
      by_contra hne
      have : (M ++ [x]).length ≤ k := by
        simp
        omega
      rw [List.getElem?_eq_none this] at hline
      exact Option.noConfusion hline
    have hl : line = x := by
      rw [hk, List.getElem?_append_right (le_refl _)] at hline
      simp at hline
      exact hline.symm
    subst hl
    refine ⟨M, [], readLines gcontent, h1, ?_, ?_, hrefl _⟩
    · rw [h1, hk]
      exact eraseIdx_append_cons M line []
    · have e : replaceLine fcontent k gcontent = M.flatten ++ gcontent := by
        unfold replaceLine
        rw [h1, hk]
        simp [lineEnd_of_no_newline line h3]
      rw [e, readLines_flatten_append _ _ h2]
      simp

/-- A directive that opens a file not yet visited runs the loop over the lines
of that file and pops its frame. -/
theorem handleLine_enters (env : Env) (fuel : Nat) (p p1 : Parser) (line : Str)
    (req : Bool) (arg g gcontent : Str) (hinc : p.incLineNr = some p1)
    (hdir : directiveOf line = some (req, arg))
    (hres : p1.resolveIncludeFile env arg = some g)
    (hopen : env.openFile g = some gcontent)
    (hnew : env.abs g ∉ p1.visitedFiles) :
    Parser.handleLine env (fun q c f => Parser.parseReader (fuel + 1) env q c f) p line
      = ((handleLines (Parser.handleLine env (fun q c f => Parser.parseReader fuel env q c f))
            (p1.entered env g) (readLines gcontent)).1,
         (handleLines (Parser.handleLine env (fun q c f => Parser.parseReader fuel env q c f))
            (p1.entered env g) (readLines gcontent)).2.popFile) := by
  replace hopen : env.openFile g = some { content := gcontent, fails := false } := hopen
  rw [handleLine_directive env _ p p1 line req arg hinc hdir, hres]
  simp only []
  cases req with
  | true =>
    simp only [Parser.ParseFileWith, hopen, if_true]
    exact parseReader_entered fuel env p1 gcontent g hnew
  | false =>
    simp only [Bool.false_eq_true, if_false, hopen]
    exact parseReader_entered fuel env p1 gcontent g hnew
theorem handleLines_cons_stop (h : Parser → Str → Outcome × Parser) (p : Parser)
    (l : Str) (ls : List Str) (hne : (h p l).1 ≠ Outcome.ok) :
    handleLines h p (l :: ls) = h p l := by
  unfold handleLines
  cases hr : h p l with
  | mk r q =>
    rw [hr] at hne
    cases r with
    | ok => exact absurd rfl hne
    | err e => rfl
    | panic => rfl
    | outOfFuel => rfl

theorem simulates_popFile {r1 r2 : Outcome × Parser} (h : Simulates r1 r2) :
    Simulates (r1.1, r1.2.popFile) (r2.1, r2.2.popFile) :=
  ⟨h.1, agree_trans (popFile_agree r1.2) (agree_trans h.2 (agree_symm (popFile_agree r2.2)))⟩

/-- The loop over the lines of a file with one directive, which opens a file
without directives, against the loop over the lines of the inlined text. -/
theorem handleLines_inline (env : Env) (fuel : Nat)
    (n2 : Parser → Reader → Str → Outcome × Parser) (p q : Parser) (A B G2 : List Str)
    (line : Str) (req : Bool) (arg f gcontent : Str)
    (hp : p.InFrame) (hq : q.InFrame) (hag : Agree p q)
    (hfile : p.fileStack.getLast? = some f)
    (hdir : directiveOf line = some (req, arg))
    (hopen : env.openFile (env.join (env.dir f) (trimSpace arg)) = some gcontent)
    (hnew : env.abs (env.join (env.dir f) (trimSpace arg)) ∉ p.visitedFiles)
    (hA : ∀ l ∈ A, directiveOf l = none) (hB : ∀ l ∈ B, directiveOf l = none)
    (hgplain : ∀ l ∈ readLines gcontent, directiveOf l = none)
    (hG : List.Forall₂ (fun a b => trimSpace a = trimSpace b) (readLines gcontent) G2) :
    Simulates
      (handleLines (Parser.handleLine env
        (fun r c f => Parser.parseReader (fuel + 1) env r c f)) p (A ++ line :: B))
      (handleLines (Parser.handleLine env n2) q (A ++ (G2 ++ B))) := by
  have hrefl : ∀ L : List Str, List.Forall₂ (fun a b => trimSpace a = trimSpace b) L L := by
    intro L
    induction L with
    | nil => exact List.Forall₂.nil
    | cons a L ih => exact List.Forall₂.cons rfl ih
  obtain ⟨sA, fA1, fA2⟩ := handleLines_agree env
    (fun r c f => Parser.parseReader (fuel + 1) env r c f) n2 A A (hrefl A) hA p q hp hq hag
  cases hrA1 : handleLines (Parser.handleLine env
      (fun r c f => Parser.parseReader (fuel + 1) env r c f)) p A with
  | mk r1 pA =>
    cases hrA2 : handleLines (Parser.handleLine env n2) q A with
    | mk r2 qA =>
      rw [hrA1, hrA2] at sA
      rw [hrA1] at fA1
      rw [hrA2] at fA2
      simp only [] at fA1 fA2
      by_cases hok : r1 = Outcome.ok
      · subst hok
        have hok2 : r2 = Outcome.ok := sA.1.1 rfl
        subst hok2
        rw [handleLines_append_ok _ _ pA A _ hrA1, handleLines_append_ok _ _ qA A _ hrA2]
        have hpA : pA.InFrame := sameFrame_inFrame fA1 hp
        have hqA : qA.InFrame := sameFrame_inFrame fA2 hq
        obtain ⟨n, -, hinc⟩ := incLineNr_of_InFrame pA hpA
        obtain ⟨c1, c2, c3⟩ := incLineNr_Config pA _ hinc
        obtain ⟨i1, i2, i3⟩ := incLineNr_fields pA _ hinc
        generalize ({ pA with lineNrStack := pA.lineNrStack.dropLast ++ [(n + 1) % 2 ^ 64] }
          : Parser) = p1 at hinc c1 c2 c3 i1 i2 i3
        have hlen1 : p1.lineNrStack.length = p1.fileStack.length := by
          rw [i1, i3]
          exact hpA.2
        have hres : p1.resolveIncludeFile env arg
            = some (env.join (env.dir f) (trimSpace arg)) := by
          unfold Parser.resolveIncludeFile Parser.curFile
          rw [i1, fA1.1, hfile]
        have hnew1 : env.abs (env.join (env.dir f) (trimSpace arg)) ∉ p1.visitedFiles := by
          rw [i2, fA1.2.2]
          exact hnew
        have hline := handleLine_enters env fuel pA p1 line req arg _ gcontent hinc hdir hres
          hopen hnew1
        have hent : (p1.entered env (env.join (env.dir f) (trimSpace arg))).InFrame := by
          unfold Parser.InFrame Parser.entered
          simp [hlen1]
        have hagG : Agree (p1.entered env (env.join (env.dir f) (trimSpace arg))) qA :=
          ⟨c1.trans sA.2.1, c2.trans sA.2.2.1, c3.trans sA.2.2.2⟩
        obtain ⟨sG, fG1, fG2⟩ := handleLines_agree env
          (fun r c f => Parser.parseReader fuel env r c f) n2 (readLines gcontent) G2 hG
          hgplain _ qA hent hqA hagG
        cases hrG1 : handleLines (Parser.handleLine env
            (fun r c f => Parser.parseReader fuel env r c f))
            (p1.entered env (env.join (env.dir f) (trimSpace arg))) (readLines gcontent) with
        | mk rg1 pG =>
          cases hrG2 : handleLines (Parser.handleLine env n2) qA G2 with
          | mk rg2 qG =>
            rw [hrG1, hrG2] at sG
            rw [hrG1] at fG1 hline
            rw [hrG2] at fG2
            simp only [] at fG1 fG2 hline
            by_cases hokG : rg1 = Outcome.ok
            · subst hokG
              have hokG2 : rg2 = Outcome.ok := sG.1.1 rfl
              subst hokG2
              rw [handleLines_cons_ok _ pA pG.popFile line B hline,
                handleLines_append_ok _ _ qG G2 B hrG2]
              obtain ⟨j1, j2, -⟩ := popFile_entered_fields env p1 pG _ hlen1 fG1.1 fG1.2.1
              have hpop : pG.popFile.InFrame := by
                unfold Parser.InFrame
                rw [j1, j2, i1, i3]
                exact hpA
              exact (handleLines_agree env _ n2 B B (hrefl B) hB pG.popFile qG hpop
                (sameFrame_inFrame fG2 hqA) (agree_trans (popFile_agree pG) sG.2)).1
            · have hokG2 : rg2 ≠ Outcome.ok := fun h => hokG (sG.1.2 h)
              rw [handleLines_cons_stop _ pA line B (by rw [hline]; exact hokG), hline,
                handleLines_append_stop _ qA G2 B (by rw [hrG2]; exact hokG2), hrG2]
              exact ⟨⟨fun h => absurd h hokG, fun h => absurd h hokG2⟩,
                agree_trans (popFile_agree pG) sG.2⟩
      · have hok2 : r2 ≠ Outcome.ok := fun h => hok (sA.1.2 h)
        rw [handleLines_append_stop _ p A _ (by rw [hrA1]; exact hok), hrA1,
          handleLines_append_stop _ q A _ (by rw [hrA2]; exact hok2), hrA2]
        exact sA

/-- C24 (amended): for every file system, every file `f` that can be opened and
every `k` such that line `k + 1` of `f` is an Include or Require directive, the
file `g` it resolves to can be opened, differs from `f` and holds no directive,
and no other line of `f` holds a directive: `ParseFile(f)` on a fresh Parser
returns no error exactly when `Parse` of the text of `f` with line `k + 1` replaced
by the content of `g` returns no error, and both leave the same store, the same
current section and the same current label. -/
theorem inclusion_is_inlining (env : Env) (c : Option Config) (fuel fuel2 : Nat)
    (f fcontent : Str) (k : Nat) (line : Str) (req : Bool) (arg gcontent : Str)
    (hf : env.openFile f = some fcontent)
    (hline : (readLines fcontent)[k]? = some line)
    (hdir : directiveOf line = some (req, arg))
    (hopen : env.openFile (env.join (env.dir f) (trimSpace arg)) = some gcontent)
    (hne : env.abs (env.join (env.dir f) (trimSpace arg)) ≠ env.abs f)
    (hgplain : ∀ l ∈ readLines gcontent, directiveOf l = none)
    (hfplain : ∀ l ∈ (readLines fcontent).eraseIdx k, directiveOf l = none) :
    ((Parser.ParseFile (fuel + 2) env (NewParser c) f).1 = Outcome.ok ↔
      (Parser.Parse (fuel2 + 1) env (NewParser c) (replaceLine fcontent k gcontent)).1
        = Outcome.ok) ∧
    (Parser.ParseFile (fuel + 2) env (NewParser c) f).2.Config
      = (Parser.Parse (fuel2 + 1) env (NewParser c)
          (replaceLine fcontent k gcontent)).2.Config ∧
    (Parser.ParseFile (fuel + 2) env (NewParser c) f).2.curSection
      = (Parser.Parse (fuel2 + 1) env (NewParser c)
          (replaceLine fcontent k gcontent)).2.curSection ∧
    (Parser.ParseFile (fuel + 2) env (NewParser c) f).2.curLabel
      = (Parser.Parse (fuel2 + 1) env (NewParser c)
          (replaceLine fcontent k gcontent)).2.curLabel := by
  replace hf : env.openFile f = some { content := fcontent, fails := false } := hf
  obtain ⟨A, B, G2, hrl, her, hrep, hG⟩ := replaceLine_lines fcontent gcontent line k hline
  have hA : ∀ l ∈ A, directiveOf l = none :=
    fun l hl => hfplain l (by rw [her]; exact List.mem_append_left _ hl)
  have hB : ∀ l ∈ B, directiveOf l = none :=
    fun l hl => hfplain l (by rw [her]; exact List.mem_append_right _ hl)
  have hPF : Parser.ParseFile (fuel + 2) env (NewParser c) f
      = ((handleLines (Parser.handleLine env
            (fun r c f => Parser.parseReader (fuel + 1) env r c f))
            ((NewParser c).entered env f) (A ++ line :: B)).1,
         (handleLines (Parser.handleLine env
            (fun r c f => Parser.parseReader (fuel + 1) env r c f))
            ((NewParser c).entered env f) (A ++ line :: B)).2.popFile) := by
    unfold Parser.ParseFile Parser.ParseFileWith
    simp only [hf]
    rw [parseReader_entered (fuel + 1) env (NewParser c) fcontent f (by simp [NewParser]), hrl]
  rw [hPF, Parse_fresh, hrep]
  exact simulates_popFile (handleLines_inline env fuel _ _ _ A B G2 line req arg f gcontent
    (by simp [Parser.InFrame, Parser.entered, NewParser])
    (by simp [Parser.InFrame, Parser.entered, NewParser])
    ⟨rfl, rfl, rfl⟩ (by simp [Parser.entered, NewParser]) hdir hopen
    (by simpa [Parser.entered, NewParser] using hne) hA hB hgplain hG)

/-- Witness of `inclusion_is_inlining`: `a.ini` sets `x`, includes `b.ini`,
which sets `x` and `y`, and then sets `y`: the `x` of `b.ini` and the `y` of the
last line of `a.ini` are in the store. -/
theorem inclusion_is_inlining_witness :
    (overrideFiles.openFile "a.ini".toList
        = some "[S]\nx = 1\n[Include b.ini]\ny = 5".toList ∧
      (readLines "[S]\nx = 1\n[Include b.ini]\ny = 5".toList)[2]?
        = some "[Include b.ini]\n".toList ∧
      directiveOf "[Include b.ini]\n".toList = some (false, "b.ini".toList) ∧
      overrideFiles.openFile
          (overrideFiles.join (overrideFiles.dir "a.ini".toList) (trimSpace "b.ini".toList))
        = some "x = 2\ny = 4\n".toList ∧
      overrideFiles.abs
          (overrideFiles.join (overrideFiles.dir "a.ini".toList) (trimSpace "b.ini".toList))
        ≠ overrideFiles.abs "a.ini".toList ∧
      (∀ l ∈ readLines "x = 2\ny = 4\n".toList, directiveOf l = none) ∧
      (∀ l ∈ (readLines "[S]\nx = 1\n[Include b.ini]\ny = 5".toList).eraseIdx 2,
        directiveOf l = none)) ∧
    (((Parser.ParseFile (0 + 2) overrideFiles (NewParser none) "a.ini".toList).1
          = Outcome.ok ↔
        (Parser.Parse (0 + 1) overrideFiles (NewParser none)
          (replaceLine "[S]\nx = 1\n[Include b.ini]\ny = 5".toList 2
            "x = 2\ny = 4\n".toList)).1 = Outcome.ok) ∧
      (Parser.ParseFile (0 + 2) overrideFiles (NewParser none) "a.ini".toList).2.Config
        = (Parser.Parse (0 + 1) overrideFiles (NewParser none)
            (replaceLine "[S]\nx = 1\n[Include b.ini]\ny = 5".toList 2
              "x = 2\ny = 4\n".toList)).2.Config ∧
      (Parser.ParseFile (0 + 2) overrideFiles (NewParser none) "a.ini".toList).2.curSection
        = (Parser.Parse (0 + 1) overrideFiles (NewParser none)
            (replaceLine "[S]\nx = 1\n[Include b.ini]\ny = 5".toList 2
              "x = 2\ny = 4\n".toList)).2.curSection ∧
      (Parser.ParseFile (0 + 2) overrideFiles (NewParser none) "a.ini".toList).2.curLabel
        = (Parser.Parse (0 + 1) overrideFiles (NewParser none)
            (replaceLine "[S]\nx = 1\n[Include b.ini]\ny = 5".toList 2
              "x = 2\ny = 4\n".toList)).2.curLabel) ∧
    replaceLine "[S]\nx = 1\n[Include b.ini]\ny = 5".toList 2 "x = 2\ny = 4\n".toList
      = "[S]\nx = 1\nx = 2\ny = 4\n\ny = 5".toList ∧
    (Parser.ParseFile 2 overrideFiles (NewParser none) "a.ini".toList).1 = Outcome.ok ∧
    (Parser.ParseFile 2 overrideFiles (NewParser none) "a.ini".toList).2.Config
      = { cfg := [("S".toList, [("x".toList, "2".toList), ("y".toList, "5".toList)])] } :=
  ⟨⟨by decide, by decide, by decide, by decide, by decide, by decide, by decide⟩,
   inclusion_is_inlining overrideFiles none 0 0 "a.ini".toList
     "[S]\nx = 1\n[Include b.ini]\ny = 5".toList 2 "[Include b.ini]\n".toList false
     "b.ini".toList "x = 2\ny = 4\n".toList
     (by decide) (by decide) (by decide) (by decide) (by decide) (by decide) (by decide),
   by decide, by decide, by decide⟩

/-! ## C25 : a directory that is included -/

/-- Once every read fails, the loop of `parseReader` goes on for ever: inside a
frame, `handleLine` accepts the empty string each time, so no amount of fuel
gives a result. -/
theorem readErrorLoop_never_returns (env : Env)
    (nested : Parser → Reader → Str → Outcome × Parser) (fuel : Nat) (p : Parser)
    (hp : p.InFrame) :
    (readErrorLoop (Parser.handleLine env nested) fuel p).1 = Outcome.outOfFuel := by
  induction fuel generalizing p with
  | zero => rfl
  | succ fuel ih =>
    obtain ⟨n, -, hinc⟩ := incLineNr_of_InFrame p hp
    obtain ⟨g1, -, g3⟩ := incLineNr_fields p _ hinc
    unfold readErrorLoop
    rw [handleLine_nil, hinc]
    simp only []
    apply ih
    unfold Parser.InFrame at hp ⊢
    rw [g1, g3]
    exact hp

/-- The method `parseReader` never returns on a directory: the path is pushed,
the first read fails, and the loop goes on over reads that fail. -/
theorem parseReader_directory_never_returns (env : Env) (fuel : Nat) (p : Parser)
    (path : Str) (hlen : p.lineNrStack.length = p.fileStack.length)
    (hnew : env.abs path ∉ p.visitedFiles) :
    (Parser.parseReader fuel env p { content := [], fails := true } path).1
      = Outcome.outOfFuel := by
  cases fuel with
  | zero => rfl
  | succ n =>
    rw [parseReader_succ_reader n env p _ path hnew]
    simp only []
    have hp : ({ p with visitedFiles := p.visitedFiles ++ [env.abs path],
                        fileStack := p.fileStack ++ [path],
                        lineNrStack := p.lineNrStack ++ [0] } : Parser).InFrame := by
      unfold Parser.InFrame
      simp [hlen]
    obtain ⟨k, -, hinc⟩ := incLineNr_of_InFrame _ hp
    obtain ⟨g1, -, g3⟩ := incLineNr_fields _ _ hinc
    have hl : readLines [] = [[]] := rfl
    unfold readLoop
    simp only [hl]
    unfold handleLines
    rw [handleLine_nil, hinc]
    simp only [handleLines, if_true]
    apply readErrorLoop_never_returns
    unfold Parser.InFrame at hp ⊢
    rw [g1, g3]
    exact hp

/-- C25 (the code at the failing input): in a directory that holds the file
`a.ini` with the text `"[S]\n[Include .]\nx = 1"`, `ParseFile("a.ini")` on a fresh
Parser never returns: whatever the bound on the nested calls and on the turns of
the loop, the model runs out of fuel.  Line 2 resolves to the directory, which
`os.Open` opens; every `ReadString` on it fails with an error other than
`io.EOF`, so `eof` stays false and the loop of `parseReader` calls `handleLine`
on the empty string for ever.  `ParseFile(".")` never returns either, while
the same text without line 2 parses. -/
theorem include_of_directory_never_returns :
    (∀ fuel, (Parser.ParseFile fuel dirFiles (NewParser none) "a.ini".toList).1
      = Outcome.outOfFuel) ∧
    (∀ fuel, (Parser.ParseFile fuel dirFiles (NewParser none) ".".toList).1
      = Outcome.outOfFuel) ∧
    (Parser.Parse 1 dirFiles (NewParser none) "[S]\nx = 1".toList).1 = Outcome.ok := by
  refine ⟨fun fuel => ?_, fun fuel => ?_, by decide⟩
  · have hopen : dirFiles.openFile "a.ini".toList
        = some { content := "[S]\n[Include .]\nx = 1".toList, fails := false } := by decide
    unfold Parser.ParseFile Parser.ParseFileWith
    simp only [hopen]
    cases fuel with
    | zero => rfl
    | succ n =>
      rw [parseReader_entered n dirFiles (NewParser none) _ "a.ini".toList (by decide)]
      simp only []
      have hl : readLines "[S]\n[Include .]\nx = 1".toList
          = ["[S]\n".toList, "[Include .]\n".toList, "x = 1".toList] := by decide
      have h1 : Parser.handleLine dirFiles
          (fun q c f => Parser.parseReader n dirFiles q c f)
          ((NewParser none).entered dirFiles "a.ini".toList) "[S]\n".toList
          = (Outcome.ok, ⟨⟨[]⟩, "S".toList, [], ["a.ini".toList], [1], ["a.ini".toList]⟩) :=
        rfl
      have h2 : (Parser.handleLine dirFiles
          (fun q c f => Parser.parseReader n dirFiles q c f)
          ⟨⟨[]⟩, "S".toList, [], ["a.ini".toList], [1], ["a.ini".toList]⟩
          "[Include .]\n".toList).1 = Outcome.outOfFuel := by
        rw [handleLine_directive dirFiles _ _
          ⟨⟨[]⟩, "S".toList, [], ["a.ini".toList], [2], ["a.ini".toList]⟩ _ false
          ".".toList (by decide) (by decide)]
        have hres : Parser.resolveIncludeFile dirFiles
            ⟨⟨[]⟩, "S".toList, [], ["a.ini".toList], [2], ["a.ini".toList]⟩ ".".toList
            = some ".".toList := by decide
        have hdir : dirFiles.openFile ".".toList
            = some { content := [], fails := true } := by decide
        rw [hres]
        simp only [Bool.false_eq_true, if_false, hdir]
        exact parseReader_directory_never_returns dirFiles n _ ".".toList (by decide)
          (by decide)
      rw [hl, handleLines_cons_ok _ _ _ _ _ h1,
        handleLines_cons_stop _ _ _ _ (by rw [h2]; exact fun e => Outcome.noConfusion e)]
      exact h2
  · have hopen : dirFiles.openFile ".".toList
        = some { content := [], fails := true } := by decide
    unfold Parser.ParseFile Parser.ParseFileWith
    simp only [hopen]
    exact parseReader_directory_never_returns dirFiles fuel _ ".".toList rfl (by decide)

end Ini
